import Mathlib

/-!
Shallow embedding of the multi-warehouse pickup/delivery VRP solver
(`lib/data_structures.py`, `lib/solver.py`).

Modelling conventions:
* Python `dict`s keyed by the three fixed good types (`current_loads`,
  `demands`, `remaining_demands`) become the record `Goods`; `dict`s with a
  variable key set (the `amounts` arguments) become association lists
  `List (Good × Int)`, preserving insertion-order iteration and the
  `break` semantics of `Vehicle.partial_load` / `Vehicle.reload`.
* Python object identity of `Point`s is modelled by a numeric tag `pid`;
  the mutable `remaining_demands` state of the point objects is threaded
  explicitly as an association list `Rem` keyed by `pid`.
* The `random` module seeded with a fixed seed is a deterministic stream;
  it is modelled by a function `g : Nat → Nat` together with a position
  counter that every drawing operation advances.
* Python exceptions (`IndexError` on empty sequences, `ValueError` from
  `random.sample` / `min([])`, `AttributeError` from using `None` as a
  point) are modelled with `Except SimErr`.
* Distances are `float` in the source.  The simulator and search engine are
  parametrised by a distance function `D` into an arbitrary linear ordered
  field; the claim theorems instantiate `D` with the Euclidean distance
  `Point.distance_to` over `ℝ`.
-/

/-- The fixed good types (`GOOD_TYPES = ["oranges", "uranium", "tuna"]`). -/
inductive Good where
  | oranges
  | uranium
  | tuna
deriving DecidableEq, Repr

/-- `GOOD_TYPES` in its source order. -/
def goodList : List Good := [Good.oranges, Good.uranium, Good.tuna]

/-- A mapping from the three fixed good types to integers: the model of the
Python dicts whose key set is exactly `GOOD_TYPES`. -/
structure Goods where
  oranges : Int
  uranium : Int
  tuna : Int
deriving DecidableEq, Repr

namespace Goods

def get (l : Goods) : Good → Int
  | Good.oranges => l.oranges
  | Good.uranium => l.uranium
  | Good.tuna => l.tuna

def set (l : Goods) : Good → Int → Goods
  | Good.oranges, a => { l with oranges := a }
  | Good.uranium, a => { l with uranium := a }
  | Good.tuna, a => { l with tuna := a }

/-- `d[g] += a`. -/
def add (l : Goods) (g : Good) (a : Int) : Goods := l.set g (l.get g + a)

/-- `sum(d.values())`. -/
def sum (l : Goods) : Int := l.oranges + l.uranium + l.tuna

def zero : Goods := ⟨0, 0, 0⟩

end Goods

/-- `point_type` of a point: `"delivery"`, `"pickup"` or `"warehouse"`. -/
inductive PType where
  | delivery
  | pickup
  | warehouse
deriving DecidableEq, Repr

/-- A `Point`.  `pid` models Python object identity (each constructed point
object gets a fresh tag); `is_warehouse` is `ptype = warehouse`. -/
structure Point where
  pid : Nat
  x : Int
  y : Int
  demands : Goods
  ptype : PType
deriving DecidableEq, Repr

/-- An `amounts` dictionary: association list in insertion order. -/
abbrev Amounts := List (Good × Int)

/-- `sum(amounts.values())`. -/
def amountsSum (am : Amounts) : Int := (am.map Prod.snd).sum

/-- The `operation_type` tags that occur in the source (`"unload"` appears
only in the dead `elif` branch of `Vehicle.add_stop`). -/
inductive OpType where
  | initial_load
  | travel_to_reload
  | reload_specific_good
  | delivery
  | pickup
  | unload_if_full
  | unload
deriving DecidableEq, Repr

/-- One stop record of `Vehicle.add_stop`. -/
structure Stop where
  point : Point
  amounts : Amounts
  opType : OpType
  loadAfter : Goods
  remAtPoint : Option Goods
  isWarehouse : Bool
deriving DecidableEq, Repr

/-- A `Vehicle`. -/
structure Vehicle where
  vid : Nat
  capacity : Int
  loads : Goods
  route : List Stop
  assignedWh : Point
deriving DecidableEq, Repr

/-- The mutable `remaining_demands` state of the point objects, keyed by
`pid`. -/
abbrev Rem := List (Nat × Goods)

/-- Read a point's `remaining_demands`.  A point absent from the state is a
fresh object whose `remaining_demands` equals its `demands`. -/
def remGet (rem : Rem) (p : Point) : Goods :=
  match rem.find? (fun e => e.1 = p.pid) with
  | some e => e.2
  | none => p.demands

/-- Write a point's `remaining_demands` (object mutation). -/
def remSet (rem : Rem) (p : Point) (gs : Goods) : Rem :=
  if rem.any (fun e => e.1 = p.pid) then
    rem.map (fun e => if e.1 = p.pid then (p.pid, gs) else e)
  else
    rem ++ [(p.pid, gs)]

/-- `Point.deliver`: `remaining_demands[good] -= amount` for each entry of
`amounts` (every good is a key of `remaining_demands`). -/
def deliverAm (r : Goods) (am : Amounts) : Goods :=
  am.foldl (fun r e => r.add e.1 (-e.2)) r

/-- `Point.pickup`: `remaining_demands[good] += amount`. -/
def pickupAm (r : Goods) (am : Amounts) : Goods :=
  am.foldl (fun r e => r.add e.1 e.2) r

/-- Exceptions that the simulator / search engine can raise. -/
inductive SimErr where
  | indexErr
  | valueErr
  | attrErr
deriving DecidableEq, Repr

/-- `vehicle.current_total_load`. -/
def Vehicle.totalLoad (v : Vehicle) : Int := v.loads.sum

/-- The vehicle's current position: its last stop, or its assigned warehouse
when it has no route yet. -/
def vehPos (v : Vehicle) : Point :=
  match v.route.getLast? with
  | some st => st.point
  | none => v.assignedWh

/-- `Vehicle.can_pickup`. -/
def canPickup (v : Vehicle) (am : Amounts) : Bool :=
  decide (v.totalLoad + amountsSum am ≤ v.capacity)

/-- `Vehicle.reload`: load each requested good while it fits entirely,
otherwise top up to capacity and stop (`break`). -/
def reloadGoods (v : Vehicle) : Amounts → Vehicle
  | [] => v
  | (good, amount) :: rest =>
    if v.totalLoad + amount ≤ v.capacity then
      reloadGoods { v with loads := v.loads.add good amount } rest
    else
      { v with loads := v.loads.add good (v.capacity - v.totalLoad) }

/-- `Vehicle.partial_load` (the returned `actually_loaded` dict is unused by
the solver): load `min(amount, available_capacity)` of each good in order,
stopping at the first non-positive load or at exact fullness. -/
def partLoad (v : Vehicle) : Amounts → Vehicle
  | [] => v
  | (good, amount) :: rest =>
    let avail := v.capacity - v.totalLoad
    let lg := min amount avail
    if lg ≤ 0 then v
    else
      let v1 := { v with loads := v.loads.add good lg }
      if v1.capacity ≤ v1.totalLoad then v1 else partLoad v1 rest

/-- The all-zero `amounts` default of `Vehicle.add_stop`. -/
def zeroAmounts : Amounts := [(Good.oranges, 0), (Good.uranium, 0), (Good.tuna, 0)]

/-- `Vehicle.add_stop`: update the load according to the operation and append
the stop record (the load snapshot is taken after the update, the
remaining-demand snapshot before the solver applies `deliver` / `pickup`). -/
def addStop (rem : Rem) (v : Vehicle) (pt : Point) (amounts : Option Amounts)
    (isWh : Bool) (op : OpType) : Vehicle :=
  let am := amounts.getD zeroAmounts
  let loads' :=
    if isWh = false then
      if op = OpType.delivery then am.foldl (fun l e => l.add e.1 (-e.2)) v.loads
      else if op = OpType.pickup then am.foldl (fun l e => l.add e.1 e.2) v.loads
      else v.loads
    else if op = OpType.unload then Goods.zero
    else v.loads
  { v with
    loads := loads'
    route := v.route ++
      [{ point := pt
         amounts := am
         opType := op
         loadAfter := loads'
         remAtPoint := if isWh then none else some (remGet rem pt)
         isWarehouse := isWh }] }

section Dist

variable {α : Type} [LinearOrderedField α]

/-- First-minimum of a list under a key, as Python's `min(l, key=f)`
(returns the first element attaining the minimal key; `none` on `[]`). -/
def minByKey (key : Point → α) : List Point → Option Point
  | [] => none
  | w :: ws => some (ws.foldl (fun b y => if key y < key b then y else b) w)

/-- `Vehicle.find_nearest_warehouse`. -/
def findNearestWarehouse (D : Point → Point → α) (whs : List Point)
    (v : Vehicle) : Option Point :=
  minByKey (fun w => D (vehPos v) w) whs

end Dist

/-! ### The random module

The seeded Mersenne Twister is abstracted as a stream `g : Nat → Nat` of
raw draws together with a position counter; every random event consumes one
draw (two for a two-element sample). -/

section Rand

variable (g : Nat → Nat)

/-- `random.choice(l)` (raises `IndexError` on an empty sequence before
consuming any randomness). -/
def randChoice (l : List X) (k : Nat) : Except SimErr X × Nat :=
  if h : l.length = 0 then (Except.error SimErr.indexErr, k)
  else
    (Except.ok (l.get ⟨g k % l.length, Nat.mod_lt _ (Nat.pos_of_ne_zero h)⟩), k + 1)

/-- `random.random() < r` threshold draws, modelled with rational rates. -/
def randQ (k : Nat) : ℚ × Nat := ((g k % 1000000 : ℕ) / 1000000, k + 1)

/-- `sorted(random.sample(range(n), 2))`: an ordered pair of two distinct
indices below `n`; `ValueError` when `n < 2`. -/
def sample2 (n : Nat) (k : Nat) : Except SimErr (Nat × Nat) × Nat :=
  if n < 2 then (Except.error SimErr.valueErr, k)
  else
    let i := g k % n
    let j0 := g (k + 1) % (n - 1)
    let j := if i ≤ j0 then j0 + 1 else j0
    (Except.ok (min i j, max i j), k + 2)

/-- Draw one element of a non-empty pool and remove it. -/
def drawFrom (l : List X) (x0 : X) (k : Nat) : X × List X × Nat :=
  let i := g k % l.length
  ((l.get? i).getD x0, l.eraseIdx i, k + 1)

/-- `random.sample(l, t)`: `t` distinct elements; `ValueError` if `t`
exceeds the population size. -/
def sampleK (l : List X) (t : Nat) (k : Nat) : Except SimErr (List X) × Nat :=
  if l.length < t then (Except.error SimErr.valueErr, k)
  else go l t k
where
  go : List X → Nat → Nat → Except SimErr (List X) × Nat
    | _, 0, k => (Except.ok [], k)
    | [], _ + 1, k => (Except.error SimErr.valueErr, k)
    | x :: xs, t + 1, k =>
      let (y, rest, k1) := drawFrom g (x :: xs) x k
      match go rest t k1 with
      | (Except.error e, k2) => (Except.error e, k2)
      | (Except.ok ys, k2) => (Except.ok (y :: ys), k2)

/-- `random.sample(l, len(l))`: a random permutation of `l`
(`create_individual`).  The first argument is structural fuel equal to the
list length: every step removes exactly one element. -/
def randPermGo : Nat → List X → Nat → List X × Nat
  | 0, _, k => ([], k)
  | _ + 1, [], k => ([], k)
  | n + 1, x :: xs, k =>
    let (y, rest, k1) := drawFrom g (x :: xs) x k
    let (ys, k2) := randPermGo n rest k1
    (y :: ys, k2)

def randPermL (l : List X) (k : Nat) : List X × Nat :=
  randPermGo g l.length l k

end Rand

/-! ### Vehicle selection heuristics -/

section Select

variable {α : Type} [LinearOrderedField α] (D : Point → Point → α)

/-- One iteration of the loop body of
`GeneticAlgorithmVRP._select_vehicle_for_delivery`, acting on the state
`(best_vehicle, min_cost)` (the best vehicle is kept as an index into the
unchanged vehicle list). -/
def svdStep (whs : List Point) (vehicles : List Vehicle) (point : Point)
    (good : Good) (amountNeeded : Int) (st : Option Nat × WithTop α)
    (iv : Nat × Vehicle) : Option Nat × WithTop α :=
  let (best, minCost) := st
  let i := iv.1
  let v := iv.2
  let pos := vehPos v
  let clg := v.loads.get good
  let st1 : Option Nat × WithTop α :=
    if 0 < clg then
      let cost : WithTop α := ((D pos point : α) : WithTop α)
      if cost < minCost then (some i, cost)
      else if cost = minCost ∧ best ≠ none then
        let bl := ((vehicles.get? (best.getD 0)).map
          (fun bv => bv.loads.get good)).getD 0
        if amountNeeded ≤ clg ∧ bl < amountNeeded then (some i, minCost)
        else if bl < clg ∧ bl < amountNeeded then (some i, minCost)
        else (best, minCost)
      else (best, minCost)
    else (best, minCost)
  if amountNeeded ≤ v.capacity - (v.totalLoad - clg) then
    match findNearestWarehouse D whs v with
    | none => st1
    | some nw =>
      let costR : WithTop α := ((D pos nw + D nw point : α) : WithTop α)
      if costR < st1.2 then (some i, costR) else st1
  else st1

/-- `GeneticAlgorithmVRP._select_vehicle_for_delivery`, returning the index
of the selected vehicle. -/
def selectVehicleForDelivery (whs : List Point) (vehicles : List Vehicle)
    (point : Point) (good : Good) (amountNeeded : Int) : Option Nat :=
  (vehicles.enum.foldl (svdStep D whs vehicles point good amountNeeded)
    (none, (⊤ : WithTop α))).1

/-- First phase of `_select_vehicle_for_pickup`: nearest vehicle among those
that can pick up the full amount. -/
def svpFirst (vehicles : List Vehicle) (point : Point) (good : Good)
    (amountToPickup : Int) : Option Nat :=
  (vehicles.enum.foldl
    (fun st iv =>
      let (best, minCost) := st
      let v := iv.2
      if canPickup v [(good, amountToPickup)] = false then (best, minCost)
      else
        let cost : WithTop α := ((D (vehPos v) point : α) : WithTop α)
        if cost < minCost then (some iv.1, cost) else (best, minCost))
    ((none : Option Nat), (⊤ : WithTop α))).1

/-- `GeneticAlgorithmVRP._select_vehicle_for_pickup`.  The fallback takes
the vehicle nearest to the point among those with any spare capacity; the
final `can_pickup({good: 1})` guard reads the stale loop variable
`vehicle`, i.e. the last vehicle of the fleet list, not the selected one. -/
def selectVehicleForPickup (vehicles : List Vehicle) (point : Point)
    (good : Good) (amountToPickup : Int) : Option Nat :=
  match svpFirst D vehicles point good amountToPickup with
  | some i => some i
  | none =>
    let avail := vehicles.enum.filter (fun iv => 0 < iv.2.capacity - iv.2.totalLoad)
    match avail with
    | [] => none
    | a :: rest =>
      let best := rest.foldl
        (fun b y =>
          if D (vehPos y.2) point < D (vehPos b.2) point then y else b) a
      match vehicles.getLast? with
      | none => none
      | some lastv =>
        if canPickup lastv [(good, 1)] then some best.1 else none

end Select

/-! ### The service-plan simulator -/

section Sim

variable {α : Type} [LinearOrderedField α] (D : Point → Point → α)

/-- The inner `while needed_amount_for_good > 0` loop of `_handle_delivery`
for one good type.  The first argument is structural fuel: every productive
iteration delivers at least one unit, so fuel equal to the initial needed
amount is never exhausted and reproduces the `while` loop exactly.
An empty warehouse list or an empty route is an `AttributeError` /
`IndexError` in the source (unreachable from `calculate_service_plan`). -/
def deliverLoop (whs : List Point) (point : Point) (good : Good) :
    Nat → Int → List Vehicle → Rem → Except SimErr (List Vehicle × Rem)
  | 0, _, vehicles, rem => Except.ok (vehicles, rem)
  | f + 1, nd, vehicles, rem =>
    if nd ≤ 0 then Except.ok (vehicles, rem) else
    match selectVehicleForDelivery D whs vehicles point good nd with
    | none => Except.ok (vehicles, rem)
    | some i =>
      match vehicles.get? i with
      | none => Except.error SimErr.indexErr
      | some v =>
        let reloaded : Except SimErr Vehicle :=
          if v.loads.get good = 0 then
            match findNearestWarehouse D whs v with
            | none => Except.error SimErr.attrErr
            | some nw =>
              match v.route.getLast? with
              | none => Except.error SimErr.indexErr
              | some lastStop =>
                let v1 :=
                  if lastStop.point ≠ nw then
                    addStop rem v nw none true OpType.travel_to_reload
                  else v
                let amt := min nd (v1.capacity - v1.totalLoad + v1.loads.get good)
                let v2 := reloadGoods v1 [(good, amt)]
                Except.ok (addStop rem v2 nw (some [(good, amt)]) true
                  OpType.reload_specific_good)
          else Except.ok v
        match reloaded with
        | Except.error e => Except.error e
        | Except.ok v3 =>
          let canDel := min (v3.loads.get good) nd
          if 0 < canDel then
            let v4 := addStop rem v3 point (some [(good, canDel)]) false
              OpType.delivery
            let rem1 := remSet rem point (deliverAm (remGet rem point) [(good, canDel)])
            deliverLoop whs point good f (nd - canDel) (vehicles.set i v4) rem1
          else Except.ok (vehicles.set i v3, rem)

/-- `_handle_delivery`: iterate the goods of `remaining_demands` in key
order, skipping non-positive demands. -/
def handleDelivery (whs : List Point) (point : Point) :
    List Good → List Vehicle → Rem → Except SimErr (List Vehicle × Rem)
  | [], vehicles, rem => Except.ok (vehicles, rem)
  | good :: gs, vehicles, rem =>
    let d := (remGet rem point).get good
    if d ≤ 0 then handleDelivery whs point gs vehicles rem
    else
      match deliverLoop D whs point good d.toNat d vehicles rem with
      | Except.error e => Except.error e
      | Except.ok (vehicles1, rem1) => handleDelivery whs point gs vehicles1 rem1

/-- The inner `while needed_pickup_for_good > 0` loop of `_handle_pickup`
for one good type, with structural fuel as in `deliverLoop`. -/
def pickupLoop (whs : List Point) (point : Point) (good : Good) :
    Nat → Int → List Vehicle → Rem → Except SimErr (List Vehicle × Rem)
  | 0, _, vehicles, rem => Except.ok (vehicles, rem)
  | f + 1, nd, vehicles, rem =>
    if nd ≤ 0 then Except.ok (vehicles, rem) else
    match selectVehicleForPickup D vehicles point good nd with
    | none => Except.ok (vehicles, rem)
    | some i =>
      match vehicles.get? i with
      | none => Except.error SimErr.indexErr
      | some v =>
        let canPick := min (v.capacity - v.totalLoad) nd
        if 0 < canPick then
          let v1 := addStop rem v point (some [(good, canPick)]) false OpType.pickup
          let rem1 := remSet rem point (pickupAm (remGet rem point) [(good, canPick)])
          let afterUnload : Except SimErr Vehicle :=
            if 4 * v1.capacity ≤ 5 * v1.totalLoad then
              -- `current_total_load >= capacity * 0.8`; the float product
              -- `capacity * 0.8` agrees with the exact `4/5 * capacity`
              -- comparison against integer loads for every |capacity| < 2^53.
              match findNearestWarehouse D whs v1 with
              | none => Except.error SimErr.attrErr
              | some nw =>
                let v2 := addStop rem1 v1 nw none true OpType.unload_if_full
                Except.ok { v2 with loads := Goods.zero }
            else Except.ok v1
          match afterUnload with
          | Except.error e => Except.error e
          | Except.ok v3 =>
            pickupLoop whs point good f (nd - canPick) (vehicles.set i v3) rem1
        else Except.ok (vehicles, rem)

/-- `_handle_pickup`: iterate the goods in key order, skipping non-negative
demands; the needed pickup is `abs(demand)`. -/
def handlePickup (whs : List Point) (point : Point) :
    List Good → List Vehicle → Rem → Except SimErr (List Vehicle × Rem)
  | [], vehicles, rem => Except.ok (vehicles, rem)
  | good :: gs, vehicles, rem =>
    let d := (remGet rem point).get good
    if 0 ≤ d then handlePickup whs point gs vehicles rem
    else
      match pickupLoop D whs point good (-d).toNat (-d) vehicles rem with
      | Except.error e => Except.error e
      | Except.ok (vehicles1, rem1) => handlePickup whs point gs vehicles1 rem1

/-- `_calculate_initial_load`: a quarter of the capacity split evenly over
the three good types, with Python floor division (the early return for a
zero split coincides with the general formula). -/
def calcInitialLoad (capacity : Int) : Amounts :=
  let c := (capacity.fdiv 4).fdiv 3
  [(Good.oranges, c), (Good.uranium, c), (Good.tuna, c)]

/-- Vehicle creation loop of `calculate_service_plan`: one vehicle per
capacity, each assigned a random warehouse. -/
def createVehicles (g : Nat → Nat) (whs : List Point) :
    List Int → Nat → Nat → Except SimErr (List Vehicle) × Nat
  | [], _, k => (Except.ok [], k)
  | c :: cs, i, k =>
    match randChoice g whs k with
    | (Except.error e, k1) => (Except.error e, k1)
    | (Except.ok w, k1) =>
      match createVehicles g whs cs (i + 1) k1 with
      | (Except.error e, k2) => (Except.error e, k2)
      | (Except.ok vs, k2) =>
        let v : Vehicle :=
          { vid := i + 1
            capacity := c
            loads := Goods.zero
            route := []
            assignedWh := w }
        (Except.ok (v :: vs), k2)

/-- The per-vehicle initialisation: `reset`, `partial_load` of the initial
load, and the `initial_load` warehouse stop (recorded with the requested
amounts, not the actually loaded ones). -/
def initVehicle (rem : Rem) (v : Vehicle) : Vehicle :=
  let v0 := { v with loads := Goods.zero, route := [] }
  let am := calcInitialLoad v0.capacity
  let v1 := partLoad v0 am
  addStop rem v1 v1.assignedWh (some am) true OpType.initial_load

/-- The chromosome-processing loop of `calculate_service_plan`: a `None`
entry raises `AttributeError` (`point.point_type` on `None`); warehouse
points are skipped by the `if`/`elif` chain. -/
def processInd (whs : List Point) :
    List (Option Point) → List Vehicle → Rem → Except SimErr (List Vehicle × Rem)
  | [], vehicles, rem => Except.ok (vehicles, rem)
  | none :: _, _, _ => Except.error SimErr.attrErr
  | some p :: rest, vehicles, rem =>
    let step : Except SimErr (List Vehicle × Rem) :=
      if p.ptype = PType.delivery then
        handleDelivery D whs p goodList vehicles rem
      else if p.ptype = PType.pickup then
        handlePickup D whs p goodList vehicles rem
      else Except.ok (vehicles, rem)
    match step with
    | Except.error e => Except.error e
    | Except.ok (vehicles1, rem1) => processInd whs rest vehicles1 rem1

end Sim

/-! ### The search engine state (`GeneticAlgorithmVRP.__init__`) -/

/-- The solver object: configuration plus the point partition computed by
`__init__`. -/
structure GA where
  points : List Point
  warehouses : List Point
  servicePoints : List Point
  deliveryPoints : List Point
  pickupPoints : List Point
  caps : List Int
  populationSize : Nat
  generations : Nat
  mutationRate : ℚ
  tournamentSize : Nat
deriving DecidableEq, Repr

/-- `GeneticAlgorithmVRP.__init__`.  With `warehouses=None` the first point
is the single warehouse (`IndexError` on an empty point list); otherwise
service points are the points outside the warehouse set (object identity,
i.e. structural equality under distinct `pid`s). -/
def mkGA (points : List Point) (caps : List Int) (whs : Option (List Point))
    (populationSize generations : Nat) (mutationRate : ℚ)
    (tournamentSize : Nat) : Except SimErr GA :=
  match whs with
  | none =>
    match points with
    | [] => Except.error SimErr.indexErr
    | p0 :: rest =>
      Except.ok
        { points := points
          warehouses := [p0]
          servicePoints := rest
          deliveryPoints := rest.filter (fun p => p.ptype = PType.delivery)
          pickupPoints := rest.filter (fun p => p.ptype = PType.pickup)
          caps := caps
          populationSize := populationSize
          generations := generations
          mutationRate := mutationRate
          tournamentSize := tournamentSize }
  | some ws =>
    let sps := points.filter (fun p => (ws.any (fun w => w = p)) = false)
    Except.ok
      { points := points
        warehouses := ws
        servicePoints := sps
        deliveryPoints := sps.filter (fun p => p.ptype = PType.delivery)
        pickupPoints := sps.filter (fun p => p.ptype = PType.pickup)
        caps := caps
        populationSize := populationSize
        generations := generations
        mutationRate := mutationRate
        tournamentSize := tournamentSize }

/-- A chromosome: a Python list whose slots hold points or `None`. -/
abbrev Chrom := List (Option Point)

/-- The reset loop at the top of `calculate_service_plan`:
`p.remaining_demands = p.demands.copy()` for every service point. -/
def initRem (ga : GA) : Rem := ga.servicePoints.map (fun p => (p.pid, p.demands))

section Plan

variable {α : Type} [LinearOrderedField α] (D : Point → Point → α) (g : Nat → Nat)

/-- `GeneticAlgorithmVRP.calculate_service_plan`: reset the service points'
remaining demands, create one vehicle per capacity at a random warehouse,
give each its initial load and warehouse stop, then process the chromosome
in order.  Returns the fleet and the final remaining-demand state; the
stream position is returned also on an exception (draws made before the
raise stay consumed). -/
def calculateServicePlan (ga : GA) (ind : Chrom) (k : Nat) :
    Except SimErr (List Vehicle × Rem) × Nat :=
  match createVehicles g ga.warehouses ga.caps 0 k with
  | (Except.error e, k1) => (Except.error e, k1)
  | (Except.ok vs0, k1) =>
    match processInd D ga.warehouses ind (vs0.map (initVehicle (initRem ga)))
        (initRem ga) with
    | Except.error e => (Except.error e, k1)
    | Except.ok (vs, rem) => (Except.ok (vs, rem), k1)

/-- The vehicles of a service plan (empty on an exception). -/
def planVehicles (ga : GA) (ind : Chrom) (k : Nat) : List Vehicle :=
  match (calculateServicePlan D g ga ind k).1 with
  | Except.ok (vs, _) => vs
  | Except.error _ => []

/-- The final remaining-demand state of a service plan. -/
def planRem (ga : GA) (ind : Chrom) (k : Nat) : Rem :=
  match (calculateServicePlan D g ga ind k).1 with
  | Except.ok (_, rem) => rem
  | Except.error _ => []

/-- The leg-sum loop of `fitness` for one vehicle with a non-empty route:
legs from the assigned warehouse through the stops, plus the closing leg to
the nearest warehouse from the last stop (`none` models the
`AttributeError` on an empty warehouse list). -/
def vehicleDistance (whs : List Point) (v : Vehicle) : Option α :=
  if v.route = [] then some 0
  else
    let legs := (v.route.foldl
      (fun st stop => (st.1 + D st.2 stop.point, stop.point))
      ((0 : α), v.assignedWh))
    match findNearestWarehouse D whs v with
    | none => none
    | some fw => some (legs.1 + D legs.2 fw)

/-- Total distance over the fleet (`none` propagates the exception). -/
def fleetDistance (whs : List Point) (vs : List Vehicle) : Option α :=
  vs.foldl
    (fun acc v =>
      match acc, vehicleDistance D whs v with
      | some t, some d => some (t + d)
      | _, _ => none)
    (some 0)

/-- `GeneticAlgorithmVRP.fitness`: `+inf` (`⊤`) for a chromosome containing
`None` or of the wrong length, and for any exception raised inside the
try-block; otherwise the fleet's total travelled distance. -/
def fitness (ga : GA) (ind : Chrom) (k : Nat) : WithTop α × Nat :=
  if none ∈ ind ∨ ind.length ≠ ga.servicePoints.length then ((⊤ : WithTop α), k)
  else
    match calculateServicePlan D g ga ind k with
    | (Except.error _, k1) => ((⊤ : WithTop α), k1)
    | (Except.ok (vs, _), k1) =>
      match fleetDistance D ga.warehouses vs with
      | none => ((⊤ : WithTop α), k1)
      | some t => (((t : α) : WithTop α), k1)

end Plan

/-! ### Genetic operators -/

/-- The `while ptr_parent2 < size and parent2[ptr_parent2] in segment_genes`
advance of `ordered_crossover`. -/
def ocAdvance (seg p2 : Chrom) (size : Nat) : Nat → Nat → Nat
  | 0, ptr => ptr
  | fuel + 1, ptr =>
    if ptr < size ∧ p2.getD ptr none ∈ seg then ocAdvance seg p2 size fuel (ptr + 1)
    else ptr

/-- The fill loop of `ordered_crossover`: walk the child slots, filling each
`None` slot from `parent2` past the segment genes (a slot stays `None` when
`parent2` is exhausted). -/
def ocFill (seg p2 : Chrom) (size : Nat) : Chrom → Nat → Chrom
  | [], _ => []
  | c :: rest, ptr =>
    if c = none then
      let ptr1 := ocAdvance seg p2 size size ptr
      if ptr1 < size then p2.getD ptr1 none :: ocFill seg p2 size rest (ptr1 + 1)
      else none :: ocFill seg p2 size rest ptr1
    else c :: ocFill seg p2 size rest ptr

/-- `GeneticAlgorithmVRP.ordered_crossover` at the sorted slice bounds
`start ≤ end` drawn by `random.sample(range(size), 2)`. -/
def orderedCrossover (p1 p2 : Chrom) (s e : Nat) : Chrom :=
  let size := p1.length
  let child0 := (List.range size).map
    (fun idx => if s ≤ idx ∧ idx ≤ e then p1.getD idx none else none)
  let seg := (p1.drop s).take (e + 1 - s)
  ocFill seg p2 size child0 0

section Ops

variable {α : Type} [LinearOrderedField α] {X : Type} {β : Type} [LinearOrder β]

/-- Distance key on chromosome slots; a `None` slot would raise
`AttributeError` in Python (unreachable for valid chromosomes), modelled as
the junk value `0`. -/
def oD (D : Point → Point → α) : Option Point → Option Point → α
  | some p, some q => D p q
  | _, _ => 0

/-- Stable insertion sort under a key: the model of Python's stable
`sorted(l, key=...)` (all stable sorts produce the same list). -/
def insertByKey (key : X → β) (x : X) : List X → List X
  | [] => [x]
  | y :: ys => if key x ≤ key y then x :: y :: ys else y :: insertByKey key x ys

def sortByKey (key : X → β) : List X → List X
  | [] => []
  | x :: xs => insertByKey key x (sortByKey key xs)

/-- The `while i < len and sorted[i] in used` advance of
`spatial_crossover` (`used` always equals the set of child entries). -/
def scAdv (sorted : Chrom) (child : Chrom) : Nat → Nat → Nat
  | 0, i => i
  | fuel + 1, i =>
    if i < sorted.length ∧ sorted.getD i none ∈ child then scAdv sorted child fuel (i + 1)
    else i

/-- The interleaving loop of `spatial_crossover`.  The fuel is the target
length: every productive iteration appends at least one unused element, so
for valid (duplicate-free, equal-set) parents the fuel is never exhausted;
on malformed parents the Python loop would not terminate. -/
def scLoop (p1s p2s : Chrom) (n : Nat) : Nat → Chrom → Nat → Nat → Chrom
  | 0, child, _, _ => child
  | fuel + 1, child, i, j =>
    if child.length < n then
      let i1 := scAdv p1s child p1s.length i
      let ci :=
        if i1 < p1s.length then (child ++ [p1s.getD i1 none], i1 + 1)
        else (child, i1)
      let j1 := scAdv p2s ci.1 p2s.length j
      let cj :=
        if j1 < p2s.length ∧ ci.1.length < n then (ci.1 ++ [p2s.getD j1 none], j1 + 1)
        else (ci.1, j1)
      scLoop p1s p2s n fuel cj.1 ci.2 cj.2
    else child

/-- `GeneticAlgorithmVRP.spatial_crossover` at the drawn reference point. -/
def spatialCrossover (D : Point → Point → α) (ref : Point) (p1 p2 : Chrom) : Chrom :=
  let p1s := sortByKey (fun o => oD D o (some ref)) p1
  let p2s := sortByKey (fun o => oD D o (some ref)) p2
  scLoop p1s p2s p1.length p1.length [] 0 0

end Ops

section Engine

variable {α : Type} [LinearOrderedField α] (D : Point → Point → α) (g : Nat → Nat)

/-- `GeneticAlgorithmVRP.mutate`: with probability `mutation_rate`, swap two
random positions (`ValueError` from `random.sample` when the chromosome has
fewer than two slots). -/
def mutate (rate : ℚ) (ind : Chrom) (k : Nat) : Except SimErr Chrom × Nat :=
  let r := randQ g k
  if r.1 < rate then
    match sample2 g ind.length r.2 with
    | (Except.error e, k2) => (Except.error e, k2)
    | (Except.ok ij, k2) =>
      (Except.ok ((ind.set ij.1 (ind.getD ij.2 none)).set ij.2 (ind.getD ij.1 none)), k2)
  else (Except.ok ind, r.2)

/-- `GeneticAlgorithmVRP.calculate_route_distance`: consecutive-leg sum
starting from the warehouse nearest to the route's first point (an empty
warehouse list is a `ValueError` from `min([])` in Python, modelled as the
junk value `0`; unreachable under a non-empty warehouse list). -/
def calculateRouteDistance (whs : List Point) (route : Chrom) : α :=
  match route with
  | [] => 0
  | r0 :: _ =>
    match minByKey (fun w => oD D r0 (some w)) whs with
    | none => 0
    | some nw =>
      (route.foldl (fun st pt => (st.1 + oD D st.2 pt, pt))
        ((0 : α), (some nw : Option Point))).1

/-- `full_route[:i] + full_route[i:j+1][::-1] + full_route[j+1:]`. -/
def segRev (l : List X) (i j : Nat) : List X :=
  l.take i ++ ((l.drop i).take (j + 1 - i)).reverse ++ l.drop (j + 1)

/-- The `(i, j)` pairs scanned by one sweep of the 2-opt loop:
`i in range(1, L-2)`, `j in range(i+1, L-1)`. -/
def sweepPairs (L : Nat) : List (Nat × Nat) :=
  (List.range' 1 (L - 3)).flatMap
    (fun i => (List.range' (i + 1) (L - (i + 2))).map (fun j => (i, j)))

/-- One full scan of the nested `for` loops of `optimize_route`, threading
the current route, the best distance and the `improved` flag. -/
def twoOptSweep (whs : List Point) (full : Chrom) (best : α) : Chrom × α × Bool :=
  (sweepPairs full.length).foldl
    (fun st p =>
      let newR := segRev st.1 p.1 p.2
      let nd := calculateRouteDistance D whs newR
      if nd < st.2.1 then (newR, nd, true) else st)
    (full, best, false)

/-- The `while improved` loop.  Every improving sweep strictly decreases the
route distance within the finite set of permutations of the closed route,
so the source loop terminates and `(length full)!` sweeps of fuel are never
exhausted. -/
def twoOptLoop (whs : List Point) : Nat → Chrom → Chrom
  | 0, full => full
  | fuel + 1, full =>
    let res := twoOptSweep D whs full (calculateRouteDistance D whs full)
    if res.2.2 then twoOptLoop whs fuel res.1 else res.1

/-- `GeneticAlgorithmVRP.optimize_route`: append the warehouse nearest to
the first point as a virtual closing stop, run 2-opt to a local optimum,
and strip the closing stop. -/
def optimizeRoute (whs : List Point) (route : Chrom) : Chrom :=
  match route with
  | [] => route
  | r0 :: _ =>
    match minByKey (fun w => oD D r0 (some w)) whs with
    | none => route
    | some nw =>
      let full := route ++ [some nw]
      (twoOptLoop D whs (Nat.factorial full.length) full).dropLast

/-- The decorate phase of `sorted(population, key=self.fitness)`: fitness
keys are computed once per element in list order, threading the stream. -/
def mapFitness (ga : GA) : List Chrom → Nat → List (WithTop α × Chrom) × Nat
  | [], k => ([], k)
  | c :: cs, k =>
    let f := fitness D g ga c k
    let rest := mapFitness ga cs f.2
    ((f.1, c) :: rest.1, rest.2)

/-- The fold of `min(candidates, key=self.fitness)` after the first key:
keep the first strict minimum, evaluating keys in order. -/
def minByFitGo (ga : GA) : List Chrom → Chrom → WithTop α → Nat → Chrom × Nat
  | [], b, _, k => (b, k)
  | c :: cs, b, bf, k =>
    let f := fitness D g ga c k
    if f.1 < bf then minByFitGo ga cs c f.1 f.2 else minByFitGo ga cs b bf f.2

/-- `min(l, key=self.fitness)` (`ValueError` on an empty sequence). -/
def minByFitness (ga : GA) (l : List Chrom) (k : Nat) : Except SimErr Chrom × Nat :=
  match l with
  | [] => (Except.error SimErr.valueErr, k)
  | c :: cs =>
    let f0 := fitness D g ga c k
    let w := minByFitGo D g ga cs c f0.1 f0.2
    (Except.ok w.1, w.2)

/-- `GeneticAlgorithmVRP.tournament_selection`: `population_size` rounds of
sampling `tournament_size` individuals and keeping the fittest. -/
def tournamentSelection (ga : GA) : Nat → List Chrom → Nat → Except SimErr (List Chrom) × Nat
  | 0, _, k => (Except.ok [], k)
  | t + 1, pop, k =>
    match sampleK g pop ga.tournamentSize k with
    | (Except.error e, k1) => (Except.error e, k1)
    | (Except.ok cands, k1) =>
      match minByFitness D g ga cands k1 with
      | (Except.error e, k2) => (Except.error e, k2)
      | (Except.ok w, k2) =>
        match tournamentSelection ga t pop k2 with
        | (Except.error e, k3) => (Except.error e, k3)
        | (Except.ok ws, k3) => (Except.ok (w :: ws), k3)

/-- The child-production `while` loop of `run`.  Each iteration appends
exactly one child, so `population_size` iterations of fuel reproduce the
`while len(next_generation) < population_size` loop exactly. -/
def reproduce (ga : GA) (selected : List Chrom) :
    Nat → List Chrom → Nat → Except SimErr (List Chrom) × Nat
  | 0, next, k => (Except.ok next, k)
  | fuel + 1, next, k =>
    if ga.populationSize ≤ next.length then (Except.ok next, k)
    else
      match randChoice g selected k with
      | (Except.error e, k1) => (Except.error e, k1)
      | (Except.ok p1, k1) =>
        match randChoice g selected k1 with
        | (Except.error e, k2) => (Except.error e, k2)
        | (Except.ok p2, k2) =>
          let r := randQ g k2
          let crossed : Except SimErr Chrom × Nat :=
            if r.1 < 7 / 10 then
              match sample2 g p1.length r.2 with
              | (Except.error e, k4) => (Except.error e, k4)
              | (Except.ok se, k4) => (Except.ok (orderedCrossover p1 p2 se.1 se.2), k4)
            else
              match randChoice g ga.servicePoints r.2 with
              | (Except.error e, k4) => (Except.error e, k4)
              | (Except.ok ref, k4) => (Except.ok (spatialCrossover D ref p1 p2), k4)
          match crossed with
          | (Except.error e, k4) => (Except.error e, k4)
          | (Except.ok c, k4) =>
            match mutate g ga.mutationRate c k4 with
            | (Except.error e, k5) => (Except.error e, k5)
            | (Except.ok c1, k5) =>
              let r2 := randQ g k5
              let c2 := if r2.1 < 1 / 5 then optimizeRoute D ga.warehouses c1 else c1
              reproduce ga selected fuel (next ++ [c2]) r2.2

/-- One iteration of the main generation loop of `run`: sort by fitness,
keep the two elites, build the tournament pool, refill with children and
truncate.  Also returns the measured best fitness of this generation's
sort (the key of the sorted head). -/
def genStep (ga : GA) (pop : List Chrom) (k : Nat) :
    Except SimErr (WithTop α × List Chrom) × Nat :=
  let mk := mapFitness D g ga pop k
  let sortedK := sortByKey Prod.fst mk.1
  let spop := sortedK.map Prod.snd
  let best := (sortedK.head?.map Prod.fst).getD (⊤ : WithTop α)
  let elites := spop.take 2
  match tournamentSelection D g ga ga.populationSize spop mk.2 with
  | (Except.error e, k2) => (Except.error e, k2)
  | (Except.ok selected, k2) =>
    match reproduce D g ga selected (ga.populationSize - elites.length) elites k2 with
    | (Except.error e, k3) => (Except.error e, k3)
    | (Except.ok next, k3) => (Except.ok (best, next.take ga.populationSize), k3)

/-- `m` fresh random individuals (`create_individual` in a comprehension). -/
def freshChroms (ga : GA) : Nat → Nat → List Chrom × Nat
  | 0, k => ([], k)
  | m + 1, k =>
    let p := randPermL g ga.servicePoints k
    let rest := freshChroms ga m p.2
    ((p.1.map some) :: rest.1, rest.2)

/-- The diversity-injection loop of `run` (it runs over all generation
indices before the scoring loop starts): every 5th index replaces the last
10 individuals with fresh random ones. -/
def diversityPhase (ga : GA) : Nat → Nat → List Chrom → Nat → List Chrom × Nat
  | 0, _, pop, k => (pop, k)
  | n + 1, gen, pop, k =>
    if gen % 5 = 0 then
      let fresh := freshChroms g ga 10 k
      diversityPhase ga n (gen + 1) (pop.take (pop.length - 10) ++ fresh.1) fresh.2
    else diversityPhase ga n (gen + 1) pop k

/-- The scored generation loop of `run`. -/
def mainLoop (ga : GA) : Nat → List Chrom → Nat → Except SimErr (List Chrom) × Nat
  | 0, pop, k => (Except.ok pop, k)
  | n + 1, pop, k =>
    match genStep D g ga pop k with
    | (Except.error e, k1) => (Except.error e, k1)
    | (Except.ok bp, k1) => mainLoop ga n bp.2 k1

/-- The populations reached by the generation loop: the population at the
start of each scored generation and the final one (cut short at an
exception). -/
def mainLoopTrace (ga : GA) : Nat → List Chrom → Nat → List (List Chrom)
  | 0, pop, _ => [pop]
  | n + 1, pop, k =>
    pop ::
      (match genStep D g ga pop k with
        | (Except.error _, _) => []
        | (Except.ok bp, k1) => mainLoopTrace ga n bp.2 k1)

/-- `GeneticAlgorithmVRP.run`: initial population, diversity phase, scored
generation loop, then the best individual re-expanded through the
simulator. -/
def runGA (ga : GA) (k : Nat) : Except SimErr (List Vehicle) × Nat :=
  let pop0 := freshChroms g ga ga.populationSize k
  let pop1 := diversityPhase g ga ga.generations 0 pop0.1 pop0.2
  match mainLoop D g ga ga.generations pop1.1 pop1.2 with
  | (Except.error e, k3) => (Except.error e, k3)
  | (Except.ok popF, k3) =>
    match minByFitness D g ga popF k3 with
    | (Except.error e, k4) => (Except.error e, k4)
    | (Except.ok best, k4) =>
      match calculateServicePlan D g ga best k4 with
      | (Except.error e, k5) => (Except.error e, k5)
      | (Except.ok vsrem, k5) => (Except.ok vsrem.1, k5)

end Engine

/-- `Point.distance_to`: the Euclidean distance
`((x1-x2)**2 + (y1-y2)**2)**0.5`, over the reals. -/
noncomputable def Point.distance_to (p q : Point) : ℝ :=
  Real.sqrt ((((p.x - q.x : Int) : ℝ)) ^ 2 + (((p.y - q.y : Int) : ℝ)) ^ 2)

/-! ## Verification

### Arithmetic of `Goods` -/

theorem Goods.sum_add (l : Goods) (gd : Good) (a : Int) :
    (l.add gd a).sum = l.sum + a := by
  cases gd <;> simp [Goods.add, Goods.set, Goods.get, Goods.sum] <;> ring

theorem Goods.get_add_self (l : Goods) (gd : Good) (a : Int) :
    (l.add gd a).get gd = l.get gd + a := by
  cases gd <;> simp [Goods.add, Goods.set, Goods.get]

theorem Goods.get_add_of_ne (l : Goods) {gd gd' : Good} (a : Int) (h : gd' ≠ gd) :
    (l.add gd a).get gd' = l.get gd' := by
  cases gd <;> cases gd' <;> simp_all [Goods.add, Goods.set, Goods.get]

theorem Goods.get_zero (gd : Good) : Goods.zero.get gd = 0 := by
  cases gd <;> simp [Goods.zero, Goods.get]

theorem Goods.sum_zero : Goods.zero.sum = 0 := by
  simp [Goods.zero, Goods.sum]

theorem Goods.sum_nonneg (l : Goods) (h : ∀ gd, 0 ≤ l.get gd) : 0 ≤ l.sum := by
  have h1 := h Good.oranges
  have h2 := h Good.uranium
  have h3 := h Good.tuna
  simp [Goods.get] at h1 h2 h3
  simp [Goods.sum]
  omega

/-! ### The capacity invariant (claim C2) -/

/-- The per-vehicle invariant: non-negative capacity and loads, total load
within capacity, and every recorded stop snapshot within capacity. -/
def VehInv (v : Vehicle) : Prop :=
  0 ≤ v.capacity ∧ (∀ gd, 0 ≤ v.loads.get gd) ∧ v.totalLoad ≤ v.capacity ∧
    ∀ s ∈ v.route, s.loadAfter.sum ≤ v.capacity

def VehsInv (vs : List Vehicle) : Prop := ∀ v ∈ vs, VehInv v

theorem addStop_capacity (rem : Rem) (v : Vehicle) (pt : Point)
    (am : Option Amounts) (w : Bool) (op : OpType) :
    (addStop rem v pt am w op).capacity = v.capacity := by
  simp [addStop]

theorem addStop_delivery_loads (rem : Rem) (v : Vehicle) (pt : Point)
    (good : Good) (a : Int) :
    (addStop rem v pt (some [(good, a)]) false OpType.delivery).loads =
      v.loads.add good (-a) := by
  simp [addStop]

theorem addStop_pickup_loads (rem : Rem) (v : Vehicle) (pt : Point)
    (good : Good) (a : Int) :
    (addStop rem v pt (some [(good, a)]) false OpType.pickup).loads =
      v.loads.add good a := by
  simp [addStop]

theorem addStop_wh_loads (rem : Rem) (v : Vehicle) (pt : Point)
    (am : Option Amounts) (op : OpType) (h : op ≠ OpType.unload) :
    (addStop rem v pt am true op).loads = v.loads := by
  simp [addStop, h]

theorem addStop_route (rem : Rem) (v : Vehicle) (pt : Point)
    (am : Option Amounts) (w : Bool) (op : OpType) :
    ∀ s ∈ (addStop rem v pt am w op).route,
      s ∈ v.route ∨ s.loadAfter = (addStop rem v pt am w op).loads := by
  intro s hs
  simp only [addStop, List.mem_append, List.mem_singleton] at hs
  rcases hs with hs | hs
  · exact Or.inl hs
  · subst hs
    exact Or.inr rfl

/-- `addStop` preserves the invariant as soon as the new load respects the
bounds. -/
theorem addStop_inv (rem : Rem) (v : Vehicle) (pt : Point)
    (am : Option Amounts) (w : Bool) (op : OpType) (hv : VehInv v)
    (hl : ∀ gd, 0 ≤ (addStop rem v pt am w op).loads.get gd)
    (hs : (addStop rem v pt am w op).loads.sum ≤ v.capacity) :
    VehInv (addStop rem v pt am w op) := by
  obtain ⟨hc, _, _, hr⟩ := hv
  refine ⟨by rwa [addStop_capacity], hl, ?_, ?_⟩
  · rw [addStop_capacity]
    exact hs
  · intro s hmem
    rw [addStop_capacity]
    rcases addStop_route rem v pt am w op s hmem with h | h
    · exact hr s h
    · rw [h]
      exact hs

theorem vehsInv_set (vs : List Vehicle) (i : Nat) (v : Vehicle)
    (h : VehsInv vs) (hv : VehInv v) : VehsInv (vs.set i v) := by
  intro u hu
  rcases List.mem_or_eq_of_mem_set hu with h1 | h1
  · exact h u h1
  · subst h1; exact hv

/-- `Vehicle.reload` of a single non-negative amount keeps the invariant
and touches only the loads. -/
theorem reload_single_inv (v : Vehicle) (good : Good) (amt : Int)
    (hv : VehInv v) (ha : 0 ≤ amt) :
    VehInv (reloadGoods v [(good, amt)]) ∧
      (reloadGoods v [(good, amt)]).route = v.route ∧
      (reloadGoods v [(good, amt)]).capacity = v.capacity := by
  obtain ⟨hc, hnn, ht, hr⟩ := hv
  simp only [reloadGoods]
  split
  · rename_i hle
    simp only [reloadGoods]
    refine ⟨⟨hc, ?_, ?_, hr⟩, by simp, by simp⟩
    · intro gd
      by_cases hgd : gd = good
      · subst hgd
        rw [Goods.get_add_self]
        have := hnn gd
        omega
      · rw [Goods.get_add_of_ne _ _ hgd]
        exact hnn gd
    · show (v.loads.add good amt).sum ≤ v.capacity
      rw [Goods.sum_add]
      exact hle
  · rename_i hgt
    refine ⟨⟨hc, ?_, ?_, hr⟩, by simp, by simp⟩
    · intro gd
      by_cases hgd : gd = good
      · subst hgd
        rw [Goods.get_add_self]
        have := hnn gd
        have : v.totalLoad ≤ v.capacity := ht
        simp only [Vehicle.totalLoad] at this
        omega
      · rw [Goods.get_add_of_ne _ _ hgd]
        exact hnn gd
    · show (v.loads.add good (v.capacity - v.totalLoad)).sum ≤ v.capacity
      rw [Goods.sum_add]
      simp only [Vehicle.totalLoad]
      omega

/-- `Vehicle.partial_load` keeps the invariant and touches only the loads. -/
theorem partLoad_inv (am : Amounts) :
    ∀ (v : Vehicle), VehInv v →
      VehInv (partLoad v am) ∧ (partLoad v am).route = v.route ∧
        (partLoad v am).capacity = v.capacity ∧
        (partLoad v am).assignedWh = v.assignedWh := by
  induction am with
  | nil => intro v hv; exact ⟨hv, rfl, rfl, rfl⟩
  | cons e rest ih =>
    intro v hv
    obtain ⟨hc, hnn, ht, hr⟩ := hv
    obtain ⟨good, amount⟩ := e
    simp only [partLoad]
    split
    · exact ⟨⟨hc, hnn, ht, hr⟩, by simp, by simp, by simp⟩
    · rename_i hpos
      have hlg : 0 < min amount (v.capacity - v.totalLoad) := by omega
      have hinv1 : VehInv { v with loads := v.loads.add good (min amount (v.capacity - v.totalLoad)) } := by
        refine ⟨hc, ?_, ?_, hr⟩
        · intro gd
          by_cases hgd : gd = good
          · subst hgd
            rw [Goods.get_add_self]
            have := hnn gd
            omega
          · rw [Goods.get_add_of_ne _ _ hgd]
            exact hnn gd
        · show (v.loads.add good (min amount (v.capacity - v.totalLoad))).sum ≤ v.capacity
          rw [Goods.sum_add]
          simp only [Vehicle.totalLoad] at ht ⊢
          omega
      split
      · exact ⟨hinv1, by simp, by simp, by simp⟩
      · obtain ⟨a, b, c, d⟩ := ih _ hinv1
        exact ⟨a, b, c, d⟩

section InvProofs

variable {α : Type} [LinearOrderedField α] (D : Point → Point → α)

/-- The delivery loop preserves the capacity invariant. -/
theorem deliverLoop_inv (whs : List Point) (point : Point) (good : Good) :
    ∀ (fuel : Nat) (nd : Int) (vs : List Vehicle) (rem : Rem)
      (vs' : List Vehicle) (rem' : Rem), VehsInv vs →
      deliverLoop D whs point good fuel nd vs rem = Except.ok (vs', rem') →
      VehsInv vs' := by
  intro fuel
  induction fuel with
  | zero =>
    intro nd vs rem vs' rem' hinv hok
    simp only [deliverLoop] at hok
    cases hok
    exact hinv
  | succ f ih =>
    intro nd vs rem vs' rem' hinv hok
    simp only [deliverLoop] at hok
    split at hok
    · cases hok; exact hinv
    · rename_i hnd
      split at hok
      · cases hok; exact hinv
      · rename_i i hsel
        split at hok
        · cases hok
        · rename_i v hget
          have hv : VehInv v := hinv v (List.get?_mem hget)
          -- the reloaded vehicle keeps the invariant
          have hre : ∀ v3 : Vehicle,
              (if v.loads.get good = 0 then
                match findNearestWarehouse D whs v with
                | none => Except.error SimErr.attrErr
                | some nw =>
                  match v.route.getLast? with
                  | none => Except.error SimErr.indexErr
                  | some lastStop =>
                    let v1 :=
                      if lastStop.point ≠ nw then
                        addStop rem v nw none true OpType.travel_to_reload
                      else v
                    let amt := min nd (v1.capacity - v1.totalLoad + v1.loads.get good)
                    let v2 := reloadGoods v1 [(good, amt)]
                    Except.ok (addStop rem v2 nw (some [(good, amt)]) true
                      OpType.reload_specific_good)
                else Except.ok v) = Except.ok v3 → VehInv v3 := by
            intro v3 h3
            split at h3
            · rename_i hz
              split at h3
              · cases h3
              · rename_i nw hnw
                split at h3
                · cases h3
                · rename_i lastStop hlast
                  simp only at h3
                  cases h3
                  set v1 := if lastStop.point ≠ nw then
                      addStop rem v nw none true OpType.travel_to_reload
                    else v with hv1
                  have hinv1 : VehInv v1 := by
                    rw [hv1]
                    split
                    · refine addStop_inv _ _ _ _ _ _ hv ?_ ?_
                      · rw [addStop_wh_loads _ _ _ _ _ (by simp)]
                        exact hv.2.1
                      · rw [addStop_wh_loads _ _ _ _ _ (by simp)]
                        exact hv.2.2.1
                    · exact hv
                  have hload1 : v1.loads.get good = 0 := by
                    rw [hv1]
                    split
                    · rw [addStop_wh_loads _ _ _ _ _ (by simp)]
                      exact hz
                    · exact hz
                  have hamt : 0 ≤ min nd (v1.capacity - v1.totalLoad + v1.loads.get good) := by
                    have h1 : v1.totalLoad ≤ v1.capacity := hinv1.2.2.1
                    omega
                  obtain ⟨hinv2, _, _⟩ := reload_single_inv v1 good _ hinv1 hamt
                  refine addStop_inv _ _ _ _ _ _ hinv2 ?_ ?_
                  · rw [addStop_wh_loads _ _ _ _ _ (by simp)]
                    exact hinv2.2.1
                  · rw [addStop_wh_loads _ _ _ _ _ (by simp)]
                    exact hinv2.2.2.1
            · cases h3
              exact hv
          split at hok
          · cases hok
          · rename_i v3 h3
            have hinv3 : VehInv v3 := hre v3 h3
            split at hok
            · rename_i hcan
              refine ih _ _ _ _ _ (vehsInv_set _ _ _ hinv ?_) hok
              refine addStop_inv _ _ _ _ _ _ hinv3 ?_ ?_
              · rw [addStop_delivery_loads]
                intro gd
                by_cases hgd : gd = good
                · subst hgd
                  rw [Goods.get_add_self]
                  have h1 : min (v3.loads.get gd) nd ≤ v3.loads.get gd := min_le_left _ _
                  omega
                · rw [Goods.get_add_of_ne _ _ hgd]
                  exact hinv3.2.1 gd
              · rw [addStop_delivery_loads, Goods.sum_add]
                have h1 : v3.totalLoad ≤ v3.capacity := hinv3.2.2.1
                simp only [Vehicle.totalLoad] at h1
                have h2 : (addStop rem v3 point (some [(good, min (v3.loads.get good) nd)])
                    false OpType.delivery).capacity = v3.capacity := addStop_capacity _ _ _ _ _ _
                rename_i hcan'
                omega
            · cases hok
              intro u hu
              rcases List.mem_or_eq_of_mem_set hu with h1 | h1
              · exact hinv u h1
              · subst h1; exact hinv3

end InvProofs

section InvProofs2

variable {α : Type} [LinearOrderedField α] (D : Point → Point → α)

/-- The pickup loop preserves the capacity invariant. -/
theorem pickupLoop_inv (whs : List Point) (point : Point) (good : Good) :
    ∀ (fuel : Nat) (nd : Int) (vs : List Vehicle) (rem : Rem)
      (vs' : List Vehicle) (rem' : Rem), VehsInv vs →
      pickupLoop D whs point good fuel nd vs rem = Except.ok (vs', rem') →
      VehsInv vs' := by
  intro fuel
  induction fuel with
  | zero =>
    intro nd vs rem vs' rem' hinv hok
    simp only [pickupLoop] at hok
    cases hok
    exact hinv
  | succ f ih =>
    intro nd vs rem vs' rem' hinv hok
    simp only [pickupLoop] at hok
    split at hok
    · cases hok; exact hinv
    · rename_i hnd
      split at hok
      · cases hok; exact hinv
      · rename_i i hsel
        split at hok
        · cases hok
        · rename_i v hget
          have hv : VehInv v := hinv v (List.get?_mem hget)
          split at hok
          · rename_i hcan
            have hinv1 : VehInv (addStop rem v point
                (some [(good, min (v.capacity - v.totalLoad) nd)]) false OpType.pickup) := by
              refine addStop_inv _ _ _ _ _ _ hv ?_ ?_
              · rw [addStop_pickup_loads]
                intro gd
                by_cases hgd : gd = good
                · subst hgd
                  rw [Goods.get_add_self]
                  have := hv.2.1 gd
                  omega
                · rw [Goods.get_add_of_ne _ _ hgd]
                  exact hv.2.1 gd
              · rw [addStop_pickup_loads, Goods.sum_add]
                have h1 : min (v.capacity - v.totalLoad) nd ≤ v.capacity - v.totalLoad :=
                  min_le_left _ _
                simp only [Vehicle.totalLoad] at h1 ⊢
                omega
            have hun : ∀ v3 : Vehicle,
                (if 4 * (addStop rem v point
                      (some [(good, min (v.capacity - v.totalLoad) nd)]) false
                      OpType.pickup).capacity ≤
                    5 * (addStop rem v point
                      (some [(good, min (v.capacity - v.totalLoad) nd)]) false
                      OpType.pickup).totalLoad then
                  match findNearestWarehouse D whs (addStop rem v point
                      (some [(good, min (v.capacity - v.totalLoad) nd)]) false
                      OpType.pickup) with
                  | none => Except.error SimErr.attrErr
                  | some nw =>
                    Except.ok { addStop (remSet rem point (pickupAm (remGet rem point)
                        [(good, min (v.capacity - v.totalLoad) nd)]))
                        (addStop rem v point
                          (some [(good, min (v.capacity - v.totalLoad) nd)]) false
                          OpType.pickup) nw none true OpType.unload_if_full with
                        loads := Goods.zero }
                  else Except.ok (addStop rem v point
                    (some [(good, min (v.capacity - v.totalLoad) nd)]) false
                    OpType.pickup)) = Except.ok v3 → VehInv v3 := by
              intro v3 h3
              split at h3
              · split at h3
                · cases h3
                · rename_i nw hnw
                  cases h3
                  have hinv2 : VehInv (addStop (remSet rem point (pickupAm (remGet rem point)
                      [(good, min (v.capacity - v.totalLoad) nd)]))
                      (addStop rem v point
                        (some [(good, min (v.capacity - v.totalLoad) nd)]) false
                        OpType.pickup) nw none true OpType.unload_if_full) := by
                    refine addStop_inv _ _ _ _ _ _ hinv1 ?_ ?_
                    · rw [addStop_wh_loads _ _ _ _ _ (by simp)]
                      exact hinv1.2.1
                    · rw [addStop_wh_loads _ _ _ _ _ (by simp)]
                      exact hinv1.2.2.1
                  obtain ⟨hc2, hnn2, ht2, hr2⟩ := hinv2
                  refine ⟨hc2, ?_, ?_, hr2⟩
                  · intro gd
                    rw [Goods.get_zero]
                  · show Goods.zero.sum ≤ _
                    rw [Goods.sum_zero]
                    exact hc2
              · cases h3
                exact hinv1
            split at hok
            · cases hok
            · rename_i v3 h3
              exact ih _ _ _ _ _ (vehsInv_set _ _ _ hinv (hun v3 h3)) hok
          · cases hok
            exact hinv

end InvProofs2

section InvProofs3

variable {α : Type} [LinearOrderedField α] (D : Point → Point → α)

theorem handleDelivery_inv (whs : List Point) (point : Point) :
    ∀ (gs : List Good) (vs : List Vehicle) (rem : Rem) (vs' : List Vehicle)
      (rem' : Rem), VehsInv vs →
      handleDelivery D whs point gs vs rem = Except.ok (vs', rem') → VehsInv vs' := by
  intro gs
  induction gs with
  | nil =>
    intro vs rem vs' rem' hinv hok
    simp only [handleDelivery] at hok
    cases hok
    exact hinv
  | cons good rest ih =>
    intro vs rem vs' rem' hinv hok
    simp only [handleDelivery] at hok
    split at hok
    · exact ih _ _ _ _ hinv hok
    · split at hok
      · cases hok
      · rename_i p hdel
        exact ih _ _ _ _ (deliverLoop_inv D whs point good _ _ _ _ _ _ hinv hdel) hok

theorem handlePickup_inv (whs : List Point) (point : Point) :
    ∀ (gs : List Good) (vs : List Vehicle) (rem : Rem) (vs' : List Vehicle)
      (rem' : Rem), VehsInv vs →
      handlePickup D whs point gs vs rem = Except.ok (vs', rem') → VehsInv vs' := by
  intro gs
  induction gs with
  | nil =>
    intro vs rem vs' rem' hinv hok
    simp only [handlePickup] at hok
    cases hok
    exact hinv
  | cons good rest ih =>
    intro vs rem vs' rem' hinv hok
    simp only [handlePickup] at hok
    split at hok
    · exact ih _ _ _ _ hinv hok
    · split at hok
      · cases hok
      · rename_i p hpick
        exact ih _ _ _ _ (pickupLoop_inv D whs point good _ _ _ _ _ _ hinv hpick) hok

theorem processInd_inv (whs : List Point) :
    ∀ (ind : Chrom) (vs : List Vehicle) (rem : Rem) (vs' : List Vehicle)
      (rem' : Rem), VehsInv vs →
      processInd D whs ind vs rem = Except.ok (vs', rem') → VehsInv vs' := by
  intro ind
  induction ind with
  | nil =>
    intro vs rem vs' rem' hinv hok
    simp only [processInd] at hok
    cases hok
    exact hinv
  | cons o rest ih =>
    intro vs rem vs' rem' hinv hok
    match o with
    | none => simp [processInd] at hok
    | some p =>
      simp only [processInd] at hok
      split at hok
      · cases hok
      · rename_i vs1 rem1 hstep
        have hpr : VehsInv vs1 := by
          split at hstep
          · exact handleDelivery_inv D whs p _ _ _ _ _ hinv hstep
          · split at hstep
            · exact handlePickup_inv D whs p _ _ _ _ _ hinv hstep
            · cases hstep; exact hinv
        exact ih _ _ _ _ hpr hok

theorem createVehicles_inv (g : Nat → Nat) (whs : List Point) :
    ∀ (caps : List Int) (i k : Nat) (vs : List Vehicle) (k' : Nat),
      (∀ c ∈ caps, 0 ≤ c) →
      createVehicles g whs caps i k = (Except.ok vs, k') → VehsInv vs := by
  intro caps
  induction caps with
  | nil =>
    intro i k vs k' hc hok
    simp only [createVehicles] at hok
    cases hok
    intro v hv
    cases hv
  | cons c rest ih =>
    intro i k vs k' hc hok
    simp only [createVehicles] at hok
    split at hok
    · cases hok
    · rename_i w k1 hch
      split at hok
      · cases hok
      · rename_i tl k2 hrest
        cases hok
        intro v hv
        rcases List.mem_cons.mp hv with h1 | h1
        · subst h1
          refine ⟨hc c (by simp), ?_, ?_, ?_⟩
          · intro gd; rw [Goods.get_zero]
          · show Goods.zero.sum ≤ c
            rw [Goods.sum_zero]
            exact hc c (by simp)
          · intro s hs; cases hs
        · exact ih _ _ _ _ (fun c hc' => hc c (by simp [hc'])) hrest v h1

theorem initVehicle_inv (rem : Rem) (v : Vehicle) (hv : VehInv v) :
    VehInv (initVehicle rem v) := by
  obtain ⟨hc, _, _, _⟩ := hv
  have hv0 : VehInv { v with loads := Goods.zero, route := [] } := by
    refine ⟨hc, ?_, ?_, ?_⟩
    · intro gd; rw [Goods.get_zero]
    · show Goods.zero.sum ≤ v.capacity
      rw [Goods.sum_zero]; exact hc
    · intro s hs; cases hs
  obtain ⟨hinv1, _, _, _⟩ := partLoad_inv (calcInitialLoad v.capacity) _ hv0
  unfold initVehicle
  refine addStop_inv _ _ _ _ _ _ hinv1 ?_ ?_
  · rw [addStop_wh_loads _ _ _ _ _ (by simp)]
    exact hinv1.2.1
  · rw [addStop_wh_loads _ _ _ _ _ (by simp)]
    exact hinv1.2.2.1

/-- The capacity invariant holds for every vehicle of every service plan
built from non-negative capacities. -/
theorem plan_inv (g : Nat → Nat) (ga : GA) (ind : Chrom) (k : Nat)
    (hc : ∀ c ∈ ga.caps, 0 ≤ c) : VehsInv (planVehicles D g ga ind k) := by
  unfold planVehicles
  split
  · rename_i vsr heq
    unfold calculateServicePlan at heq
    split at heq
    · cases heq
    · rename_i vs0 k1 hcreate
      split at heq
      · cases heq
      · rename_i vsx remx hproc
        cases heq
        refine processInd_inv D _ _ _ _ _ _ ?_ hproc
        intro v hv
        rcases List.mem_map.mp hv with ⟨v0, hv0, rfl⟩
        exact initVehicle_inv _ _ (createVehicles_inv g _ _ _ _ _ _ hc hcreate v0 hv0)
  · intro v hv; cases hv

end InvProofs3

/-! ### Concrete fixtures used by counterexamples and witnesses -/

/-- The all-zeros random stream. -/
def streamZero : Nat → Nat := fun _ => 0

/-- A warehouse at the origin. -/
def wh00 : Point :=
  { pid := 0, x := 0, y := 0, demands := Goods.zero, ptype := PType.warehouse }

/-- A collinear rational distance (the Euclidean distance restricted to the
x-axis), used to instantiate distance-generic theorems on decidable
witnesses. -/
def distX : Point → Point → ℚ := fun p q => |((p.x - q.x : Int) : ℚ)|

/-- A configuration with a single vehicle of capacity `-1`. -/
def gaNegCap : GA :=
  { points := [wh00], warehouses := [wh00], servicePoints := []
    deliveryPoints := [], pickupPoints := [], caps := [-1]
    populationSize := 1, generations := 0, mutationRate := 0, tournamentSize := 1 }

/-- A pickup point at `(1, 0)` demanding 80 units of uranium picked up. -/
def pickP80 : Point :=
  { pid := 3, x := 1, y := 0
    demands := { oranges := 0, uranium := -80, tuna := 0 }, ptype := PType.pickup }

/-- The spec scenario: one warehouse, one vehicle of capacity 50, one pickup
point with demand `{uranium: -80}`. -/
def gaPick50 : GA :=
  { points := [wh00, pickP80], warehouses := [wh00], servicePoints := [pickP80]
    deliveryPoints := [], pickupPoints := [pickP80], caps := [50]
    populationSize := 1, generations := 1, mutationRate := 0, tournamentSize := 1 }

/-! ### Claim C2 -/

/-- C2 (amended): in every execution of `calculate_service_plan` whose
configured vehicle capacities are all non-negative, the sum of a vehicle's
current loads immediately after each recorded stop is at most the
vehicle's capacity.  (Stated for any distance function, hence in
particular for the Euclidean `edist`.) -/
theorem C2_capacity_invariant {α : Type} [LinearOrderedField α]
    (D : Point → Point → α) (g : Nat → Nat) (ga : GA) (ind : Chrom) (k : Nat)
    (hc : ∀ c ∈ ga.caps, 0 ≤ c) :
    ∀ v ∈ planVehicles D g ga ind k, ∀ s ∈ v.route,
      s.loadAfter.sum ≤ v.capacity := by
  intro v hv s hs
  exact (plan_inv D g ga ind k hc v hv).2.2.2 s hs

/-- C2 counterexample: with a (degenerate) configured capacity of `-1` the
simulator still records the `initial_load` stop, whose load snapshot sums
to `0 > -1`; the claim as stated, over every execution, is false. -/
theorem C2_capacity_counterexample :
    ¬ (∀ v ∈ planVehicles (α := ℝ) Point.distance_to streamZero gaNegCap [] 0, ∀ s ∈ v.route,
        s.loadAfter.sum ≤ v.capacity) := by decide

/-- C2 witness: the capacity-50 pickup scenario satisfies the amended
claim's hypothesis and conclusion. -/
theorem C2_capacity_witness :
    (∀ c ∈ gaPick50.caps, 0 ≤ c) ∧
      (∀ v ∈ planVehicles distX streamZero gaPick50 [some pickP80] 0,
        ∀ s ∈ v.route, s.loadAfter.sum ≤ v.capacity) :=
  ⟨by decide, C2_capacity_invariant distX streamZero gaPick50 [some pickP80] 0 (by decide)⟩

/-! ### Claim C5 -/

/-- C5: the search is a deterministic function of the seeded random stream:
two runs with the same stream (same seed) and the same inputs return the
same vehicles with identical route stop records. -/
theorem C5_run_deterministic (ga : GA) (k : Nat) (g1 g2 : Nat → Nat)
    (h : ∀ n, g1 n = g2 n) :
    runGA (α := ℝ) Point.distance_to g1 ga k = runGA Point.distance_to g2 ga k := by
  have hg : g1 = g2 := funext h
  rw [hg]

theorem C5_run_deterministic_witness :
    (∀ n, streamZero n = streamZero n) ∧
      runGA (α := ℝ) Point.distance_to streamZero gaPick50 0 = runGA Point.distance_to streamZero gaPick50 0 :=
  ⟨fun _ => rfl, C5_run_deterministic gaPick50 0 streamZero streamZero (fun _ => rfl)⟩

/-! ### Claim C8 -/

/-- The empty-capacities configuration obtained from the constructor. -/
def gaEmptyCaps : GA :=
  { points := [wh00, pickP80], warehouses := [wh00], servicePoints := [pickP80]
    deliveryPoints := [], pickupPoints := [pickP80], caps := []
    populationSize := 1, generations := 0, mutationRate := 0, tournamentSize := 1 }

/-- C8 counterexample: an empty vehicle-capacities list is a malformed
configuration, yet construction succeeds and the whole search runs to
completion without any error, returning an empty fleet — no configuration
error is raised before (or after) the search loop. -/
theorem C8_config_counterexample :
    mkGA [wh00, pickP80] [] (some [wh00]) 1 0 0 1 = Except.ok gaEmptyCaps ∧
      (runGA (α := ℝ) Point.distance_to streamZero gaEmptyCaps 0).1 = Except.ok [] :=
  ⟨rfl, rfl⟩

/-- C8 (amended): the only configuration validation is implicit: with
`warehouses=None` an empty point list raises `IndexError` on `points[0]`
at construction; an empty capacities list is not validated at all —
construction succeeds and the search completes, returning an empty
vehicle list. -/
theorem C8_config_behaviour :
    (∀ (caps : List Int) (ps gens : Nat) (mr : ℚ) (ts : Nat),
        mkGA [] caps none ps gens mr ts = Except.error SimErr.indexErr) ∧
      mkGA [wh00, pickP80] [] (some [wh00]) 1 0 0 1 = Except.ok gaEmptyCaps ∧
      (runGA (α := ℝ) Point.distance_to streamZero gaEmptyCaps 0).1 = Except.ok [] :=
  ⟨fun _ _ _ _ _ => rfl, rfl, rfl⟩

/-! ### Euclidean distance on the x-axis -/

/-- For points with equal `y`, the Euclidean distance is `|x₁ - x₂|`. -/
theorem distance_to_x (p q : Point) (h : p.y = q.y) :
    p.distance_to q = |((p.x - q.x : Int) : ℝ)| := by
  unfold Point.distance_to
  rw [h, sub_self]
  push_cast
  rw [zero_pow (by norm_num), add_zero, Real.sqrt_sq_eq_abs]

/-! ### First-minimum folds -/

section FoldMin

variable {X : Type} {β : Type} [LinearOrder β]

theorem foldl_min_mem (key : X → β) :
    ∀ (l : List X) (a : X),
      (l.foldl (fun b y => if key y < key b then y else b) a) ∈ a :: l := by
  intro l
  induction l with
  | nil => intro a; simp
  | cons x xs ih =>
    intro a
    simp only [List.foldl_cons]
    rcases List.mem_cons.mp (ih (if key x < key a then x else a)) with h | h
    · rw [h]
      split
      · simp
      · simp
    · simp [h]

theorem foldl_min_le (key : X → β) :
    ∀ (l : List X) (a : X) (x : X), x ∈ a :: l →
      key (l.foldl (fun b y => if key y < key b then y else b) a) ≤ key x := by
  intro l
  induction l with
  | nil =>
    intro a x hx
    rcases List.mem_cons.mp hx with h | h
    · subst h; simp
    · cases h
  | cons z zs ih =>
    intro a x hx
    simp only [List.foldl_cons]
    have hstep1 : key (if key z < key a then z else a) ≤ key a := by
      split
      · rename_i hh; exact le_of_lt hh
      · exact le_refl _
    have hstep2 : key (if key z < key a then z else a) ≤ key z := by
      split
      · exact le_refl _
      · rename_i hh; exact le_of_not_lt hh
    rcases List.mem_cons.mp hx with h | h
    · subst h
      exact le_trans (ih _ _ (List.mem_cons_self _ _)) hstep1
    · rcases List.mem_cons.mp h with h1 | h1
      · subst h1
        exact le_trans (ih _ _ (List.mem_cons_self _ _)) hstep2
      · exact ih _ _ (List.mem_cons.mpr (Or.inr h1))

/-- A fold that never fires its update leaves the state unchanged. -/
theorem foldl_const {S : Type} (f : S → X → S) :
    ∀ (l : List X) (st : S), (∀ x ∈ l, ∀ s, f s x = s) → l.foldl f st = st := by
  intro l
  induction l with
  | nil => intro st _; rfl
  | cons x xs ih =>
    intro st h
    simp only [List.foldl_cons]
    rw [h x (by simp) st]
    exact ih st (fun y hy s => h y (by simp [hy]) s)

theorem enum_snd_mem {l : List X} :
    ∀ {iv : Nat × X}, iv ∈ l.enum → iv.2 ∈ l := by
  intro iv hm
  exact List.getElem?_mem (List.mem_enum_iff_getElem?.mp hm)

end FoldMin

/-! ### Claim C7 -/

theorem svpFirst_none {α : Type} [LinearOrderedField α] (D : Point → Point → α)
    (vehicles : List Vehicle) (point : Point) (good : Good) (amount : Int)
    (h : ∀ v ∈ vehicles, canPickup v [(good, amount)] = false) :
    svpFirst D vehicles point good amount = none := by
  unfold svpFirst
  have key : ∀ (l : List (Nat × Vehicle)),
      (∀ iv ∈ l, canPickup iv.2 [(good, amount)] = false) →
      ∀ st : Option Nat × WithTop α,
      l.foldl
        (fun st iv =>
          let (best, minCost) := st
          let v := iv.2
          if canPickup v [(good, amount)] = false then (best, minCost)
          else
            let cost : WithTop α := ((D (vehPos v) point : α) : WithTop α)
            if cost < minCost then (some iv.1, cost) else (best, minCost)) st = st := by
    intro l
    induction l with
    | nil => intro _ st; rfl
    | cons x xs ih =>
      intro hl st
      obtain ⟨b, m⟩ := st
      simp only [List.foldl_cons]
      have hx := hl x (by simp)
      simp only [hx]
      simp only [if_true]
      exact ih (fun iv hiv => hl iv (by simp [hiv])) (b, m)
  rw [key vehicles.enum (fun iv hiv => h iv.2 (enum_snd_mem hiv))
    ((none : Option Nat), (⊤ : WithTop α))]

/-- C7 (amended): when no vehicle has spare capacity for the full requested
amount, the fallback selects the vehicle *nearest to the point* among the
vehicles with any spare capacity (not the one with most available
capacity), and returns it only provided the *last vehicle of the fleet
list* (the stale loop variable `vehicle`) can take at least one unit;
with no vehicle having spare capacity, no vehicle is returned. -/
theorem C7_pickup_fallback {α : Type} [LinearOrderedField α]
    (D : Point → Point → α) (vehicles : List Vehicle) (point : Point)
    (good : Good) (amount : Int)
    (h : ∀ v ∈ vehicles, canPickup v [(good, amount)] = false) :
    (vehicles.enum.filter (fun iv => 0 < iv.2.capacity - iv.2.totalLoad) = [] →
      selectVehicleForPickup D vehicles point good amount = none) ∧
    ∀ a rest,
      vehicles.enum.filter (fun iv => 0 < iv.2.capacity - iv.2.totalLoad) = a :: rest →
      ∀ lastv, vehicles.getLast? = some lastv →
        (canPickup lastv [(good, 1)] = false →
          selectVehicleForPickup D vehicles point good amount = none) ∧
        (canPickup lastv [(good, 1)] = true →
          ∃ iv, iv ∈ a :: rest ∧
            selectVehicleForPickup D vehicles point good amount = some iv.1 ∧
            ∀ ju ∈ a :: rest, D (vehPos iv.2) point ≤ D (vehPos ju.2) point) := by
  have hfirst := svpFirst_none D vehicles point good amount h
  constructor
  · intro hemp
    unfold selectVehicleForPickup
    rw [hfirst]
    simp only [hemp]
  · intro a rest hfil lastv hlast
    constructor
    · intro hcp
      unfold selectVehicleForPickup
      rw [hfirst]
      simp only [hfil, hlast, hcp]
      simp
    · intro hcp
      refine ⟨rest.foldl
        (fun b y => if D (vehPos y.2) point < D (vehPos b.2) point then y else b) a,
        foldl_min_mem (fun iv => D (vehPos iv.2) point) rest a, ?_, ?_⟩
      · unfold selectVehicleForPickup
        rw [hfirst]
        simp only [hfil, hlast, hcp]
        simp
      · intro ju hju
        exact foldl_min_le (fun iv => D (vehPos iv.2) point) rest a ju hju

/-- Warehouses at `(1,0)` and `(5,0)`, used as vehicle positions. -/
def whA : Point := { pid := 7, x := 1, y := 0, demands := Goods.zero, ptype := PType.warehouse }
def whB : Point := { pid := 8, x := 5, y := 0, demands := Goods.zero, ptype := PType.warehouse }

/-- A pickup point at the origin requesting 20 oranges. -/
def cpt : Point :=
  { pid := 9, x := 0, y := 0
    demands := { oranges := -20, uranium := 0, tuna := 0 }, ptype := PType.pickup }

/-- Near vehicle with spare capacity 1. -/
def cvA : Vehicle :=
  { vid := 1, capacity := 6, loads := { oranges := 5, uranium := 0, tuna := 0 }
    route := [], assignedWh := whA }

/-- Far vehicle with spare capacity 10. -/
def cvB : Vehicle :=
  { vid := 2, capacity := 15, loads := { oranges := 5, uranium := 0, tuna := 0 }
    route := [], assignedWh := whB }

/-- Far vehicle with no spare capacity. -/
def cvBfull : Vehicle :=
  { vid := 3, capacity := 5, loads := { oranges := 5, uranium := 0, tuna := 0 }
    route := [], assignedWh := whB }

/-- C7 counterexample: with no vehicle able to take the full 20 units, the
fallback returns vehicle 0 — the nearest one, whose available capacity (1)
is strictly smaller than vehicle 1's (10); and when the last vehicle of the
fleet is full, the selection returns no vehicle even though the nearest
vehicle with spare capacity could take at least 1 unit. -/
theorem C7_pickup_counterexample :
    selectVehicleForPickup (α := ℝ) Point.distance_to [cvA, cvB] cpt
        Good.oranges 20 = some 0 ∧
      cvA.capacity - cvA.totalLoad < cvB.capacity - cvB.totalLoad ∧
      selectVehicleForPickup (α := ℝ) Point.distance_to [cvA, cvBfull] cpt
        Good.oranges 20 = none ∧
      canPickup cvA [(Good.oranges, 1)] = true ∧
      0 < cvA.capacity - cvA.totalLoad := by
  refine ⟨?_, by decide, by decide, by decide, by decide⟩
  have h := C7_pickup_fallback (α := ℝ) Point.distance_to [cvA, cvB] cpt
    Good.oranges 20 (by decide)
  obtain ⟨iv, hmem, heq, hmin⟩ :=
    (h.2 (0, cvA) [(1, cvB)] (by decide) cvB (by decide)).2 (by decide)
  rcases List.mem_cons.mp hmem with h1 | h1
  · rw [heq, h1]
  · rcases List.mem_cons.mp h1 with h2 | h2
    · have hle := hmin (0, cvA) (by simp)
      rw [h2] at hle
      have hvB : vehPos cvB = whB := rfl
      have hvA : vehPos cvA = whA := rfl
      simp only [hvB, hvA] at hle
      rw [distance_to_x whB cpt rfl, distance_to_x whA cpt rfl] at hle
      norm_num [whA, whB, cpt] at hle
    · cases h2

/-- C7 witness: both vehicles full beyond the requested amount and none
with spare capacity gives no selected vehicle. -/
theorem C7_pickup_witness :
    (∀ v ∈ [cvBfull], canPickup v [(Good.oranges, 20)] = false) ∧
      (([cvBfull].enum.filter (fun iv => 0 < iv.2.capacity - iv.2.totalLoad)) = [] →
        selectVehicleForPickup (α := ℝ) Point.distance_to [cvBfull] cpt
          Good.oranges 20 = none) :=
  ⟨by decide,
    (C7_pickup_fallback Point.distance_to [cvBfull] cpt Good.oranges 20 (by decide)).1⟩

/-! ### Claim C9 -/

/-- The unload discipline of `_handle_pickup` on a recorded route: every
pickup stop whose resulting load reaches 80% of capacity is immediately
followed by a stop at the nearest warehouse (from the pickup point) tagged
`unload_if_full`; a pickup stop below the threshold is never immediately
followed by an `unload_if_full` stop. -/
def unloadDiscipline {α : Type} [LinearOrderedField α] (D : Point → Point → α)
    (whs : List Point) (cap : Int) (route : List Stop) : Prop :=
  ∀ i s, route.get? i = some s → s.opType = OpType.pickup →
    (4 * cap ≤ 5 * s.loadAfter.sum →
      ∃ u, route.get? (i + 1) = some u ∧ u.opType = OpType.unload_if_full ∧
        u.isWarehouse = true ∧
        minByKey (fun w => D s.point w) whs = some u.point) ∧
    (¬ 4 * cap ≤ 5 * s.loadAfter.sum →
      ∀ u, route.get? (i + 1) = some u → u.opType ≠ OpType.unload_if_full)

/-- Loads are zeroed whenever an `unload_if_full` stop was just recorded. -/
def LastUnloadZero (v : Vehicle) : Prop :=
  ∀ s, v.route.getLast? = some s → s.opType = OpType.unload_if_full →
    v.loads = Goods.zero

section C9Lemmas

variable {α : Type} [LinearOrderedField α] (D : Point → Point → α)

theorem discipline_nil (whs : List Point) (cap : Int) :
    unloadDiscipline D whs cap [] := by
  intro i s hget
  simp at hget

/-- Appending a stop that is not a pickup above the threshold and not an
`unload_if_full` preserves the discipline. -/
theorem discipline_append_single (whs : List Point) (cap : Int)
    (route : List Stop) (s : Stop) (h : unloadDiscipline D whs cap route)
    (hnu : s.opType ≠ OpType.unload_if_full)
    (hp : s.opType = OpType.pickup → ¬ 4 * cap ≤ 5 * s.loadAfter.sum) :
    unloadDiscipline D whs cap (route ++ [s]) := by
  intro i t hget hpk
  by_cases hi : i < route.length
  · rw [List.get?_append hi] at hget
    have hd := h i t hget hpk
    constructor
    · intro hth
      obtain ⟨u, hu, hprops⟩ := hd.1 hth
      have hi1 : i + 1 < route.length := by
        by_contra hcon
        rw [List.get?_eq_none.mpr (by omega)] at hu
        cases hu
      exact ⟨u, by rw [List.get?_append hi1]; exact hu, hprops⟩
    · intro hth u hu
      by_cases hi1 : i + 1 < route.length
      · rw [List.get?_append hi1] at hu
        exact hd.2 hth u hu
      · have hlen : i + 1 = route.length := by omega
        rw [List.get?_append_right (by omega)] at hu
        rw [hlen, Nat.sub_self] at hu
        simp at hu
        rw [← hu]
        exact hnu
  · have hlt : i < (route ++ [s]).length := by
      by_contra hcon
      rw [List.get?_eq_none.mpr (by omega)] at hget
      cases hget
    simp at hlt
    have hlen : i = route.length := by omega
    rw [List.get?_append_right (by omega), hlen, Nat.sub_self] at hget
    simp at hget
    constructor
    · intro hth
      exact absurd hth (by rw [hget] at hp; exact hp hpk)
    · intro hth u hu
      rw [List.get?_eq_none.mpr (by simp; omega)] at hu
      cases hu

/-- Appending a threshold-reaching pickup stop immediately followed by its
`unload_if_full` warehouse stop preserves the discipline. -/
theorem discipline_append_pickup_unload (whs : List Point) (cap : Int)
    (route : List Stop) (p u : Stop) (h : unloadDiscipline D whs cap route)
    (hp : p.opType = OpType.pickup) (hth : 4 * cap ≤ 5 * p.loadAfter.sum)
    (hu1 : u.opType = OpType.unload_if_full) (hu2 : u.isWarehouse = true)
    (hu3 : minByKey (fun w => D p.point w) whs = some u.point) :
    unloadDiscipline D whs cap (route ++ [p, u]) := by
  intro i t hget hpk
  by_cases hi : i < route.length
  · rw [List.get?_append hi] at hget
    have hd := h i t hget hpk
    constructor
    · intro hth2
      obtain ⟨u', hu', hprops⟩ := hd.1 hth2
      have hi1 : i + 1 < route.length := by
        by_contra hcon
        rw [List.get?_eq_none.mpr (by omega)] at hu'
        cases hu'
      exact ⟨u', by rw [List.get?_append hi1]; exact hu', hprops⟩
    · intro hth2 u' hu'
      by_cases hi1 : i + 1 < route.length
      · rw [List.get?_append hi1] at hu'
        exact hd.2 hth2 u' hu'
      · have hlen : i + 1 = route.length := by omega
        rw [List.get?_append_right (by omega)] at hu'
        rw [hlen, Nat.sub_self] at hu'
        simp at hu'
        rw [← hu']
        rw [hp]
        simp
  · have hlt : i < (route ++ [p, u]).length := by
      by_contra hcon
      rw [List.get?_eq_none.mpr (by omega)] at hget
      cases hget
    simp at hlt
    by_cases hip : i = route.length
    · rw [List.get?_append_right (by omega), hip, Nat.sub_self] at hget
      simp at hget
      constructor
      · intro _
        refine ⟨u, ?_, hu1, hu2, ?_⟩
        · rw [List.get?_append_right (by omega)]
          rw [hip]
          simp
        · rw [← hget]
          exact hu3
      · intro hth2
        rw [← hget] at hth2
        exact absurd hth hth2
    · have hiu : i = route.length + 1 := by omega
      rw [List.get?_append_right (by omega), hiu] at hget
      simp at hget
      rw [← hget] at hpk
      rw [hu1] at hpk
      cases hpk

end C9Lemmas

theorem addStop_route_eq (rem : Rem) (v : Vehicle) (pt : Point)
    (am : Option Amounts) (w : Bool) (op : OpType) :
    (addStop rem v pt am w op).route = v.route ++
      [{ point := pt
         amounts := am.getD zeroAmounts
         opType := op
         loadAfter := (addStop rem v pt am w op).loads
         remAtPoint := if w then none else some (remGet rem pt)
         isWarehouse := w }] := rfl

theorem vehPos_addStop (rem : Rem) (v : Vehicle) (pt : Point)
    (am : Option Amounts) (w : Bool) (op : OpType) :
    vehPos (addStop rem v pt am w op) = pt := by
  rw [vehPos, addStop_route_eq, List.getLast?_concat]

section C9Pres

variable {α : Type} [LinearOrderedField α] (D : Point → Point → α)

/-- The route-discipline invariant over a fleet. -/
def DiscInv (whs : List Point) (vs : List Vehicle) : Prop :=
  ∀ v ∈ vs, unloadDiscipline D whs v.capacity v.route ∧ LastUnloadZero v

theorem discInv_set (whs : List Point) (vs : List Vehicle) (i : Nat)
    (v : Vehicle) (h : DiscInv D whs vs)
    (hv : unloadDiscipline D whs v.capacity v.route ∧ LastUnloadZero v) :
    DiscInv D whs (vs.set i v) := by
  intro u hu
  rcases List.mem_or_eq_of_mem_set hu with h1 | h1
  · exact h u h1
  · subst h1; exact hv

/-- Appending a non-pickup, non-unload stop preserves both route
invariants. -/
theorem addStop_other_disc (whs : List Point) (rem : Rem) (v : Vehicle)
    (pt : Point) (am : Option Amounts) (w : Bool) (op : OpType)
    (h : unloadDiscipline D whs v.capacity v.route)
    (hop1 : op ≠ OpType.pickup) (hop2 : op ≠ OpType.unload_if_full) :
    unloadDiscipline D whs (addStop rem v pt am w op).capacity
        (addStop rem v pt am w op).route ∧
      LastUnloadZero (addStop rem v pt am w op) := by
  constructor
  · rw [addStop_capacity, addStop_route_eq]
    refine discipline_append_single D whs v.capacity v.route _ h ?_ ?_
    · simpa using hop2
    · intro hpk
      exact absurd hpk (by simpa using hop1)
  · intro s hs hop
    rw [addStop_route_eq, List.getLast?_concat] at hs
    rw [← Option.some.injEq] at hs
    simp at hs
    rw [← hs] at hop
    simp at hop
    exact absurd hop hop2

end C9Pres


theorem reloadGoods_route (v : Vehicle) (good : Good) (amt : Int) :
    (reloadGoods v [(good, amt)]).route = v.route := by
  unfold reloadGoods
  split <;> simp [reloadGoods]

theorem reloadGoods_capacity (v : Vehicle) (good : Good) (amt : Int) :
    (reloadGoods v [(good, amt)]).capacity = v.capacity := by
  unfold reloadGoods
  split <;> simp [reloadGoods]

section C9Pres2

variable {α : Type} [LinearOrderedField α] (D : Point → Point → α)

theorem deliverLoop_disc (whs : List Point) (point : Point) (good : Good) :
    ∀ (fuel : Nat) (nd : Int) (vs : List Vehicle) (rem : Rem)
      (vs' : List Vehicle) (rem' : Rem), DiscInv D whs vs →
      deliverLoop D whs point good fuel nd vs rem = Except.ok (vs', rem') →
      DiscInv D whs vs' := by
  intro fuel
  induction fuel with
  | zero =>
    intro nd vs rem vs' rem' hinv hok
    simp only [deliverLoop] at hok
    cases hok
    exact hinv
  | succ f ih =>
    intro nd vs rem vs' rem' hinv hok
    simp only [deliverLoop] at hok
    split at hok
    · cases hok; exact hinv
    · rename_i hnd
      split at hok
      · cases hok; exact hinv
      · rename_i i hsel
        split at hok
        · cases hok
        · rename_i v hget
          have hv := hinv v (List.get?_mem hget)
          have hre : ∀ v3 : Vehicle,
              (if v.loads.get good = 0 then
                match findNearestWarehouse D whs v with
                | none => Except.error SimErr.attrErr
                | some nw =>
                  match v.route.getLast? with
                  | none => Except.error SimErr.indexErr
                  | some lastStop =>
                    let v1 :=
                      if lastStop.point ≠ nw then
                        addStop rem v nw none true OpType.travel_to_reload
                      else v
                    let amt := min nd (v1.capacity - v1.totalLoad + v1.loads.get good)
                    let v2 := reloadGoods v1 [(good, amt)]
                    Except.ok (addStop rem v2 nw (some [(good, amt)]) true
                      OpType.reload_specific_good)
                else Except.ok v) = Except.ok v3 →
              unloadDiscipline D whs v3.capacity v3.route ∧ LastUnloadZero v3 := by
            intro v3 h3
            split at h3
            · rename_i hz
              split at h3
              · cases h3
              · rename_i nw hnw
                split at h3
                · cases h3
                · rename_i lastStop hlast
                  simp only at h3
                  cases h3
                  set v1 := if lastStop.point ≠ nw then
                      addStop rem v nw none true OpType.travel_to_reload
                    else v with hv1
                  have hd1 : unloadDiscipline D whs v1.capacity v1.route := by
                    rw [hv1]
                    split
                    · exact (addStop_other_disc D whs rem v nw none true
                        OpType.travel_to_reload hv.1 (by simp) (by simp)).1
                    · exact hv.1
                  set amt := min nd (v1.capacity - v1.totalLoad + v1.loads.get good)
                    with hamt
                  have hd2 : unloadDiscipline D whs
                      (reloadGoods v1 [(good, amt)]).capacity
                      (reloadGoods v1 [(good, amt)]).route := by
                    rw [reloadGoods_route, reloadGoods_capacity]
                    exact hd1
                  exact addStop_other_disc D whs rem (reloadGoods v1 [(good, amt)])
                    nw (some [(good, amt)]) true OpType.reload_specific_good hd2
                    (by simp) (by simp)
            · cases h3
              exact hv
          split at hok
          · cases hok
          · rename_i v3 h3
            have hd3 := hre v3 h3
            split at hok
            · rename_i hcan
              refine ih _ _ _ _ _ (discInv_set D whs _ _ _ hinv ?_) hok
              exact addStop_other_disc D whs rem v3 point
                (some [(good, min (v3.loads.get good) nd)]) false OpType.delivery
                hd3.1 (by simp) (by simp)
            · cases hok
              exact discInv_set D whs _ _ _ hinv hd3

end C9Pres2

section C9Pres3

variable {α : Type} [LinearOrderedField α] (D : Point → Point → α)

theorem pickupLoop_disc (whs : List Point) (point : Point) (good : Good) :
    ∀ (fuel : Nat) (nd : Int) (vs : List Vehicle) (rem : Rem)
      (vs' : List Vehicle) (rem' : Rem), DiscInv D whs vs →
      pickupLoop D whs point good fuel nd vs rem = Except.ok (vs', rem') →
      DiscInv D whs vs' := by
  intro fuel
  induction fuel with
  | zero =>
    intro nd vs rem vs' rem' hinv hok
    simp only [pickupLoop] at hok
    cases hok
    exact hinv
  | succ f ih =>
    intro nd vs rem vs' rem' hinv hok
    simp only [pickupLoop] at hok
    split at hok
    · cases hok; exact hinv
    · rename_i hnd
      split at hok
      · cases hok; exact hinv
      · rename_i i hsel
        split at hok
        · cases hok
        · rename_i v hget
          have hv := hinv v (List.get?_mem hget)
          split at hok
          · rename_i hcan
            have hun : ∀ v3 : Vehicle,
                (if 4 * (addStop rem v point
                      (some [(good, min (v.capacity - v.totalLoad) nd)]) false
                      OpType.pickup).capacity ≤
                    5 * (addStop rem v point
                      (some [(good, min (v.capacity - v.totalLoad) nd)]) false
                      OpType.pickup).totalLoad then
                  match findNearestWarehouse D whs (addStop rem v point
                      (some [(good, min (v.capacity - v.totalLoad) nd)]) false
                      OpType.pickup) with
                  | none => Except.error SimErr.attrErr
                  | some nw =>
                    Except.ok { addStop (remSet rem point (pickupAm (remGet rem point)
                        [(good, min (v.capacity - v.totalLoad) nd)]))
                        (addStop rem v point
                          (some [(good, min (v.capacity - v.totalLoad) nd)]) false
                          OpType.pickup) nw none true OpType.unload_if_full with
                        loads := Goods.zero }
                  else Except.ok (addStop rem v point
                    (some [(good, min (v.capacity - v.totalLoad) nd)]) false
                    OpType.pickup)) = Except.ok v3 →
                unloadDiscipline D whs v3.capacity v3.route ∧ LastUnloadZero v3 := by
              intro v3 h3
              split at h3
              · rename_i hth
                split at h3
                · cases h3
                · rename_i nw hnw
                  cases h3
                  have hdisc2 : unloadDiscipline D whs
                      (addStop (remSet rem point (pickupAm (remGet rem point)
                          [(good, min (v.capacity - v.totalLoad) nd)]))
                        (addStop rem v point
                          (some [(good, min (v.capacity - v.totalLoad) nd)]) false
                          OpType.pickup) nw none true OpType.unload_if_full).capacity
                      (addStop (remSet rem point (pickupAm (remGet rem point)
                          [(good, min (v.capacity - v.totalLoad) nd)]))
                        (addStop rem v point
                          (some [(good, min (v.capacity - v.totalLoad) nd)]) false
                          OpType.pickup) nw none true OpType.unload_if_full).route := by
                    rw [addStop_capacity, addStop_capacity, addStop_route_eq,
                      addStop_route_eq, List.append_assoc]
                    refine discipline_append_pickup_unload D whs v.capacity v.route
                      _ _ hv.1 rfl ?_ rfl rfl ?_
                    · show 4 * v.capacity ≤ 5 * (addStop rem v point
                        (some [(good, min (v.capacity - v.totalLoad) nd)]) false
                        OpType.pickup).loads.sum
                      rw [addStop_capacity] at hth
                      exact hth
                    · show minByKey (fun w => D point w) whs = some nw
                      rw [findNearestWarehouse, vehPos_addStop] at hnw
                      exact hnw
                  exact ⟨hdisc2, fun s hs hop => rfl⟩
              · rename_i hth
                cases h3
                constructor
                · rw [addStop_capacity, addStop_route_eq]
                  refine discipline_append_single D whs v.capacity v.route _ hv.1
                    (by simp) ?_
                  intro _
                  show ¬ 4 * v.capacity ≤ 5 * (addStop rem v point
                    (some [(good, min (v.capacity - v.totalLoad) nd)]) false
                    OpType.pickup).loads.sum
                  rw [addStop_capacity] at hth
                  exact hth
                · intro s hs hop
                  rw [addStop_route_eq, List.getLast?_concat] at hs
                  rw [← Option.some.injEq] at hs
                  simp at hs
                  rw [← hs] at hop
                  simp at hop
            split at hok
            · cases hok
            · rename_i v3 h3
              exact ih _ _ _ _ _ (discInv_set D whs _ _ _ hinv (hun v3 h3)) hok
          · cases hok
            exact hinv

end C9Pres3

theorem partLoad_route_cap : ∀ (am : Amounts) (v : Vehicle),
    (partLoad v am).route = v.route ∧ (partLoad v am).capacity = v.capacity := by
  intro am
  induction am with
  | nil => intro v; exact ⟨rfl, rfl⟩
  | cons e rest ih =>
    intro v
    obtain ⟨good, amount⟩ := e
    simp only [partLoad]
    split
    · exact ⟨rfl, rfl⟩
    · split
      · exact ⟨rfl, rfl⟩
      · exact ih _

section C9Pres4

variable {α : Type} [LinearOrderedField α] (D : Point → Point → α)

theorem handleDelivery_disc (whs : List Point) (point : Point) :
    ∀ (gs : List Good) (vs : List Vehicle) (rem : Rem) (vs' : List Vehicle)
      (rem' : Rem), DiscInv D whs vs →
      handleDelivery D whs point gs vs rem = Except.ok (vs', rem') →
      DiscInv D whs vs' := by
  intro gs
  induction gs with
  | nil =>
    intro vs rem vs' rem' hinv hok
    simp only [handleDelivery] at hok
    cases hok
    exact hinv
  | cons good rest ih =>
    intro vs rem vs' rem' hinv hok
    simp only [handleDelivery] at hok
    split at hok
    · exact ih _ _ _ _ hinv hok
    · split at hok
      · cases hok
      · rename_i p hdel
        exact ih _ _ _ _ (deliverLoop_disc D whs point good _ _ _ _ _ _ hinv hdel) hok

theorem handlePickup_disc (whs : List Point) (point : Point) :
    ∀ (gs : List Good) (vs : List Vehicle) (rem : Rem) (vs' : List Vehicle)
      (rem' : Rem), DiscInv D whs vs →
      handlePickup D whs point gs vs rem = Except.ok (vs', rem') →
      DiscInv D whs vs' := by
  intro gs
  induction gs with
  | nil =>
    intro vs rem vs' rem' hinv hok
    simp only [handlePickup] at hok
    cases hok
    exact hinv
  | cons good rest ih =>
    intro vs rem vs' rem' hinv hok
    simp only [handlePickup] at hok
    split at hok
    · exact ih _ _ _ _ hinv hok
    · split at hok
      · cases hok
      · rename_i p hpick
        exact ih _ _ _ _ (pickupLoop_disc D whs point good _ _ _ _ _ _ hinv hpick) hok

theorem processInd_disc (whs : List Point) :
    ∀ (ind : Chrom) (vs : List Vehicle) (rem : Rem) (vs' : List Vehicle)
      (rem' : Rem), DiscInv D whs vs →
      processInd D whs ind vs rem = Except.ok (vs', rem') → DiscInv D whs vs' := by
  intro ind
  induction ind with
  | nil =>
    intro vs rem vs' rem' hinv hok
    simp only [processInd] at hok
    cases hok
    exact hinv
  | cons o rest ih =>
    intro vs rem vs' rem' hinv hok
    match o with
    | none => simp [processInd] at hok
    | some p =>
      simp only [processInd] at hok
      split at hok
      · cases hok
      · rename_i vs1 rem1 hstep
        have hpr : DiscInv D whs vs1 := by
          split at hstep
          · exact handleDelivery_disc D whs p _ _ _ _ _ hinv hstep
          · split at hstep
            · exact handlePickup_disc D whs p _ _ _ _ _ hinv hstep
            · cases hstep; exact hinv
        exact ih _ _ _ _ hpr hok

theorem createVehicles_disc (g : Nat → Nat) (whs0 whs : List Point) :
    ∀ (caps : List Int) (i k : Nat) (vs : List Vehicle) (k' : Nat),
      createVehicles g whs0 caps i k = (Except.ok vs, k') → DiscInv D whs vs := by
  intro caps
  induction caps with
  | nil =>
    intro i k vs k' hok
    simp only [createVehicles] at hok
    cases hok
    intro v hv
    cases hv
  | cons c rest ih =>
    intro i k vs k' hok
    simp only [createVehicles] at hok
    split at hok
    · cases hok
    · rename_i w k1 hch
      split at hok
      · cases hok
      · rename_i tl k2 hrest
        cases hok
        intro v hv
        rcases List.mem_cons.mp hv with h1 | h1
        · subst h1
          refine ⟨discipline_nil D whs _, ?_⟩
          intro s hs
          cases hs
        · exact ih _ _ _ _ hrest v h1

theorem initVehicle_disc (whs : List Point) (rem : Rem) (v : Vehicle)
    (hv : unloadDiscipline D whs v.capacity v.route ∧ LastUnloadZero v) :
    unloadDiscipline D whs (initVehicle rem v).capacity (initVehicle rem v).route ∧
      LastUnloadZero (initVehicle rem v) := by
  have hreset : unloadDiscipline D whs
      ({ v with loads := Goods.zero, route := [] } : Vehicle).capacity
      ({ v with loads := Goods.zero, route := [] } : Vehicle).route :=
    discipline_nil D whs _
  have hpl := partLoad_route_cap (calcInitialLoad v.capacity)
    ({ v with loads := Goods.zero, route := [] })
  unfold initVehicle
  refine addStop_other_disc D whs rem _ _ _ _ _ ?_ (by simp) (by simp)
  rw [hpl.1, hpl.2]
  exact hreset

/-- C9: in every execution of `calculate_service_plan` (with any distance
function, in particular the Euclidean one), every vehicle's recorded route
obeys the unload discipline — a pickup stop whose resulting total load
reaches 80% of capacity is immediately followed by an `unload_if_full`
stop at the warehouse nearest to the pickup point, a pickup stop below the
threshold is never followed by one — and the vehicle's loads are zero
whenever its route just ended with an `unload_if_full` stop. -/
theorem C9_unload_discipline {α' : Type} [LinearOrderedField α']
    (D' : Point → Point → α') (g : Nat → Nat) (ga : GA) (ind : Chrom) (k : Nat) :
    ∀ v ∈ planVehicles D' g ga ind k,
      unloadDiscipline D' ga.warehouses v.capacity v.route ∧ LastUnloadZero v := by
  have hmain : DiscInv D' ga.warehouses (planVehicles D' g ga ind k) := by
    unfold planVehicles
    split
    · rename_i vsr heq
      unfold calculateServicePlan at heq
      split at heq
      · cases heq
      · rename_i vs0 k1 hcreate
        split at heq
        · cases heq
        · rename_i vsx remx hproc
          cases heq
          refine processInd_disc D' _ _ _ _ _ _ ?_ hproc
          intro v hv
          rcases List.mem_map.mp hv with ⟨v0, hv0, rfl⟩
          exact initVehicle_disc D' _ _ _
            (createVehicles_disc D' g _ _ _ _ _ _ _ hcreate v0 hv0)
    · intro v hv; cases hv
  exact hmain

end C9Pres4

/-- The vehicle produced by the capacity-50 pickup scenario. -/
def vPick50 : Vehicle :=
  (planVehicles distX streamZero gaPick50 [some pickP80] 0).headD
    { vid := 0, capacity := 0, loads := Goods.zero, route := [], assignedWh := wh00 }

theorem C9_unload_discipline_witness :
    vPick50 ∈ planVehicles distX streamZero gaPick50 [some pickP80] 0 ∧
      (unloadDiscipline distX gaPick50.warehouses vPick50.capacity vPick50.route ∧
        LastUnloadZero vPick50) :=
  ⟨by decide,
    C9_unload_discipline distX streamZero gaPick50 [some pickP80] 0 vPick50 (by decide)⟩

/-! ### Claim C1 -/

section C1Defs

variable {α : Type} [LinearOrderedField α] (D : Point → Point → α)

/-- Sum of consecutive legs along a point sequence. -/
def legsSum : List Point → α
  | [] => 0
  | [_] => 0
  | p :: q :: rest => D p q + legsSum (q :: rest)

/-- The spec's formulation of a vehicle's travelled distance: consecutive
legs from the assigned warehouse through the route stops, plus the closing
leg from the last stop to the nearest warehouse. -/
def specVehicleDistance (whs : List Point) (v : Vehicle) : α :=
  match v.route.getLast? with
  | none => 0
  | some lastStop =>
    legsSum D (v.assignedWh :: v.route.map Stop.point) +
      (match findNearestWarehouse D whs v with
       | some fw => D lastStop.point fw
       | none => 0)

theorem legs_fold :
    ∀ (stops : List Stop) (acc : α) (last : Point),
      stops.foldl (fun st stop => (st.1 + D st.2 stop.point, stop.point)) (acc, last) =
        (acc + legsSum D (last :: stops.map Stop.point),
          ((stops.map Stop.point).getLastD last)) := by
  intro stops
  induction stops with
  | nil =>
    intro acc last
    simp [legsSum]
  | cons s rest ih =>
    intro acc last
    simp only [List.foldl_cons, List.map_cons]
    rw [ih (acc + D last s.point) s.point]
    simp only [Prod.mk.injEq]
    constructor
    · show acc + D last s.point + legsSum D (s.point :: rest.map Stop.point) =
        acc + legsSum D (last :: s.point :: rest.map Stop.point)
      rw [legsSum]
      ring
    · rw [List.getLastD_cons]

theorem vehicleDistance_spec (whs : List Point) (v : Vehicle) (hw : whs ≠ []) :
    vehicleDistance D whs v = some (specVehicleDistance D whs v) := by
  unfold vehicleDistance specVehicleDistance
  by_cases hr : v.route = []
  · rw [if_pos hr, hr]
    simp
  · rw [if_neg hr]
    have hfw : ∃ fw, findNearestWarehouse D whs v = some fw := by
      unfold findNearestWarehouse minByKey
      match whs, hw with
      | w :: ws, _ => exact ⟨_, rfl⟩
    obtain ⟨fw, hfweq⟩ := hfw
    rw [hfweq]
    obtain ⟨lastStop, hlast⟩ : ∃ s, v.route.getLast? = some s :=
      ⟨v.route.getLast hr, List.getLast?_eq_getLast _ hr⟩
    rw [hlast]
    rw [legs_fold]
    have hlp : (v.route.map Stop.point).getLastD v.assignedWh = lastStop.point := by
      rw [List.getLastD_eq_getLast?]
      rw [List.getLast?_map]
      rw [hlast]
      rfl
    rw [hlp]
    simp

theorem fleetDistance_spec (whs : List Point) (hw : whs ≠ []) :
    ∀ (vs : List Vehicle) (acc : α),
      vs.foldl
        (fun acc v =>
          match acc, vehicleDistance D whs v with
          | some t, some d => some (t + d)
          | _, _ => none)
        (some acc) =
      some (acc + (vs.map (specVehicleDistance D whs)).sum) := by
  intro vs
  induction vs with
  | nil => intro acc; simp
  | cons v rest ih =>
    intro acc
    simp only [List.foldl_cons]
    rw [vehicleDistance_spec D whs v hw]
    rw [ih (acc + specVehicleDistance D whs v)]
    simp [add_assoc]

end C1Defs

section C1Len

variable {α : Type} [LinearOrderedField α] (D : Point → Point → α)

theorem deliverLoop_length (whs : List Point) (point : Point) (good : Good) :
    ∀ (fuel : Nat) (nd : Int) (vs : List Vehicle) (rem : Rem)
      (vs' : List Vehicle) (rem' : Rem),
      deliverLoop D whs point good fuel nd vs rem = Except.ok (vs', rem') →
      vs'.length = vs.length := by
  intro fuel
  induction fuel with
  | zero =>
    intro nd vs rem vs' rem' hok
    simp only [deliverLoop] at hok
    cases hok; rfl
  | succ f ih =>
    intro nd vs rem vs' rem' hok
    simp only [deliverLoop] at hok
    split at hok
    · cases hok; rfl
    · split at hok
      · cases hok; rfl
      · rename_i i hsel
        split at hok
        · cases hok
        · rename_i v hget
          split at hok
          · cases hok
          · rename_i v3 h3
            split at hok
            · have := ih _ _ _ _ _ hok
              rw [this, List.length_set]
            · cases hok
              rw [List.length_set]

theorem pickupLoop_length (whs : List Point) (point : Point) (good : Good) :
    ∀ (fuel : Nat) (nd : Int) (vs : List Vehicle) (rem : Rem)
      (vs' : List Vehicle) (rem' : Rem),
      pickupLoop D whs point good fuel nd vs rem = Except.ok (vs', rem') →
      vs'.length = vs.length := by
  intro fuel
  induction fuel with
  | zero =>
    intro nd vs rem vs' rem' hok
    simp only [pickupLoop] at hok
    cases hok; rfl
  | succ f ih =>
    intro nd vs rem vs' rem' hok
    simp only [pickupLoop] at hok
    split at hok
    · cases hok; rfl
    · split at hok
      · cases hok; rfl
      · rename_i i hsel
        split at hok
        · cases hok
        · rename_i v hget
          split at hok
          · split at hok
            · cases hok
            · rename_i v3 h3
              have := ih _ _ _ _ _ hok
              rw [this, List.length_set]
          · cases hok; rfl

theorem handleDelivery_length (whs : List Point) (point : Point) :
    ∀ (gs : List Good) (vs : List Vehicle) (rem : Rem) (vs' : List Vehicle)
      (rem' : Rem),
      handleDelivery D whs point gs vs rem = Except.ok (vs', rem') →
      vs'.length = vs.length := by
  intro gs
  induction gs with
  | nil =>
    intro vs rem vs' rem' hok
    simp only [handleDelivery] at hok
    cases hok; rfl
  | cons good rest ih =>
    intro vs rem vs' rem' hok
    simp only [handleDelivery] at hok
    split at hok
    · exact ih _ _ _ _ hok
    · split at hok
      · cases hok
      · rename_i p hdel
        rw [ih _ _ _ _ hok]
        exact deliverLoop_length D whs point good _ _ _ _ _ _ hdel

theorem handlePickup_length (whs : List Point) (point : Point) :
    ∀ (gs : List Good) (vs : List Vehicle) (rem : Rem) (vs' : List Vehicle)
      (rem' : Rem),
      handlePickup D whs point gs vs rem = Except.ok (vs', rem') →
      vs'.length = vs.length := by
  intro gs
  induction gs with
  | nil =>
    intro vs rem vs' rem' hok
    simp only [handlePickup] at hok
    cases hok; rfl
  | cons good rest ih =>
    intro vs rem vs' rem' hok
    simp only [handlePickup] at hok
    split at hok
    · exact ih _ _ _ _ hok
    · split at hok
      · cases hok
      · rename_i p hpick
        rw [ih _ _ _ _ hok]
        exact pickupLoop_length D whs point good _ _ _ _ _ _ hpick

theorem processInd_length (whs : List Point) :
    ∀ (ind : Chrom) (vs : List Vehicle) (rem : Rem) (vs' : List Vehicle)
      (rem' : Rem),
      processInd D whs ind vs rem = Except.ok (vs', rem') →
      vs'.length = vs.length := by
  intro ind
  induction ind with
  | nil =>
    intro vs rem vs' rem' hok
    simp only [processInd] at hok
    cases hok; rfl
  | cons o rest ih =>
    intro vs rem vs' rem' hok
    match o with
    | none => simp [processInd] at hok
    | some p =>
      simp only [processInd] at hok
      split at hok
      · cases hok
      · rename_i vs1 rem1 hstep
        rw [ih _ _ _ _ hok]
        split at hstep
        · exact handleDelivery_length D whs p _ _ _ _ _ hstep
        · split at hstep
          · exact handlePickup_length D whs p _ _ _ _ _ hstep
          · cases hstep; rfl

theorem createVehicles_whs_ne (g : Nat → Nat) (whs : List Point) (c : Int)
    (cs : List Int) (i k : Nat) (vs : List Vehicle) (k' : Nat)
    (hok : createVehicles g whs (c :: cs) i k = (Except.ok vs, k')) :
    whs ≠ [] := by
  intro hemp
  subst hemp
  simp only [createVehicles, randChoice] at hok
  simp at hok

end C1Len

theorem createVehicles_length (g : Nat → Nat) (whs : List Point) :
    ∀ (caps : List Int) (i k : Nat) (vs : List Vehicle) (k' : Nat),
      createVehicles g whs caps i k = (Except.ok vs, k') →
      vs.length = caps.length := by
  intro caps
  induction caps with
  | nil =>
    intro i k vs k' hok
    simp only [createVehicles] at hok
    cases hok; rfl
  | cons c rest ih =>
    intro i k vs k' hok
    simp only [createVehicles] at hok
    split at hok
    · cases hok
    · split at hok
      · cases hok
      · rename_i tl k2 hrest
        cases hok
        simp [ih _ _ _ _ hrest]

section C1Main

variable {α : Type} [LinearOrderedField α] (D : Point → Point → α)

theorem plan_ok_parts (g : Nat → Nat) (ga : GA) (ind : Chrom) (k : Nat)
    (vs : List Vehicle) (rem : Rem) (k1 : Nat)
    (h : calculateServicePlan D g ga ind k = (Except.ok (vs, rem), k1)) :
    ∃ vs0, createVehicles g ga.warehouses ga.caps 0 k = (Except.ok vs0, k1) ∧
      processInd D ga.warehouses ind (vs0.map (initVehicle (initRem ga)))
        (initRem ga) = Except.ok (vs, rem) ∧
      vs.length = ga.caps.length := by
  unfold calculateServicePlan at h
  split at h
  · cases h
  · rename_i vs0 k1' hcv
    split at h
    · cases h
    · rename_i vsx remx hpi
      cases h
      refine ⟨vs0, hcv, hpi, ?_⟩
      rw [processInd_length D _ _ _ _ _ _ hpi, List.length_map]
      exact createVehicles_length g _ _ _ _ _ _ hcv

/-- C1: `fitness` returns `+inf` exactly when the chromosome contains
`None`, has the wrong length, or the simulation raises; otherwise it
returns the sum over vehicles of the Euclidean consecutive-leg distances
from the assigned warehouse through the route stops plus the closing leg
to the nearest warehouse. -/
theorem C1_fitness_spec (g : Nat → Nat) (ga : GA) (ind : Chrom) (k : Nat) :
    ((fitness (α := ℝ) Point.distance_to g ga ind k).1 = ⊤ ↔
      (none ∈ ind ∨ ind.length ≠ ga.servicePoints.length ∨
        ∃ e, (calculateServicePlan (α := ℝ) Point.distance_to g ga ind k).1 =
          Except.error e)) ∧
    (∀ vs rem,
      (calculateServicePlan (α := ℝ) Point.distance_to g ga ind k).1 =
        Except.ok (vs, rem) →
      ¬ none ∈ ind → ind.length = ga.servicePoints.length →
      (fitness (α := ℝ) Point.distance_to g ga ind k).1 =
        (((vs.map (specVehicleDistance Point.distance_to ga.warehouses)).sum : ℝ) :
          WithTop ℝ)) := by
  have hfleet : ∀ (vs : List Vehicle) (rem : Rem) (k1 : Nat),
      calculateServicePlan (α := ℝ) Point.distance_to g ga ind k =
        (Except.ok (vs, rem), k1) →
      fleetDistance Point.distance_to ga.warehouses vs =
        some ((vs.map (specVehicleDistance Point.distance_to ga.warehouses)).sum) := by
    intro vs rem k1 hpl
    obtain ⟨vs0, hcv, hpi, hlen⟩ := plan_ok_parts Point.distance_to g ga ind k vs rem k1 hpl
    match hcaps : ga.caps with
    | [] =>
      rw [hcaps] at hlen
      have hvs : vs = [] := List.length_eq_zero.mp (by simp [hlen])
      subst hvs
      simp [fleetDistance]
    | c :: cs =>
      rw [hcaps] at hcv
      have hw := createVehicles_whs_ne g ga.warehouses c cs 0 k vs0 k1 hcv
      unfold fleetDistance
      rw [fleetDistance_spec Point.distance_to ga.warehouses hw vs 0]
      rw [zero_add]
  constructor
  · by_cases hval : none ∈ ind ∨ ind.length ≠ ga.servicePoints.length
    · constructor
      · intro _
        rcases hval with h1 | h1
        · exact Or.inl h1
        · exact Or.inr (Or.inl h1)
      · intro _
        unfold fitness
        rw [if_pos hval]
    · constructor
      · intro htop
        unfold fitness at htop
        rw [if_neg hval] at htop
        refine Or.inr (Or.inr ?_)
        rcases hpl : calculateServicePlan (α := ℝ) Point.distance_to g ga ind k
          with ⟨res, k1⟩
        match res, hpl with
        | Except.error e, hpl =>
          exact ⟨e, by simp [hpl]⟩
        | Except.ok (vs, rem), hpl =>
          rw [hpl] at htop
          simp only at htop
          rw [hfleet vs rem k1 hpl] at htop
          simp at htop
      · intro hr
        rcases hr with h1 | h1
        · exact absurd (Or.inl h1) hval
        · rcases h1 with h1 | h1
          · exact absurd (Or.inr h1) hval
          · obtain ⟨e, he⟩ := h1
            unfold fitness
            rw [if_neg hval]
            rcases hpl : calculateServicePlan (α := ℝ) Point.distance_to g ga ind k
              with ⟨res, k1⟩
            rw [hpl] at he
            simp only at he
            match res, he with
            | Except.error e', _ => simp only
  · intro vs rem hok hn hl
    have hval : ¬ (none ∈ ind ∨ ind.length ≠ ga.servicePoints.length) := by
      intro hcon
      rcases hcon with h1 | h1
      · exact hn h1
      · exact h1 hl
    unfold fitness
    rw [if_neg hval]
    rcases hpl : calculateServicePlan (α := ℝ) Point.distance_to g ga ind k
      with ⟨res, k1⟩
    rw [hpl] at hok
    simp only at hok
    match res, hok, hpl with
    | Except.ok (vs', rem'), hok, hpl =>
      have hv : vs' = vs ∧ rem' = rem := by
        have := Except.ok.inj hok
        exact ⟨congrArg Prod.fst this, congrArg Prod.snd this⟩
      obtain ⟨rfl, rfl⟩ := hv
      simp only
      rw [hfleet vs' rem' k1 hpl]

end C1Main

/-- A trivial configuration: one warehouse, no service points, no
vehicles. -/
def gaTrivial : GA :=
  { points := [wh00], warehouses := [wh00], servicePoints := []
    deliveryPoints := [], pickupPoints := [], caps := []
    populationSize := 1, generations := 0, mutationRate := 0, tournamentSize := 1 }

theorem C1_fitness_spec_witness :
    ((calculateServicePlan (α := ℝ) Point.distance_to streamZero gaTrivial [] 0).1 =
        Except.ok ([], [])) ∧
      (fitness (α := ℝ) Point.distance_to streamZero gaTrivial [] 0).1 =
        (((([] : List Vehicle).map
          (specVehicleDistance Point.distance_to gaTrivial.warehouses)).sum : ℝ) :
          WithTop ℝ) :=
  ⟨rfl, (C1_fitness_spec streamZero gaTrivial [] 0).2 [] [] rfl (by decide) rfl⟩

/-! ### C10: 2-opt refinement -/

section C10Lemmas

variable {α : Type} [LinearOrderedField α] {X : Type}

theorem segRev_perm (l : List X) (i j : Nat) (hij : i ≤ j + 1) :
    (segRev l i j).Perm l := by
  unfold segRev
  rw [List.append_assoc]
  conv_rhs => rw [← List.take_append_drop i l]
  refine List.Perm.append_left _ ?_
  have hd : l.drop (j + 1) = (l.drop i).drop (j + 1 - i) := by
    rw [List.drop_drop]
    congr 1
    omega
  rw [hd]
  have h1 := (List.reverse_perm ((l.drop i).take (j + 1 - i))).append_right
    ((l.drop i).drop (j + 1 - i))
  refine h1.trans ?_
  rw [List.take_append_drop]

theorem segRev_head (l : List X) (i j : Nat) (hi : 1 ≤ i) :
    (segRev l i j).head? = l.head? := by
  match i, hi with
  | i + 1, _ =>
    cases l with
    | nil => simp [segRev]
    | cons a as => simp [segRev]

theorem segRev_getLast (l : List X) (i j : Nat) (hj : j + 1 < l.length) :
    (segRev l i j).getLast? = l.getLast? := by
  have hd : l.drop (j + 1) ≠ [] := by
    intro he
    have h1 : (l.drop (j + 1)).length = 0 := by rw [he]; rfl
    rw [List.length_drop] at h1
    omega
  have hr : ∀ (pre : List X), (pre ++ l.drop (j + 1)).getLast? = (l.drop (j + 1)).getLast? := by
    intro pre
    rw [List.getLast?_append]
    cases hx : (l.drop (j + 1)).getLast? with
    | none => exact absurd (List.getLast?_eq_none_iff.mp hx) hd
    | some x => rfl
  unfold segRev
  rw [hr]
  conv_rhs => rw [← List.take_append_drop (j + 1) l]
  rw [hr]

theorem sweepPairs_bounds (L : Nat) :
    ∀ p ∈ sweepPairs L, 1 ≤ p.1 ∧ p.1 ≤ p.2 ∧ p.2 + 2 ≤ L := by
  intro p hp
  unfold sweepPairs at hp
  rw [List.mem_flatMap] at hp
  obtain ⟨i, hi, hp⟩ := hp
  rw [List.mem_map] at hp
  obtain ⟨j, hj, rfl⟩ := hp
  rw [List.mem_range'_1] at hi hj
  refine ⟨?_, ?_, ?_⟩
  · show 1 ≤ i
    omega
  · show i ≤ j
    omega
  · show j + 2 ≤ L
    omega

end C10Lemmas

/-- The loop invariant of one 2-opt sweep: the current route is a
permutation of the full closed route with the endpoints fixed, its distance
is bounded by the recorded best, and the best never exceeds its starting
value. -/
def SweepInv {α : Type} [LinearOrderedField α] (D : Point → Point → α) (whs : List Point)
    (full : Chrom) (b : α) (st : Chrom × α × Bool) : Prop :=
  st.1.Perm full ∧ st.1.head? = full.head? ∧ st.1.getLast? = full.getLast? ∧
    calculateRouteDistance D whs st.1 ≤ st.2.1 ∧ st.2.1 ≤ b

section C10Sweep

variable {α : Type} [LinearOrderedField α]

theorem sweep_fold_inv (D : Point → Point → α) (whs : List Point) (full : Chrom) (b : α) :
    ∀ (pairs : List (Nat × Nat)) (st : Chrom × α × Bool),
      (∀ p ∈ pairs, 1 ≤ p.1 ∧ p.1 ≤ p.2 ∧ p.2 + 2 ≤ full.length) →
      SweepInv D whs full b st →
      SweepInv D whs full b (pairs.foldl
        (fun st p =>
          let newR := segRev st.1 p.1 p.2
          let nd := calculateRouteDistance D whs newR
          if nd < st.2.1 then (newR, nd, true) else st) st) := by
  intro pairs
  induction pairs with
  | nil =>
    intro st _ h
    exact h
  | cons p ps ih =>
    intro st hbd h
    rw [List.foldl_cons]
    apply ih
    · intro q hq
      exact hbd q (List.mem_cons_of_mem p hq)
    · obtain ⟨hperm, hhead, hlast, hle, hbb⟩ := h
      have hp := hbd p (List.mem_cons_self p ps)
      have hlen : st.1.length = full.length := hperm.length_eq
      show SweepInv D whs full b
        (if calculateRouteDistance D whs (segRev st.1 p.1 p.2) < st.2.1 then
          (segRev st.1 p.1 p.2, calculateRouteDistance D whs (segRev st.1 p.1 p.2), true)
        else st)
      by_cases hlt : calculateRouteDistance D whs (segRev st.1 p.1 p.2) < st.2.1
      · rw [if_pos hlt]
        exact ⟨(segRev_perm st.1 p.1 p.2 (by omega)).trans hperm,
          (segRev_head st.1 p.1 p.2 hp.1).trans hhead,
          (segRev_getLast st.1 p.1 p.2 (by omega)).trans hlast, le_refl _,
          le_trans (le_of_lt hlt) hbb⟩
      · rw [if_neg hlt]
        exact ⟨hperm, hhead, hlast, hle, hbb⟩

theorem twoOptSweep_spec (D : Point → Point → α) (whs : List Point) (full : Chrom)
    (b : α) (hb : calculateRouteDistance D whs full ≤ b) :
    SweepInv D whs full b (twoOptSweep D whs full b) := by
  have h0 : SweepInv D whs full b (full, b, false) :=
    ⟨List.Perm.refl _, rfl, rfl, hb, le_refl _⟩
  exact sweep_fold_inv D whs full b (sweepPairs full.length) (full, b, false)
    (sweepPairs_bounds full.length) h0

theorem twoOptLoop_spec (D : Point → Point → α) (whs : List Point) :
    ∀ (fuel : Nat) (full : Chrom),
      (twoOptLoop D whs fuel full).Perm full ∧
        (twoOptLoop D whs fuel full).head? = full.head? ∧
        (twoOptLoop D whs fuel full).getLast? = full.getLast? ∧
        calculateRouteDistance D whs (twoOptLoop D whs fuel full) ≤
          calculateRouteDistance D whs full := by
  intro fuel
  induction fuel with
  | zero =>
    intro full
    exact ⟨List.Perm.refl _, rfl, rfl, le_refl _⟩
  | succ n ih =>
    intro full
    have hs := twoOptSweep_spec D whs full (calculateRouteDistance D whs full) (le_refl _)
    unfold SweepInv at hs
    obtain ⟨hperm, hhead, hlast, hle, hbb⟩ := hs
    simp only [twoOptLoop]
    split
    · have hi := ih (twoOptSweep D whs full (calculateRouteDistance D whs full)).1
      exact ⟨hi.1.trans hperm, (hi.2.1).trans hhead, (hi.2.2.1).trans hlast,
        le_trans hi.2.2.2 (le_trans hle hbb)⟩
    · exact ⟨hperm, hhead, hlast, le_trans hle hbb⟩

theorem twoOptLoop_succ_true (D : Point → Point → α) (whs : List Point) (fuel : Nat)
    (full f2 : Chrom) (b2 : α)
    (h : twoOptSweep D whs full (calculateRouteDistance D whs full) = (f2, b2, true)) :
    twoOptLoop D whs (fuel + 1) full = twoOptLoop D whs fuel f2 := by
  simp only [twoOptLoop, h]
  rfl

theorem twoOptLoop_succ_false (D : Point → Point → α) (whs : List Point) (fuel : Nat)
    (full f2 : Chrom) (b2 : α)
    (h : twoOptSweep D whs full (calculateRouteDistance D whs full) = (f2, b2, false)) :
    twoOptLoop D whs (fuel + 1) full = f2 := by
  simp only [twoOptLoop, h]
  rfl

theorem optimizeRoute_eq (D : Point → Point → α) (whs : List Point)
    (r0 : Option Point) (rest : Chrom) (nw : Point)
    (hnw : minByKey (fun w => oD D r0 (some w)) whs = some nw) :
    optimizeRoute D whs (r0 :: rest) =
      (twoOptLoop D whs (Nat.factorial ((r0 :: rest) ++ [some nw]).length)
        ((r0 :: rest) ++ [some nw])).dropLast := by
  simp only [optimizeRoute, hnw]

theorem optimizeRoute_closed (D : Point → Point → α) (whs : List Point)
    (r0 : Option Point) (rest : Chrom) (nw : Point)
    (hnw : minByKey (fun w => oD D r0 (some w)) whs = some nw) :
    optimizeRoute D whs (r0 :: rest) ++ [some nw] =
      twoOptLoop D whs (Nat.factorial ((r0 :: rest) ++ [some nw]).length)
        ((r0 :: rest) ++ [some nw]) := by
  have h := twoOptLoop_spec D whs (Nat.factorial (((r0 :: rest) ++ [some nw]).length))
    ((r0 :: rest) ++ [some nw])
  have hlast : (twoOptLoop D whs (Nat.factorial (((r0 :: rest) ++ [some nw]).length))
      ((r0 :: rest) ++ [some nw])).getLast? = some (some nw) := by
    rw [h.2.2.1, List.getLast?_concat]
  rw [optimizeRoute_eq D whs r0 rest nw hnw]
  generalize hg : twoOptLoop D whs (Nat.factorial (((r0 :: rest) ++ [some nw]).length))
    ((r0 :: rest) ++ [some nw]) = L at hlast ⊢
  have hne : L ≠ [] := by
    intro he
    rw [he] at hlast
    simp at hlast
  have h2 := List.dropLast_append_getLast hne
  rw [List.getLast?_eq_getLast _ hne, Option.some_inj] at hlast
  rw [hlast] at h2
  exact h2

theorem perm_append_singleton_cancel {X : Type} (x : X) (l1 l2 : List X)
    (h : (l1 ++ [x]).Perm (l2 ++ [x])) : l1.Perm l2 := by
  have h1 : (x :: l1.reverse).Perm (x :: l2.reverse) := by
    have e1 : (l1 ++ [x]).reverse = x :: l1.reverse := by simp
    have e2 : (l2 ++ [x]).reverse = x :: l2.reverse := by simp
    rw [← e1, ← e2]
    exact ((List.reverse_perm _).trans h).trans (List.reverse_perm _).symm
  have h2 := h1.cons_inv
  exact ((List.reverse_perm l1).symm.trans h2).trans (List.reverse_perm l2)

end C10Sweep

/-- **C10.**  `optimize_route` always returns a permutation of its input
order (the virtual warehouse closing stop is stripped), and the
`calculate_route_distance` of the **closed** tour — the returned order with
the virtual closing stop `nw` re-appended — never exceeds that of the input
closed tour.  (The distance of the returned *open* order itself can
increase; see the counterexample.) -/
theorem C10_twoopt_behaviour {α : Type} [LinearOrderedField α]
    (D : Point → Point → α) (whs : List Point) (route : Chrom) :
    (optimizeRoute D whs route).Perm route ∧
      ∀ (r0 : Option Point) (rest : Chrom) (nw : Point), route = r0 :: rest →
        minByKey (fun w => oD D r0 (some w)) whs = some nw →
        calculateRouteDistance D whs (optimizeRoute D whs route ++ [some nw]) ≤
          calculateRouteDistance D whs (route ++ [some nw]) := by
  constructor
  · cases route with
    | nil => exact List.Perm.refl _
    | cons r0 rest =>
      cases hnw : minByKey (fun w => oD D r0 (some w)) whs with
      | none =>
        have he : optimizeRoute D whs (r0 :: rest) = r0 :: rest := by
          simp only [optimizeRoute, hnw]
        rw [he]
      | some nw =>
        have hc := optimizeRoute_closed D whs r0 rest nw hnw
        have hperm := (twoOptLoop_spec D whs
          (Nat.factorial (((r0 :: rest) ++ [some nw]).length)) ((r0 :: rest) ++ [some nw])).1
        rw [← hc] at hperm
        exact perm_append_singleton_cancel (some nw) _ _ hperm
  · intro r0 rest nw hroute hnw
    subst hroute
    have hc := optimizeRoute_closed D whs r0 rest nw hnw
    rw [hc]
    exact (twoOptLoop_spec D whs
      (Nat.factorial (((r0 :: rest) ++ [some nw]).length)) ((r0 :: rest) ++ [some nw])).2.2.2

/-! ### C10: counterexample fixtures (collinear points on the x-axis) -/

/-- Delivery point at `(2, 0)`. -/
def pA : Point := { pid := 30, x := 2, y := 0, demands := Goods.zero, ptype := PType.delivery }

/-- Delivery point at `(1, 0)`. -/
def pB : Point := { pid := 31, x := 1, y := 0, demands := Goods.zero, ptype := PType.delivery }

/-- Delivery point at `(10, 0)`. -/
def pC : Point := { pid := 32, x := 10, y := 0, demands := Goods.zero, ptype := PType.delivery }

theorem dWA : Point.distance_to wh00 pA = 2 := by
  rw [distance_to_x wh00 pA rfl]
  norm_num [wh00, pA]

theorem dAB : Point.distance_to pA pB = 1 := by
  rw [distance_to_x pA pB rfl]
  norm_num [pA, pB]

theorem dBC : Point.distance_to pB pC = 9 := by
  rw [distance_to_x pB pC rfl]
  norm_num [pB, pC]

theorem dCW : Point.distance_to pC wh00 = 10 := by
  rw [distance_to_x pC wh00 rfl]
  norm_num [pC, wh00]

theorem dAC : Point.distance_to pA pC = 8 := by
  rw [distance_to_x pA pC rfl]
  norm_num [pA, pC]

theorem dCB : Point.distance_to pC pB = 9 := by
  rw [distance_to_x pC pB rfl]
  norm_num [pC, pB]

theorem dBW : Point.distance_to pB wh00 = 1 := by
  rw [distance_to_x pB wh00 rfl]
  norm_num [pB, wh00]

theorem crd_open1 : calculateRouteDistance (α := ℝ) Point.distance_to [wh00]
    [some pA, some pB, some pC] = 12 := by
  simp only [calculateRouteDistance, minByKey, List.foldl, oD, dWA, dAB, dBC]
  norm_num

theorem crd_open2 : calculateRouteDistance (α := ℝ) Point.distance_to [wh00]
    [some pA, some pC, some pB] = 19 := by
  simp only [calculateRouteDistance, minByKey, List.foldl, oD, dWA, dAC, dCB]
  norm_num

theorem crd_closed1 : calculateRouteDistance (α := ℝ) Point.distance_to [wh00]
    [some pA, some pB, some pC, some wh00] = 22 := by
  simp only [calculateRouteDistance, minByKey, List.foldl, oD, dWA, dAB, dBC, dCW]
  norm_num

theorem crd_closed2 : calculateRouteDistance (α := ℝ) Point.distance_to [wh00]
    [some pA, some pC, some pB, some wh00] = 20 := by
  simp only [calculateRouteDistance, minByKey, List.foldl, oD, dWA, dAC, dCB, dBW]
  norm_num

theorem sweep_abcw : twoOptSweep (α := ℝ) Point.distance_to [wh00]
    [some pA, some pB, some pC, some wh00] 22 =
    ([some pA, some pC, some pB, some wh00], 20, true) := by
  have h4 : sweepPairs ([some pA, some pB, some pC, some wh00] : Chrom).length = [(1, 2)] := rfl
  have hseg : segRev ([some pA, some pB, some pC, some wh00] : Chrom) 1 2 =
      [some pA, some pC, some pB, some wh00] := rfl
  simp only [twoOptSweep, h4, List.foldl_cons, List.foldl_nil, hseg, crd_closed2]
  rw [if_pos (show (20 : ℝ) < 22 by norm_num)]

theorem sweep_acbw : twoOptSweep (α := ℝ) Point.distance_to [wh00]
    [some pA, some pC, some pB, some wh00] 20 =
    ([some pA, some pC, some pB, some wh00], 20, false) := by
  have h4 : sweepPairs ([some pA, some pC, some pB, some wh00] : Chrom).length = [(1, 2)] := rfl
  have hseg : segRev ([some pA, some pC, some pB, some wh00] : Chrom) 1 2 =
      [some pA, some pB, some pC, some wh00] := rfl
  simp only [twoOptSweep, h4, List.foldl_cons, List.foldl_nil, hseg, crd_closed1]
  rw [if_neg (show ¬((22 : ℝ) < 20) by norm_num)]

/-- On the order `[(2,0), (1,0), (10,0)]` with the single warehouse at the
origin, 2-opt improves the closed tour `22 → 20` and returns the order
`[(2,0), (10,0), (1,0)]`, whose own `calculate_route_distance` is `19 > 12`:
the distance of the returned order exceeds that of the input order. -/
theorem C10_twoopt_counterexample :
    calculateRouteDistance (α := ℝ) Point.distance_to [wh00]
        [some pA, some pB, some pC] <
      calculateRouteDistance (α := ℝ) Point.distance_to [wh00]
        (optimizeRoute Point.distance_to [wh00] [some pA, some pB, some pC]) := by
  have hmin : minByKey (fun w => oD (α := ℝ) Point.distance_to (some pA) (some w)) [wh00] =
      some wh00 := rfl
  have heq : optimizeRoute (α := ℝ) Point.distance_to [wh00] [some pA, some pB, some pC] =
      [some pA, some pC, some pB] := by
    rw [optimizeRoute_eq Point.distance_to [wh00] (some pA) [some pB, some pC] wh00 hmin]
    have hfull : ([some pA, some pB, some pC] : Chrom) ++ [some wh00] =
        [some pA, some pB, some pC, some wh00] := rfl
    rw [hfull]
    have hfac : Nat.factorial (([some pA, some pB, some pC, some wh00] : Chrom).length) =
        23 + 1 := rfl
    rw [hfac]
    rw [twoOptLoop_succ_true Point.distance_to [wh00] 23
      [some pA, some pB, some pC, some wh00] [some pA, some pC, some pB, some wh00] 20
      (by rw [crd_closed1]; exact sweep_abcw)]
    rw [show (23 : Nat) = 22 + 1 from rfl]
    rw [twoOptLoop_succ_false Point.distance_to [wh00] 22
      [some pA, some pC, some pB, some wh00] [some pA, some pC, some pB, some wh00] 20
      (by rw [crd_closed2]; exact sweep_acbw)]
    rfl
  rw [heq, crd_open1, crd_open2]
  norm_num

/-- Witness for C10 on the counterexample instance at the rational
collinear distance: the returned order is a permutation of the input, and
the closed-tour distance does not increase. -/
theorem C10_twoopt_witness :
    (optimizeRoute (α := ℚ) distX [wh00] [some pA, some pB, some pC]).Perm
        [some pA, some pB, some pC] ∧
      calculateRouteDistance (α := ℚ) distX [wh00]
          (optimizeRoute distX [wh00] [some pA, some pB, some pC] ++ [some wh00]) ≤
        calculateRouteDistance (α := ℚ) distX [wh00]
          ([some pA, some pB, some pC] ++ [some wh00]) :=
  ⟨(C10_twoopt_behaviour distX [wh00] [some pA, some pB, some pC]).1,
    (C10_twoopt_behaviour distX [wh00] [some pA, some pB, some pC]).2 (some pA)
      [some pB, some pC] wh00 rfl rfl⟩

/-! ### C3: conservation bookkeeping

The cumulative amounts transferred at a point are read off the recorded
stops; `pid` keys the point objects as everywhere else. -/

/-- `amounts.get(good, 0)` on an `amounts` dictionary. -/
def amGet (am : Amounts) (gd : Good) : Int :=
  ((am.filter (fun e => e.1 = gd)).map Prod.snd).sum

/-- The contribution of one stop to the cumulative delivery at `pid`. -/
def stopDel (s : Stop) (pid : Nat) (gd : Good) : Int :=
  if s.opType = OpType.delivery ∧ s.point.pid = pid then amGet s.amounts gd else 0

/-- The contribution of one stop to the cumulative pickup at `pid`. -/
def stopPick (s : Stop) (pid : Nat) (gd : Good) : Int :=
  if s.opType = OpType.pickup ∧ s.point.pid = pid then amGet s.amounts gd else 0

def stopsDelivered (r : List Stop) (pid : Nat) (gd : Good) : Int :=
  (r.map (fun s => stopDel s pid gd)).sum

def stopsPicked (r : List Stop) (pid : Nat) (gd : Good) : Int :=
  (r.map (fun s => stopPick s pid gd)).sum

/-- Cumulative amount of `gd` delivered at the point with id `pid` over the
delivery stops of a fleet. -/
def deliveredAt (vs : List Vehicle) (pid : Nat) (gd : Good) : Int :=
  (vs.map (fun v => stopsDelivered v.route pid gd)).sum

/-- Cumulative amount of `gd` picked up at the point with id `pid` over the
pickup stops of a fleet. -/
def pickedAt (vs : List Vehicle) (pid : Nat) (gd : Good) : Int :=
  (vs.map (fun v => stopsPicked v.route pid gd)).sum

/-- The conservation invariant: the remaining-demand state has the same
keys as the initial state, and each entry differs from its initial demands
by exactly the recorded delivered and picked-up amounts. -/
def ConsInv (rem0 : Rem) (vs : List Vehicle) (rem : Rem) : Prop :=
  rem.map Prod.fst = rem0.map Prod.fst ∧
  ∀ j e0 e, rem0.get? j = some e0 → rem.get? j = some e →
    ∀ gd, e.2.get gd = e0.2.get gd - deliveredAt vs e0.1 gd + pickedAt vs e0.1 gd

/-- Well-formedness of a recorded stop: delivery and pickup stops carry the
processed point (of the matching type) and non-negative amounts. -/
def StopOk (P : Point → Prop) (s : Stop) : Prop :=
  (s.opType = OpType.delivery →
    P s.point ∧ s.point.ptype = PType.delivery ∧ ∀ gd, 0 ≤ amGet s.amounts gd) ∧
  (s.opType = OpType.pickup →
    P s.point ∧ s.point.ptype = PType.pickup ∧ ∀ gd, 0 ≤ amGet s.amounts gd)

def StopsOk (P : Point → Prop) (vs : List Vehicle) : Prop :=
  ∀ v ∈ vs, ∀ s ∈ v.route, StopOk P s

theorem amGet_single (good gd : Good) (a : Int) :
    amGet [(good, a)] gd = if good = gd then a else 0 := by
  cases good <;> cases gd <;> simp [amGet]

theorem stopsDelivered_append (r : List Stop) (s : Stop) (pid : Nat) (gd : Good) :
    stopsDelivered (r ++ [s]) pid gd = stopsDelivered r pid gd + stopDel s pid gd := by
  simp [stopsDelivered]

theorem stopsPicked_append (r : List Stop) (s : Stop) (pid : Nat) (gd : Good) :
    stopsPicked (r ++ [s]) pid gd = stopsPicked r pid gd + stopPick s pid gd := by
  simp [stopsPicked]

theorem mapSum_set {X : Type} (f : X → Int) :
    ∀ (l : List X) (i : Nat) (x y : X), l.get? i = some x →
      ((l.set i y).map f).sum = (l.map f).sum - f x + f y := by
  intro l
  induction l with
  | nil =>
    intro i x y h
    simp at h
  | cons a as ih =>
    intro i x y h
    cases i with
    | zero =>
      simp only [List.get?] at h
      cases h
      simp only [List.set_cons_zero, List.map_cons, List.sum_cons]
      ring
    | succ n =>
      simp only [List.get?] at h
      simp only [List.set_cons_succ, List.map_cons, List.sum_cons, ih n x y h]
      ring

theorem deliveredAt_set (vs : List Vehicle) (i : Nat) (v w : Vehicle)
    (hget : vs.get? i = some v) (pid : Nat) (gd : Good) :
    deliveredAt (vs.set i w) pid gd =
      deliveredAt vs pid gd - stopsDelivered v.route pid gd + stopsDelivered w.route pid gd := by
  unfold deliveredAt
  exact mapSum_set (fun u => stopsDelivered u.route pid gd) vs i v w hget

theorem pickedAt_set (vs : List Vehicle) (i : Nat) (v w : Vehicle)
    (hget : vs.get? i = some v) (pid : Nat) (gd : Good) :
    pickedAt (vs.set i w) pid gd =
      pickedAt vs pid gd - stopsPicked v.route pid gd + stopsPicked w.route pid gd := by
  unfold pickedAt
  exact mapSum_set (fun u => stopsPicked u.route pid gd) vs i v w hget

theorem stopsDelivered_addStop_other (rem : Rem) (v : Vehicle) (pt : Point)
    (am : Option Amounts) (wh : Bool) (op : OpType) (h1 : op ≠ OpType.delivery)
    (pid : Nat) (gd : Good) :
    stopsDelivered (addStop rem v pt am wh op).route pid gd =
      stopsDelivered v.route pid gd := by
  rw [addStop_route_eq, stopsDelivered_append]
  have hz : stopDel
      { point := pt
        amounts := am.getD zeroAmounts
        opType := op
        loadAfter := (addStop rem v pt am wh op).loads
        remAtPoint := if wh then none else some (remGet rem pt)
        isWarehouse := wh } pid gd = 0 := by
    simp [stopDel, h1]
  rw [hz, add_zero]

theorem stopsPicked_addStop_other (rem : Rem) (v : Vehicle) (pt : Point)
    (am : Option Amounts) (wh : Bool) (op : OpType) (h1 : op ≠ OpType.pickup)
    (pid : Nat) (gd : Good) :
    stopsPicked (addStop rem v pt am wh op).route pid gd =
      stopsPicked v.route pid gd := by
  rw [addStop_route_eq, stopsPicked_append]
  have hz : stopPick
      { point := pt
        amounts := am.getD zeroAmounts
        opType := op
        loadAfter := (addStop rem v pt am wh op).loads
        remAtPoint := if wh then none else some (remGet rem pt)
        isWarehouse := wh } pid gd = 0 := by
    simp [stopPick, h1]
  rw [hz, add_zero]

theorem stopsDelivered_addStop_delivery (rem : Rem) (v : Vehicle) (pt : Point)
    (good : Good) (a : Int) (pid : Nat) (gd : Good) :
    stopsDelivered (addStop rem v pt (some [(good, a)]) false OpType.delivery).route pid gd =
      stopsDelivered v.route pid gd + (if pt.pid = pid ∧ good = gd then a else 0) := by
  rw [addStop_route_eq, stopsDelivered_append]
  congr 1
  simp only [stopDel, Option.getD_some, amGet_single]
  by_cases h1 : pt.pid = pid
  · by_cases h2 : good = gd <;> simp [h1, h2]
  · simp [h1]

theorem stopsPicked_addStop_pickup (rem : Rem) (v : Vehicle) (pt : Point)
    (good : Good) (a : Int) (pid : Nat) (gd : Good) :
    stopsPicked (addStop rem v pt (some [(good, a)]) false OpType.pickup).route pid gd =
      stopsPicked v.route pid gd + (if pt.pid = pid ∧ good = gd then a else 0) := by
  rw [addStop_route_eq, stopsPicked_append]
  congr 1
  simp only [stopPick, Option.getD_some, amGet_single]
  by_cases h1 : pt.pid = pid
  · by_cases h2 : good = gd <;> simp [h1, h2]
  · simp [h1]

theorem remKeys_any (rem : Rem) (pid : Nat) :
    rem.any (fun e => e.1 = pid) = true ↔ pid ∈ rem.map Prod.fst := by
  simp [List.any_eq_true, List.mem_map]

theorem remSet_keys (rem : Rem) (p : Point) (gs : Goods)
    (h : rem.any (fun e => e.1 = p.pid) = true) :
    (remSet rem p gs).map Prod.fst = rem.map Prod.fst := by
  simp only [remSet, h, if_true]
  rw [List.map_map]
  apply List.map_congr_left
  intro e _
  by_cases he : e.1 = p.pid <;> simp [he]

theorem remSet_get? (rem : Rem) (p : Point) (gs : Goods) (j : Nat) (e : Nat × Goods)
    (h : rem.any (fun e => e.1 = p.pid) = true) (hj : rem.get? j = some e) :
    (remSet rem p gs).get? j = some (if e.1 = p.pid then (p.pid, gs) else e) := by
  simp only [remSet, h, if_true]
  rw [List.get?_map, hj]
  rfl

theorem remSet_get?_none (rem : Rem) (p : Point) (gs : Goods) (j : Nat)
    (h : rem.any (fun e => e.1 = p.pid) = true) (hj : rem.get? j = none) :
    (remSet rem p gs).get? j = none := by
  simp only [remSet, h, if_true]
  rw [List.get?_map, hj]
  rfl

theorem remGet_of_nodup (p : Point) :
    ∀ (rem : Rem) (j : Nat) (e : Nat × Goods),
      (rem.map Prod.fst).Nodup → rem.get? j = some e → e.1 = p.pid →
      remGet rem p = e.2 := by
  intro rem
  induction rem with
  | nil =>
    intro j e _ hj _
    simp at hj
  | cons x xs ih =>
    intro j e hnd hj hk
    cases j with
    | zero =>
      simp only [List.get?] at hj
      cases hj
      unfold remGet
      rw [List.find?_cons_of_pos _ (by simpa using hk)]
    | succ n =>
      simp only [List.get?] at hj
      have hmem : e ∈ xs := List.get?_mem hj
      have hnd' : (xs.map Prod.fst).Nodup := by
        rw [List.map_cons] at hnd
        exact (List.nodup_cons.mp hnd).2
      have hx : ¬(x.1 = p.pid) := by
        intro hxk
        have h1 : e.1 ∈ xs.map Prod.fst := List.mem_map_of_mem _ hmem
        rw [List.map_cons] at hnd
        exact (List.nodup_cons.mp hnd).1 (by rw [hxk, ← hk]; exact h1)
      unfold remGet
      rw [List.find?_cons_of_neg _ (by simpa using hx)]
      exact ih n e hnd' hj hk

/-! ### C3: invariant step lemmas -/

theorem deliverAm_single_get (r : Goods) (good : Good) (a : Int) (gd : Good) :
    (deliverAm r [(good, a)]).get gd = r.get gd - (if good = gd then a else 0) := by
  simp only [deliverAm, List.foldl]
  by_cases hgd : good = gd
  · subst hgd
    rw [Goods.get_add_self, if_pos rfl]
    omega
  · rw [Goods.get_add_of_ne _ _ (fun h => hgd h.symm)]
    simp [hgd]

theorem pickupAm_single_get (r : Goods) (good : Good) (a : Int) (gd : Good) :
    (pickupAm r [(good, a)]).get gd = r.get gd + (if good = gd then a else 0) := by
  simp only [pickupAm, List.foldl]
  by_cases hgd : good = gd
  · subst hgd
    rw [Goods.get_add_self, if_pos rfl]
  · rw [Goods.get_add_of_ne _ _ (fun h => hgd h.symm)]
    simp [hgd]

theorem consInv_keys_fst (rem0 rem : Rem) (j : Nat) (e0 e : Nat × Goods)
    (hkeys : rem.map Prod.fst = rem0.map Prod.fst)
    (h0 : rem0.get? j = some e0) (h1 : rem.get? j = some e) : e.1 = e0.1 := by
  have ha : (rem.map Prod.fst).get? j = some e.1 := by rw [List.get?_map, h1]; rfl
  have hb : (rem0.map Prod.fst).get? j = some e0.1 := by rw [List.get?_map, h0]; rfl
  rw [hkeys, hb] at ha
  exact (Option.some.injEq _ _).mp ha.symm

theorem consInv_set_same (rem0 : Rem) (vehicles : List Vehicle) (rem : Rem)
    (hc : ConsInv rem0 vehicles rem) (i : Nat) (v w : Vehicle)
    (hget : vehicles.get? i = some v)
    (hwD : ∀ pid gd, stopsDelivered w.route pid gd = stopsDelivered v.route pid gd)
    (hwP : ∀ pid gd, stopsPicked w.route pid gd = stopsPicked v.route pid gd) :
    ConsInv rem0 (vehicles.set i w) rem := by
  obtain ⟨hkeys, hinv⟩ := hc
  refine ⟨hkeys, ?_⟩
  intro j e0 e h0 h1 gd
  rw [deliveredAt_set vehicles i v w hget, pickedAt_set vehicles i v w hget, hwD, hwP]
  have hold := hinv j e0 e h0 h1 gd
  omega

theorem consInv_del_step (rem0 : Rem) (vehicles : List Vehicle) (rem : Rem)
    (hnd : (rem0.map Prod.fst).Nodup) (hc : ConsInv rem0 vehicles rem)
    (i : Nat) (v w : Vehicle) (hget : vehicles.get? i = some v)
    (point : Point) (good : Good) (a : Int)
    (hwD : ∀ pid gd, stopsDelivered w.route pid gd =
      stopsDelivered v.route pid gd + (if point.pid = pid ∧ good = gd then a else 0))
    (hwP : ∀ pid gd, stopsPicked w.route pid gd = stopsPicked v.route pid gd)
    (hpid : point.pid ∈ rem.map Prod.fst) :
    ConsInv rem0 (vehicles.set i w)
      (remSet rem point (deliverAm (remGet rem point) [(good, a)])) := by
  obtain ⟨hkeys, hinv⟩ := hc
  have hany : rem.any (fun e => e.1 = point.pid) = true := (remKeys_any rem point.pid).mpr hpid
  refine ⟨by rw [remSet_keys rem point _ hany, hkeys], ?_⟩
  intro j e0 e' h0 h1 gd
  cases hje : rem.get? j with
  | none =>
    rw [remSet_get?_none rem point _ j hany hje] at h1
    cases h1
  | some e =>
    rw [remSet_get? rem point _ j e hany hje] at h1
    have he' : e' = if e.1 = point.pid then
        (point.pid, deliverAm (remGet rem point) [(good, a)]) else e :=
      ((Option.some.injEq _ _).mp h1).symm
    have hfst : e.1 = e0.1 := consInv_keys_fst rem0 rem j e0 e hkeys h0 hje
    have hold := hinv j e0 e h0 hje gd
    have hAdel := deliveredAt_set vehicles i v w hget e0.1 gd
    have hApick := pickedAt_set vehicles i v w hget e0.1 gd
    rw [hwD] at hAdel
    rw [hwP] at hApick
    by_cases hkey : e.1 = point.pid
    · rw [if_pos hkey] at he'
      have hremget : remGet rem point = e.2 :=
        remGet_of_nodup point rem j e (hkeys ▸ hnd) hje hkey
      have hcond : point.pid = e0.1 := by rw [← hfst, hkey]
      have hL : e'.2.get gd = e.2.get gd - (if good = gd then a else 0) := by
        rw [he']
        show (deliverAm (remGet rem point) [(good, a)]).get gd = _
        rw [deliverAm_single_get, hremget]
      have hifs : (if point.pid = e0.1 ∧ good = gd then a else 0) =
          (if good = gd then a else 0) := by
        by_cases hg : good = gd
        · rw [if_pos ⟨hcond, hg⟩, if_pos hg]
        · rw [if_neg (fun hcc => hg hcc.2), if_neg hg]
      rw [hifs] at hAdel
      rw [hL, hAdel, hApick]
      by_cases hg : good = gd
      · rw [if_pos hg] at *
        omega
      · rw [if_neg hg] at *
        omega
    · rw [if_neg hkey] at he'
      subst he'
      have hcond : ¬(point.pid = e0.1 ∧ good = gd) := by
        intro hcc
        exact hkey (by rw [← hfst] at hcc; exact hcc.1.symm)
      rw [if_neg hcond] at hAdel
      rw [hAdel, hApick]
      omega

theorem consInv_pick_step (rem0 : Rem) (vehicles : List Vehicle) (rem : Rem)
    (hnd : (rem0.map Prod.fst).Nodup) (hc : ConsInv rem0 vehicles rem)
    (i : Nat) (v w : Vehicle) (hget : vehicles.get? i = some v)
    (point : Point) (good : Good) (a : Int)
    (hwP : ∀ pid gd, stopsPicked w.route pid gd =
      stopsPicked v.route pid gd + (if point.pid = pid ∧ good = gd then a else 0))
    (hwD : ∀ pid gd, stopsDelivered w.route pid gd = stopsDelivered v.route pid gd)
    (hpid : point.pid ∈ rem.map Prod.fst) :
    ConsInv rem0 (vehicles.set i w)
      (remSet rem point (pickupAm (remGet rem point) [(good, a)])) := by
  obtain ⟨hkeys, hinv⟩ := hc
  have hany : rem.any (fun e => e.1 = point.pid) = true := (remKeys_any rem point.pid).mpr hpid
  refine ⟨by rw [remSet_keys rem point _ hany, hkeys], ?_⟩
  intro j e0 e' h0 h1 gd
  cases hje : rem.get? j with
  | none =>
    rw [remSet_get?_none rem point _ j hany hje] at h1
    cases h1
  | some e =>
    rw [remSet_get? rem point _ j e hany hje] at h1
    have he' : e' = if e.1 = point.pid then
        (point.pid, pickupAm (remGet rem point) [(good, a)]) else e :=
      ((Option.some.injEq _ _).mp h1).symm
    have hfst : e.1 = e0.1 := consInv_keys_fst rem0 rem j e0 e hkeys h0 hje
    have hold := hinv j e0 e h0 hje gd
    have hAdel := deliveredAt_set vehicles i v w hget e0.1 gd
    have hApick := pickedAt_set vehicles i v w hget e0.1 gd
    rw [hwD] at hAdel
    rw [hwP] at hApick
    by_cases hkey : e.1 = point.pid
    · rw [if_pos hkey] at he'
      have hremget : remGet rem point = e.2 :=
        remGet_of_nodup point rem j e (hkeys ▸ hnd) hje hkey
      have hcond : point.pid = e0.1 := by rw [← hfst, hkey]
      have hL : e'.2.get gd = e.2.get gd + (if good = gd then a else 0) := by
        rw [he']
        show (pickupAm (remGet rem point) [(good, a)]).get gd = _
        rw [pickupAm_single_get, hremget]
      have hifs : (if point.pid = e0.1 ∧ good = gd then a else 0) =
          (if good = gd then a else 0) := by
        by_cases hg : good = gd
        · rw [if_pos ⟨hcond, hg⟩, if_pos hg]
        · rw [if_neg (fun hcc => hg hcc.2), if_neg hg]
      rw [hifs] at hApick
      rw [hL, hAdel, hApick]
      by_cases hg : good = gd
      · rw [if_pos hg] at *
        omega
      · rw [if_neg hg] at *
        omega
    · rw [if_neg hkey] at he'
      subst he'
      have hcond : ¬(point.pid = e0.1 ∧ good = gd) := by
        intro hcc
        exact hkey (by rw [← hfst] at hcc; exact hcc.1.symm)
      rw [if_neg hcond] at hApick
      rw [hAdel, hApick]
      omega

/-! ### C3: stop well-formedness lemmas -/

theorem stopsOk_set (P : Point → Prop) (vs : List Vehicle) (i : Nat) (w : Vehicle)
    (h : StopsOk P vs) (hw : ∀ s ∈ w.route, StopOk P s) : StopsOk P (vs.set i w) := by
  intro u hu
  rcases List.mem_or_eq_of_mem_set hu with h1 | h1
  · exact h u h1
  · subst h1
    exact hw

theorem stopOk_addStop_other (P : Point → Prop) (rem : Rem) (v : Vehicle) (pt : Point)
    (am : Option Amounts) (wh : Bool) (op : OpType)
    (hv : ∀ s ∈ v.route, StopOk P s)
    (h1 : op ≠ OpType.delivery) (h2 : op ≠ OpType.pickup) :
    ∀ s ∈ (addStop rem v pt am wh op).route, StopOk P s := by
  intro s hs
  rw [addStop_route_eq] at hs
  rcases List.mem_append.mp hs with h | h
  · exact hv s h
  · have hss := List.mem_singleton.mp h
    subst hss
    exact ⟨fun hd => absurd hd h1, fun hp => absurd hp h2⟩

theorem stopOk_addStop_delivery (P : Point → Prop) (rem : Rem) (v : Vehicle) (pt : Point)
    (good : Good) (a : Int) (hv : ∀ s ∈ v.route, StopOk P s)
    (hP : P pt) (hty : pt.ptype = PType.delivery) (ha : 0 ≤ a) :
    ∀ s ∈ (addStop rem v pt (some [(good, a)]) false OpType.delivery).route, StopOk P s := by
  intro s hs
  rw [addStop_route_eq] at hs
  rcases List.mem_append.mp hs with h | h
  · exact hv s h
  · have hss := List.mem_singleton.mp h
    subst hss
    constructor
    · intro _
      refine ⟨hP, hty, ?_⟩
      intro gd
      show 0 ≤ amGet ((some [(good, a)]).getD zeroAmounts) gd
      rw [Option.getD_some, amGet_single]
      split
      · exact ha
      · exact le_refl 0
    · intro hp
      exact absurd hp (by simp)

theorem stopOk_addStop_pickup (P : Point → Prop) (rem : Rem) (v : Vehicle) (pt : Point)
    (good : Good) (a : Int) (hv : ∀ s ∈ v.route, StopOk P s)
    (hP : P pt) (hty : pt.ptype = PType.pickup) (ha : 0 ≤ a) :
    ∀ s ∈ (addStop rem v pt (some [(good, a)]) false OpType.pickup).route, StopOk P s := by
  intro s hs
  rw [addStop_route_eq] at hs
  rcases List.mem_append.mp hs with h | h
  · exact hv s h
  · have hss := List.mem_singleton.mp h
    subst hss
    constructor
    · intro hd
      exact absurd hd (by simp)
    · intro _
      refine ⟨hP, hty, ?_⟩
      intro gd
      show 0 ≤ amGet ((some [(good, a)]).getD zeroAmounts) gd
      rw [Option.getD_some, amGet_single]
      split
      · exact ha
      · exact le_refl 0

theorem stopsDelivered_of_no_delivery (r : List Stop) (pid : Nat) (gd : Good)
    (h : ∀ s ∈ r, ¬(s.opType = OpType.delivery ∧ s.point.pid = pid)) :
    stopsDelivered r pid gd = 0 := by
  unfold stopsDelivered
  apply List.sum_eq_zero
  intro x hx
  obtain ⟨s, hs, rfl⟩ := List.mem_map.mp hx
  simp only [stopDel]
  rw [if_neg (h s hs)]

theorem stopsPicked_of_no_pickup (r : List Stop) (pid : Nat) (gd : Good)
    (h : ∀ s ∈ r, ¬(s.opType = OpType.pickup ∧ s.point.pid = pid)) :
    stopsPicked r pid gd = 0 := by
  unfold stopsPicked
  apply List.sum_eq_zero
  intro x hx
  obtain ⟨s, hs, rfl⟩ := List.mem_map.mp hx
  simp only [stopPick]
  rw [if_neg (h s hs)]

theorem pickedAt_nonneg (P : Point → Prop) (vs : List Vehicle) (h : StopsOk P vs)
    (pid : Nat) (gd : Good) : 0 ≤ pickedAt vs pid gd := by
  unfold pickedAt
  apply List.sum_nonneg
  intro x hx
  obtain ⟨v, hv, rfl⟩ := List.mem_map.mp hx
  unfold stopsPicked
  apply List.sum_nonneg
  intro y hy
  obtain ⟨s, hs, rfl⟩ := List.mem_map.mp hy
  unfold stopPick
  split
  · rename_i hcond
    exact ((h v hv s hs).2 hcond.1).2.2 gd
  · exact le_refl 0

theorem pickedAt_zero_of_type (P : Point → Prop) (vs : List Vehicle) (h : StopsOk P vs)
    (pid : Nat) (gd : Good)
    (hno : ∀ q : Point, P q → q.ptype = PType.pickup → q.pid ≠ pid) :
    pickedAt vs pid gd = 0 := by
  unfold pickedAt
  apply List.sum_eq_zero
  intro x hx
  obtain ⟨v, hv, rfl⟩ := List.mem_map.mp hx
  apply stopsPicked_of_no_pickup
  intro s hs hcond
  have hq := (h v hv s hs).2 hcond.1
  exact hno s.point hq.1 hq.2.1 hcond.2

theorem deliveredAt_zero_of_type (P : Point → Prop) (vs : List Vehicle) (h : StopsOk P vs)
    (pid : Nat) (gd : Good)
    (hno : ∀ q : Point, P q → q.ptype = PType.delivery → q.pid ≠ pid) :
    deliveredAt vs pid gd = 0 := by
  unfold deliveredAt
  apply List.sum_eq_zero
  intro x hx
  obtain ⟨v, hv, rfl⟩ := List.mem_map.mp hx
  apply stopsDelivered_of_no_delivery
  intro s hs hcond
  have hq := (h v hv s hs).1 hcond.1
  exact hno s.point hq.1 hq.2.1 hcond.2

/-! ### C3: the initial fleet has no delivery or pickup stops -/

theorem initVehicle_ops (rem : Rem) (v : Vehicle) :
    ∀ s ∈ (initVehicle rem v).route, s.opType = OpType.initial_load := by
  intro s hs
  unfold initVehicle at hs
  rw [addStop_route_eq, (partLoad_route_cap _ _).1] at hs
  simp only [List.nil_append, List.mem_singleton] at hs
  rw [hs]

theorem consInv_initial (rem0 : Rem) (vs : List Vehicle)
    (hops : ∀ v ∈ vs, ∀ s ∈ v.route, s.opType = OpType.initial_load) :
    ConsInv rem0 vs rem0 := by
  refine ⟨rfl, ?_⟩
  intro j e0 e h0 h1 gd
  rw [h0] at h1
  have he := (Option.some.injEq _ _).mp h1
  subst he
  have hD : deliveredAt vs e0.1 gd = 0 := by
    unfold deliveredAt
    apply List.sum_eq_zero
    intro x hx
    obtain ⟨v, hv, rfl⟩ := List.mem_map.mp hx
    apply stopsDelivered_of_no_delivery
    intro s hs hcond
    rw [hops v hv s hs] at hcond
    exact absurd hcond.1 (by simp)
  have hP : pickedAt vs e0.1 gd = 0 := by
    unfold pickedAt
    apply List.sum_eq_zero
    intro x hx
    obtain ⟨v, hv, rfl⟩ := List.mem_map.mp hx
    apply stopsPicked_of_no_pickup
    intro s hs hcond
    rw [hops v hv s hs] at hcond
    exact absurd hcond.1 (by simp)
  rw [hD, hP]
  omega

theorem stopsOk_initial (P : Point → Prop) (vs : List Vehicle)
    (hops : ∀ v ∈ vs, ∀ s ∈ v.route, s.opType = OpType.initial_load) : StopsOk P vs := by
  intro v hv s hs
  constructor
  · intro hd
    rw [hops v hv s hs] at hd
    exact absurd hd (by simp)
  · intro hp
    rw [hops v hv s hs] at hp
    exact absurd hp (by simp)

theorem initRem_keys (ga : GA) :
    (initRem ga).map Prod.fst = ga.servicePoints.map Point.pid := by
  unfold initRem
  rw [List.map_map]
  rfl

section C3Loops

variable {α : Type} [LinearOrderedField α] (D : Point → Point → α)

/-- The delivery loop preserves conservation and stop well-formedness. -/
theorem deliverLoop_cons (whs : List Point) (P : Point → Prop) (rem0 : Rem)
    (hnd : (rem0.map Prod.fst).Nodup) (point : Point) (good : Good)
    (hP : P point) (hty : point.ptype = PType.delivery)
    (hpid : point.pid ∈ rem0.map Prod.fst) :
    ∀ (fuel : Nat) (nd : Int) (vs : List Vehicle) (rem : Rem)
      (out : List Vehicle × Rem),
      ConsInv rem0 vs rem → StopsOk P vs →
      deliverLoop D whs point good fuel nd vs rem = Except.ok out →
      ConsInv rem0 out.1 out.2 ∧ StopsOk P out.1 := by
  intro fuel
  induction fuel with
  | zero =>
    intro nd vs rem out hc hso hok
    simp only [deliverLoop] at hok
    cases hok
    exact ⟨hc, hso⟩
  | succ f ih =>
    intro nd vs rem out hc hso hok
    obtain ⟨hkeys, hinv⟩ := hc
    have hpidr : point.pid ∈ rem.map Prod.fst := by rw [hkeys]; exact hpid
    simp only [deliverLoop] at hok
    split at hok
    · cases hok; exact ⟨⟨hkeys, hinv⟩, hso⟩
    · split at hok
      · cases hok; exact ⟨⟨hkeys, hinv⟩, hso⟩
      · rename_i i hsel
        split at hok
        · cases hok
        · rename_i v hget
          have hvOk : ∀ s ∈ v.route, StopOk P s := hso v (List.get?_mem hget)
          have hre : ∀ v3 : Vehicle,
              (if v.loads.get good = 0 then
                match findNearestWarehouse D whs v with
                | none => Except.error SimErr.attrErr
                | some nw =>
                  match v.route.getLast? with
                  | none => Except.error SimErr.indexErr
                  | some lastStop =>
                    let v1 :=
                      if lastStop.point ≠ nw then
                        addStop rem v nw none true OpType.travel_to_reload
                      else v
                    let amt := min nd (v1.capacity - v1.totalLoad + v1.loads.get good)
                    let v2 := reloadGoods v1 [(good, amt)]
                    Except.ok (addStop rem v2 nw (some [(good, amt)]) true
                      OpType.reload_specific_good)
                else Except.ok v) = Except.ok v3 →
              (∀ pid gd, stopsDelivered v3.route pid gd = stopsDelivered v.route pid gd) ∧
                (∀ pid gd, stopsPicked v3.route pid gd = stopsPicked v.route pid gd) ∧
                (∀ s ∈ v3.route, StopOk P s) := by
            intro v3 h3
            split at h3
            · split at h3
              · cases h3
              · rename_i nw hnw
                split at h3
                · cases h3
                · rename_i lastStop hlast
                  simp only at h3
                  cases h3
                  set v1 := if lastStop.point ≠ nw then
                      addStop rem v nw none true OpType.travel_to_reload
                    else v with hv1
                  set amt := min nd (v1.capacity - v1.totalLoad + v1.loads.get good) with hamt
                  have h1D : ∀ pid gd, stopsDelivered v1.route pid gd =
                      stopsDelivered v.route pid gd := by
                    intro pid gd
                    rw [hv1]
                    split
                    · exact stopsDelivered_addStop_other rem v nw none true
                        OpType.travel_to_reload (by simp) pid gd
                    · rfl
                  have h1P : ∀ pid gd, stopsPicked v1.route pid gd =
                      stopsPicked v.route pid gd := by
                    intro pid gd
                    rw [hv1]
                    split
                    · exact stopsPicked_addStop_other rem v nw none true
                        OpType.travel_to_reload (by simp) pid gd
                    · rfl
                  have h1Ok : ∀ s ∈ v1.route, StopOk P s := by
                    rw [hv1]
                    split
                    · exact stopOk_addStop_other P rem v nw none true
                        OpType.travel_to_reload hvOk (by simp) (by simp)
                    · exact hvOk
                  refine ⟨?_, ?_, ?_⟩
                  · intro pid gd
                    rw [stopsDelivered_addStop_other rem (reloadGoods v1 [(good, amt)]) nw
                      (some [(good, amt)]) true OpType.reload_specific_good (by simp) pid gd,
                      reloadGoods_route]
                    exact h1D pid gd
                  · intro pid gd
                    rw [stopsPicked_addStop_other rem (reloadGoods v1 [(good, amt)]) nw
                      (some [(good, amt)]) true OpType.reload_specific_good (by simp) pid gd,
                      reloadGoods_route]
                    exact h1P pid gd
                  · refine stopOk_addStop_other P rem (reloadGoods v1 [(good, amt)]) nw
                      (some [(good, amt)]) true OpType.reload_specific_good ?_ (by simp) (by simp)
                    intro s hs
                    rw [reloadGoods_route] at hs
                    exact h1Ok s hs
            · cases h3
              exact ⟨fun _ _ => rfl, fun _ _ => rfl, hvOk⟩
          split at hok
          · cases hok
          · rename_i v3 h3
            obtain ⟨h3D, h3P, h3Ok⟩ := hre v3 h3
            split at hok
            · rename_i hcan
              refine ih _ _ _ _ ?_ ?_ hok
              · refine consInv_del_step rem0 vs rem hnd ⟨hkeys, hinv⟩ i v _ hget point good
                  (min (v3.loads.get good) nd) ?_ ?_ hpidr
                · intro pid gd
                  rw [stopsDelivered_addStop_delivery, h3D]
                · intro pid gd
                  rw [stopsPicked_addStop_other rem v3 point
                    (some [(good, min (v3.loads.get good) nd)]) false OpType.delivery
                    (by simp) pid gd]
                  exact h3P pid gd
              · refine stopsOk_set P vs i _ hso ?_
                exact stopOk_addStop_delivery P rem v3 point good
                  (min (v3.loads.get good) nd) h3Ok hP hty (le_of_lt hcan)
            · cases hok
              refine ⟨consInv_set_same rem0 vs rem ⟨hkeys, hinv⟩ i v v3 hget h3D h3P, ?_⟩
              exact stopsOk_set P vs i v3 hso h3Ok

end C3Loops

section C3Loops2

variable {α : Type} [LinearOrderedField α] (D : Point → Point → α)

/-- The pickup loop preserves conservation and stop well-formedness. -/
theorem pickupLoop_cons (whs : List Point) (P : Point → Prop) (rem0 : Rem)
    (hnd : (rem0.map Prod.fst).Nodup) (point : Point) (good : Good)
    (hP : P point) (hty : point.ptype = PType.pickup)
    (hpid : point.pid ∈ rem0.map Prod.fst) :
    ∀ (fuel : Nat) (nd : Int) (vs : List Vehicle) (rem : Rem)
      (out : List Vehicle × Rem),
      ConsInv rem0 vs rem → StopsOk P vs →
      pickupLoop D whs point good fuel nd vs rem = Except.ok out →
      ConsInv rem0 out.1 out.2 ∧ StopsOk P out.1 := by
  intro fuel
  induction fuel with
  | zero =>
    intro nd vs rem out hc hso hok
    simp only [pickupLoop] at hok
    cases hok
    exact ⟨hc, hso⟩
  | succ f ih =>
    intro nd vs rem out hc hso hok
    obtain ⟨hkeys, hinv⟩ := hc
    have hpidr : point.pid ∈ rem.map Prod.fst := by rw [hkeys]; exact hpid
    simp only [pickupLoop] at hok
    split at hok
    · cases hok; exact ⟨⟨hkeys, hinv⟩, hso⟩
    · split at hok
      · cases hok; exact ⟨⟨hkeys, hinv⟩, hso⟩
      · rename_i i hsel
        split at hok
        · cases hok
        · rename_i v hget
          have hvOk : ∀ s ∈ v.route, StopOk P s := hso v (List.get?_mem hget)
          split at hok
          · rename_i hcan
            have hun : ∀ v3 : Vehicle,
                (if 4 * (addStop rem v point
                      (some [(good, min (v.capacity - v.totalLoad) nd)]) false
                      OpType.pickup).capacity ≤
                    5 * (addStop rem v point
                      (some [(good, min (v.capacity - v.totalLoad) nd)]) false
                      OpType.pickup).totalLoad then
                  match findNearestWarehouse D whs (addStop rem v point
                      (some [(good, min (v.capacity - v.totalLoad) nd)]) false
                      OpType.pickup) with
                  | none => Except.error SimErr.attrErr
                  | some nw =>
                    Except.ok { addStop (remSet rem point (pickupAm (remGet rem point)
                        [(good, min (v.capacity - v.totalLoad) nd)]))
                        (addStop rem v point
                          (some [(good, min (v.capacity - v.totalLoad) nd)]) false
                          OpType.pickup) nw none true OpType.unload_if_full with
                        loads := Goods.zero }
                  else Except.ok (addStop rem v point
                    (some [(good, min (v.capacity - v.totalLoad) nd)]) false
                    OpType.pickup)) = Except.ok v3 →
                (∀ pid gd, stopsDelivered v3.route pid gd = stopsDelivered v.route pid gd) ∧
                  (∀ pid gd, stopsPicked v3.route pid gd = stopsPicked v.route pid gd +
                    (if point.pid = pid ∧ good = gd then min (v.capacity - v.totalLoad) nd
                      else 0)) ∧
                  (∀ s ∈ v3.route, StopOk P s) := by
              intro v3 h3
              set vp := addStop rem v point
                (some [(good, min (v.capacity - v.totalLoad) nd)]) false OpType.pickup with hvp
              set rem1 := remSet rem point (pickupAm (remGet rem point)
                [(good, min (v.capacity - v.totalLoad) nd)]) with hrem1
              have hvpD : ∀ pid gd, stopsDelivered vp.route pid gd =
                  stopsDelivered v.route pid gd := by
                intro pid gd
                rw [hvp]
                exact stopsDelivered_addStop_other rem v point
                  (some [(good, min (v.capacity - v.totalLoad) nd)]) false OpType.pickup
                  (by simp) pid gd
              have hvpP : ∀ pid gd, stopsPicked vp.route pid gd =
                  stopsPicked v.route pid gd +
                    (if point.pid = pid ∧ good = gd then min (v.capacity - v.totalLoad) nd
                      else 0) := by
                intro pid gd
                rw [hvp]
                exact stopsPicked_addStop_pickup rem v point good
                  (min (v.capacity - v.totalLoad) nd) pid gd
              have hvpOk : ∀ s ∈ vp.route, StopOk P s := by
                rw [hvp]
                exact stopOk_addStop_pickup P rem v point good
                  (min (v.capacity - v.totalLoad) nd) hvOk hP hty (le_of_lt hcan)
              split at h3
              · split at h3
                · cases h3
                · rename_i nw hnw
                  cases h3
                  have hroute : ({ addStop rem1 vp nw none true OpType.unload_if_full with
                      loads := Goods.zero } : Vehicle).route =
                      (addStop rem1 vp nw none true OpType.unload_if_full).route := rfl
                  refine ⟨?_, ?_, ?_⟩
                  · intro pid gd
                    rw [hroute, stopsDelivered_addStop_other rem1 vp nw none true
                      OpType.unload_if_full (by simp) pid gd]
                    exact hvpD pid gd
                  · intro pid gd
                    rw [hroute, stopsPicked_addStop_other rem1 vp nw none true
                      OpType.unload_if_full (by simp) pid gd]
                    exact hvpP pid gd
                  · intro s hs
                    rw [hroute] at hs
                    exact stopOk_addStop_other P rem1 vp nw none true
                      OpType.unload_if_full hvpOk (by simp) (by simp) s hs
              · have h3e : vp = v3 := (Except.ok.injEq _ _).mp h3
                subst h3e
                exact ⟨hvpD, hvpP, hvpOk⟩
            split at hok
            · cases hok
            · rename_i v3 h3
              obtain ⟨h3D, h3P, h3Ok⟩ := hun v3 h3
              refine ih _ _ _ _ ?_ ?_ hok
              · exact consInv_pick_step rem0 vs rem hnd ⟨hkeys, hinv⟩ i v v3 hget point good
                  (min (v.capacity - v.totalLoad) nd) h3P h3D hpidr
              · exact stopsOk_set P vs i v3 hso h3Ok
          · cases hok
            exact ⟨⟨hkeys, hinv⟩, hso⟩

end C3Loops2

section C3Handlers

variable {α : Type} [LinearOrderedField α] (D : Point → Point → α)

/-- `_handle_delivery` preserves conservation and stop well-formedness. -/
theorem handleDelivery_cons (whs : List Point) (P : Point → Prop) (rem0 : Rem)
    (hnd : (rem0.map Prod.fst).Nodup) (point : Point)
    (hP : P point) (hty : point.ptype = PType.delivery)
    (hpid : point.pid ∈ rem0.map Prod.fst) :
    ∀ (gs : List Good) (vs : List Vehicle) (rem : Rem) (out : List Vehicle × Rem),
      ConsInv rem0 vs rem → StopsOk P vs →
      handleDelivery D whs point gs vs rem = Except.ok out →
      ConsInv rem0 out.1 out.2 ∧ StopsOk P out.1 := by
  intro gs
  induction gs with
  | nil =>
    intro vs rem out hc hso hok
    simp only [handleDelivery] at hok
    cases hok
    exact ⟨hc, hso⟩
  | cons good rest ih =>
    intro vs rem out hc hso hok
    simp only [handleDelivery] at hok
    split at hok
    · exact ih vs rem out hc hso hok
    · split at hok
      · cases hok
      · rename_i vs1 rem1 hloop
        have hl := deliverLoop_cons D whs P rem0 hnd point good hP hty hpid _ _ vs rem
          (vs1, rem1) hc hso hloop
        exact ih vs1 rem1 out hl.1 hl.2 hok

/-- `_handle_pickup` preserves conservation and stop well-formedness. -/
theorem handlePickup_cons (whs : List Point) (P : Point → Prop) (rem0 : Rem)
    (hnd : (rem0.map Prod.fst).Nodup) (point : Point)
    (hP : P point) (hty : point.ptype = PType.pickup)
    (hpid : point.pid ∈ rem0.map Prod.fst) :
    ∀ (gs : List Good) (vs : List Vehicle) (rem : Rem) (out : List Vehicle × Rem),
      ConsInv rem0 vs rem → StopsOk P vs →
      handlePickup D whs point gs vs rem = Except.ok out →
      ConsInv rem0 out.1 out.2 ∧ StopsOk P out.1 := by
  intro gs
  induction gs with
  | nil =>
    intro vs rem out hc hso hok
    simp only [handlePickup] at hok
    cases hok
    exact ⟨hc, hso⟩
  | cons good rest ih =>
    intro vs rem out hc hso hok
    simp only [handlePickup] at hok
    split at hok
    · exact ih vs rem out hc hso hok
    · split at hok
      · cases hok
      · rename_i vs1 rem1 hloop
        have hl := pickupLoop_cons D whs P rem0 hnd point good hP hty hpid _ _ vs rem
          (vs1, rem1) hc hso hloop
        exact ih vs1 rem1 out hl.1 hl.2 hok

/-- The chromosome loop preserves conservation and stop well-formedness. -/
theorem processInd_cons (whs : List Point) (P : Point → Prop) (rem0 : Rem)
    (hnd : (rem0.map Prod.fst).Nodup) :
    ∀ (l : List (Option Point)) (vs : List Vehicle) (rem : Rem) (out : List Vehicle × Rem),
      (∀ p : Point, some p ∈ l → P p ∧ p.pid ∈ rem0.map Prod.fst) →
      ConsInv rem0 vs rem → StopsOk P vs →
      processInd D whs l vs rem = Except.ok out →
      ConsInv rem0 out.1 out.2 ∧ StopsOk P out.1 := by
  intro l
  induction l with
  | nil =>
    intro vs rem out _ hc hso hok
    simp only [processInd] at hok
    cases hok
    exact ⟨hc, hso⟩
  | cons o rest ih =>
    intro vs rem out hplist hc hso hok
    match o with
    | none => simp [processInd] at hok
    | some p =>
      simp only [processInd] at hok
      have hp := hplist p (by simp)
      have hplist' : ∀ q : Point, some q ∈ rest → P q ∧ q.pid ∈ rem0.map Prod.fst :=
        fun q hq => hplist q (List.mem_cons_of_mem _ hq)
      split at hok
      · cases hok
      · rename_i vs1 rem1 hstep
        have hpr : ConsInv rem0 vs1 rem1 ∧ StopsOk P vs1 := by
          split at hstep
          · exact handleDelivery_cons D whs P rem0 hnd p hp.1 (by assumption) hp.2
              goodList vs rem (vs1, rem1) hc hso hstep
          · split at hstep
            · exact handlePickup_cons D whs P rem0 hnd p hp.1 (by assumption) hp.2
                goodList vs rem (vs1, rem1) hc hso hstep
            · cases hstep; exact ⟨hc, hso⟩
        exact ih vs1 rem1 out hplist' hpr.1 hpr.2 hok

end C3Handlers

/-- **C3.**  Conservation at the end of `calculate_service_plan`: under the
object-identity conventions (service points with distinct `pid`s, and a
chromosome holding service-point objects), every fully-serviced point's
cumulative transfers match its original demands — a fully-serviced
delivery point received exactly its demand of every good over its recorded
delivery stops, and a fully-serviced pickup point gave up exactly the
absolute value of its (negative) demand over its recorded pickup stops. -/
theorem C3_conservation {α : Type} [LinearOrderedField α] (D : Point → Point → α)
    (g : Nat → Nat) (ga : GA) (ind : Chrom) (k : Nat) (vs : List Vehicle) (rem : Rem)
    (hok : (calculateServicePlan D g ga ind k).1 = Except.ok (vs, rem))
    (hnd : ((initRem ga).map Prod.fst).Nodup)
    (hsub : ∀ p : Point, some p ∈ ind → p ∈ ga.servicePoints) :
    ∀ p ∈ ga.servicePoints, ∀ d : Goods, (p.pid, d) ∈ rem → (∀ gd, d.get gd = 0) →
      (p.ptype = PType.delivery → ∀ gd, deliveredAt vs p.pid gd = p.demands.get gd) ∧
      (p.ptype = PType.pickup → ∀ gd, pickedAt vs p.pid gd = |p.demands.get gd|) := by
  have hmain : ConsInv (initRem ga) vs rem ∧ StopsOk (fun q => some q ∈ ind) vs := by
    unfold calculateServicePlan at hok
    split at hok
    · simp at hok
    · rename_i vs0 k1 hcreate
      split at hok
      · simp at hok
      · rename_i vsx remx hproc
        simp only at hok
        have hvr : vsx = vs ∧ remx = rem := by
          have h1 := (Except.ok.injEq _ _).mp hok
          exact ⟨congrArg Prod.fst h1, congrArg Prod.snd h1⟩
        obtain ⟨h1, h2⟩ := hvr
        subst h1
        subst h2
        have hops : ∀ v ∈ vs0.map (initVehicle (initRem ga)),
            ∀ s ∈ v.route, s.opType = OpType.initial_load := by
          intro v hv
          obtain ⟨u, _, rfl⟩ := List.mem_map.mp hv
          exact initVehicle_ops _ u
        refine processInd_cons D ga.warehouses (fun q => some q ∈ ind) (initRem ga) hnd
          ind _ _ _ ?_ ?_ ?_ hproc
        · intro p hp
          refine ⟨hp, ?_⟩
          rw [initRem_keys]
          exact List.mem_map_of_mem Point.pid (hsub p hp)
        · exact consInv_initial _ _ hops
        · exact stopsOk_initial _ _ hops
  obtain ⟨⟨hkeys, hinv⟩, hstops⟩ := hmain
  have hndp : (ga.servicePoints.map Point.pid).Nodup := by
    rw [← initRem_keys]
    exact hnd
  intro p hp d hd hzero
  obtain ⟨j, hj⟩ := List.get?_of_mem hp
  have h0 : (initRem ga).get? j = some (p.pid, p.demands) := by
    unfold initRem
    rw [List.get?_map, hj]
    rfl
  cases hje : rem.get? j with
  | none =>
    exfalso
    have hlen : rem.length = (initRem ga).length := by
      have := congrArg List.length hkeys
      simpa using this
    have hlt : j < (initRem ga).length := by
      by_contra hge
      rw [List.get?_eq_none.mpr (by omega)] at h0
      cases h0
    have hge2 := List.get?_eq_none.mp hje
    omega
  | some e =>
    have hfst : e.1 = p.pid := consInv_keys_fst (initRem ga) rem j (p.pid, p.demands) e
      hkeys h0 hje
    have hrge : remGet rem p = e.2 :=
      remGet_of_nodup p rem j e (hkeys ▸ hnd) hje hfst
    obtain ⟨j2, hj2⟩ := List.get?_of_mem hd
    have hrgd : remGet rem p = d :=
      remGet_of_nodup p rem j2 (p.pid, d) (hkeys ▸ hnd) hj2 rfl
    have hed : e.2 = d := by rw [← hrge, hrgd]
    have hinvj : ∀ gd, e.2.get gd =
        p.demands.get gd - deliveredAt vs p.pid gd + pickedAt vs p.pid gd :=
      hinv j (p.pid, p.demands) e h0 hje
    have hqinj : ∀ q : Point, some q ∈ ind → q.pid = p.pid → q = p := by
      intro q hq hqp
      exact List.inj_on_of_nodup_map hndp (hsub q hq) hp hqp
    constructor
    · intro htyD gd
      have hpick0 : pickedAt vs p.pid gd = 0 := by
        refine pickedAt_zero_of_type _ vs hstops p.pid gd ?_
        intro q hq htyq
        intro hqeq
        have hqp := hqinj q hq hqeq
        rw [hqp, htyD] at htyq
        cases htyq
      have hzgd := hzero gd
      have hgd := hinvj gd
      rw [hed, hzgd] at hgd
      omega
    · intro htyP gd
      have hdel0 : deliveredAt vs p.pid gd = 0 := by
        refine deliveredAt_zero_of_type _ vs hstops p.pid gd ?_
        intro q hq htyq
        intro hqeq
        have hqp := hqinj q hq hqeq
        rw [hqp, htyP] at htyq
        cases htyq
      have hnn : 0 ≤ pickedAt vs p.pid gd := pickedAt_nonneg _ vs hstops p.pid gd
      have hzgd := hzero gd
      have hgd := hinvj gd
      rw [hed, hzgd] at hgd
      have hx : p.demands.get gd ≤ 0 := by omega
      rw [abs_of_nonpos hx]
      omega

/-- Witness for C3 on the capacity-50 pickup scenario: the point demanding
`uranium: -80` is fully serviced at the end of the plan, and the recorded
pickup stops sum to exactly `80 = |-80|` units of uranium. -/
theorem C3_conservation_witness :
    pickedAt (planVehicles (α := ℚ) distX streamZero gaPick50 [some pickP80] 0)
      pickP80.pid Good.uranium = |pickP80.demands.get Good.uranium| :=
  ((C3_conservation distX streamZero gaPick50 [some pickP80] 0
      (planVehicles distX streamZero gaPick50 [some pickP80] 0)
      (planRem distX streamZero gaPick50 [some pickP80] 0)
      rfl (by decide)
      (fun p hp => by
        have hpp : p = pickP80 := (Option.some.injEq _ _).mp (List.mem_singleton.mp hp)
        rw [hpp]
        decide))
    pickP80 (by decide) Goods.zero (by decide) (fun gd => by cases gd <;> rfl)).2
    (by decide) Good.uranium

/-! ### C4: permutation facts for the random primitives -/

theorem perm_get_cons_eraseIdx {X : Type} :
    ∀ (l : List X) (i : Nat) (h : i < l.length),
      (l.get ⟨i, h⟩ :: l.eraseIdx i).Perm l := by
  intro l
  induction l with
  | nil =>
    intro i h
    simp at h
  | cons x xs ih =>
    intro i h
    cases i with
    | zero => exact List.Perm.refl _
    | succ m =>
      have hm : m < xs.length := by simpa using h
      exact (List.Perm.swap _ _ _).trans ((ih m hm).cons x)

theorem drawFrom_fst_mem {X : Type} (g : Nat → Nat) (l : List X) (x0 : X) (k : Nat)
    (h : l ≠ []) : (drawFrom g l x0 k).1 ∈ l := by
  unfold drawFrom
  have hlen : 0 < l.length := List.length_pos.mpr h
  have hi : g k % l.length < l.length := Nat.mod_lt _ hlen
  simp only [List.get?_eq_get hi, Option.getD_some]
  exact List.get_mem l _ hi

theorem drawFrom_snd_subset {X : Type} (g : Nat → Nat) (l : List X) (x0 : X) (k : Nat) :
    (drawFrom g l x0 k).2.1 ⊆ l := List.eraseIdx_subset l _

theorem drawFrom_perm {X : Type} (g : Nat → Nat) (l : List X) (x0 : X) (k : Nat)
    (h : l ≠ []) : ((drawFrom g l x0 k).1 :: (drawFrom g l x0 k).2.1).Perm l := by
  unfold drawFrom
  have hlen : 0 < l.length := List.length_pos.mpr h
  have hi : g k % l.length < l.length := Nat.mod_lt _ hlen
  simp only [List.get?_eq_get hi, Option.getD_some]
  exact perm_get_cons_eraseIdx l _ hi

theorem drawFrom_snd_length {X : Type} (g : Nat → Nat) (l : List X) (x0 : X) (k : Nat)
    (h : l ≠ []) : (drawFrom g l x0 k).2.1.length = l.length - 1 := by
  unfold drawFrom
  have hlen : 0 < l.length := List.length_pos.mpr h
  have hi : g k % l.length < l.length := Nat.mod_lt _ hlen
  simp only
  rw [List.length_eraseIdx]
  simp [hi]

theorem randPermGo_perm {X : Type} (g : Nat → Nat) :
    ∀ (fuel : Nat) (l : List X) (k : Nat), l.length = fuel →
      ((randPermGo g fuel l k).1).Perm l := by
  intro fuel
  induction fuel with
  | zero =>
    intro l k hl
    have : l = [] := List.length_eq_zero.mp hl
    subst this
    exact List.Perm.refl _
  | succ n ih =>
    intro l k hl
    cases l with
    | nil => simp at hl
    | cons x xs =>
      have hne : (x :: xs) ≠ ([] : List X) := by simp
      have hd := drawFrom_perm g (x :: xs) x k hne
      have hrl : ((drawFrom g (x :: xs) x k).2.1).length = n := by
        rw [drawFrom_snd_length g (x :: xs) x k hne]
        simpa using hl
      have hih := ih ((drawFrom g (x :: xs) x k).2.1) ((drawFrom g (x :: xs) x k).2.2) hrl
      show ((drawFrom g (x :: xs) x k).1 ::
        (randPermGo g n (drawFrom g (x :: xs) x k).2.1 (drawFrom g (x :: xs) x k).2.2).1).Perm
        (x :: xs)
      exact (hih.cons _).trans hd

/-! ### C4: the swap of `mutate` is a permutation -/

theorem set_cons_perm {X : Type} :
    ∀ (xs : List X) (j : Nat) (x d : X), j < xs.length →
      (xs.getD j d :: xs.set j x).Perm (x :: xs) := by
  intro xs
  induction xs with
  | nil =>
    intro j x d hj
    simp at hj
  | cons z t ih =>
    intro j x d hj
    cases j with
    | zero => exact List.Perm.swap _ _ _
    | succ m =>
      have hm : m < t.length := by simpa using hj
      rw [List.getD_cons_succ, List.set_cons_succ]
      exact (List.Perm.swap _ _ _).trans (((ih m x d hm).cons z).trans (List.Perm.swap _ _ _))

theorem swap_set_perm {X : Type} :
    ∀ (l : List X) (i j : Nat) (d1 d2 : X), i < j → j < l.length →
      ((l.set i (l.getD j d1)).set j (l.getD i d2)).Perm l := by
  intro l
  induction l with
  | nil =>
    intro i j d1 d2 hij hj
    simp at hj
  | cons x xs ih =>
    intro i j d1 d2 hij hj
    cases i with
    | zero =>
      cases j with
      | zero => omega
      | succ m =>
        have hm : m < xs.length := by simpa using hj
        rw [List.getD_cons_succ, List.getD_cons_zero, List.set_cons_zero, List.set_cons_succ]
        exact set_cons_perm xs m x d1 hm
    | succ i' =>
      cases j with
      | zero => omega
      | succ m =>
        rw [List.getD_cons_succ, List.getD_cons_succ, List.set_cons_succ, List.set_cons_succ]
        exact (ih i' m d1 d2 (by omega) (by simpa using hj)).cons x

theorem sample2_bounds (g : Nat → Nat) (n k : Nat) (ij : Nat × Nat) (k2 : Nat)
    (h : sample2 g n k = (Except.ok ij, k2)) : ij.1 < ij.2 ∧ ij.2 < n := by
  obtain ⟨a, b⟩ := ij
  unfold sample2 at h
  split at h
  · simp at h
  · rename_i hn
    simp only at h
    have hp := (Prod.mk.injEq _ _ _ _).mp h
    have he := (Except.ok.injEq _ _).mp hp.1
    have hab := (Prod.mk.injEq _ _ _ _).mp he
    have hn2 : 2 ≤ n := by omega
    have hi : g k % n < n := Nat.mod_lt _ (by omega)
    have hj0 : g (k + 1) % (n - 1) < n - 1 := Nat.mod_lt _ (by omega)
    rw [← hab.1, ← hab.2]
    by_cases hle : g k % n ≤ g (k + 1) % (n - 1)
    · rw [if_pos hle]
      rw [min_eq_left (by omega), max_eq_right (by omega)]
      omega
    · rw [if_neg hle]
      rw [min_eq_right (by omega), max_eq_left (by omega)]
      omega

theorem mutate_perm (g : Nat → Nat) (rate : ℚ) (ind c : Chrom) (k : Nat)
    (h : (mutate g rate ind k).1 = Except.ok c) : c.Perm ind := by
  simp only [mutate] at h
  split at h
  · split at h
    · simp at h
    · rename_i ij k2 hs
      have h' : Except.ok ((ind.set ij.1 (ind.getD ij.2 none)).set ij.2
          (ind.getD ij.1 none)) = Except.ok c := h
      have he := (Except.ok.injEq _ _).mp h'
      obtain ⟨hij, hjn⟩ := sample2_bounds g ind.length _ ij k2 hs
      rw [← he]
      exact swap_set_perm ind ij.1 ij.2 none none hij hjn
  · have h' : Except.ok ind = Except.ok c := h
    have he := (Except.ok.injEq _ _).mp h'
    rw [← he]

/-! ### C4: sorting and selection keep list membership -/

theorem insertByKey_perm {X β : Type} [LinearOrder β] (key : X → β) (x : X) :
    ∀ (l : List X), (insertByKey key x l).Perm (x :: l) := by
  intro l
  induction l with
  | nil => exact List.Perm.refl _
  | cons y ys ih =>
    simp only [insertByKey]
    split
    · exact List.Perm.refl _
    · exact (ih.cons y).trans (List.Perm.swap _ _ _)

theorem sortByKey_perm {X β : Type} [LinearOrder β] (key : X → β) :
    ∀ (l : List X), (sortByKey key l).Perm l := by
  intro l
  induction l with
  | nil => exact List.Perm.refl _
  | cons x xs ih =>
    simp only [sortByKey]
    exact (insertByKey_perm key x (sortByKey key xs)).trans (ih.cons x)

theorem randChoice_mem {X : Type} (g : Nat → Nat) (l : List X) (k : Nat) (x : X) (k1 : Nat)
    (h : randChoice g l k = (Except.ok x, k1)) : x ∈ l := by
  unfold randChoice at h
  split at h
  · simp at h
  · have hp := (Prod.mk.injEq _ _ _ _).mp h
    have he := (Except.ok.injEq _ _).mp hp.1
    rw [← he]
    exact List.get_mem l _ _

theorem sampleK_go_mem {X : Type} (g : Nat → Nat) :
    ∀ (t : Nat) (l : List X) (k : Nat) (ys : List X) (k2 : Nat),
      sampleK.go g l t k = (Except.ok ys, k2) → ∀ y ∈ ys, y ∈ l := by
  intro t
  induction t with
  | zero =>
    intro l k ys k2 h y hy
    cases l with
    | nil =>
      simp only [sampleK.go] at h
      have hp := (Prod.mk.injEq _ _ _ _).mp h
      have he := (Except.ok.injEq _ _).mp hp.1
      rw [← he] at hy
      cases hy
    | cons x xs =>
      simp only [sampleK.go] at h
      have hp := (Prod.mk.injEq _ _ _ _).mp h
      have he := (Except.ok.injEq _ _).mp hp.1
      rw [← he] at hy
      cases hy
  | succ t ih =>
    intro l k ys k2 h y hy
    cases l with
    | nil => simp [sampleK.go] at h
    | cons x xs =>
      simp only [sampleK.go] at h
      split at h
      · simp at h
      · rename_i ys' k2' hgo
        have hp := (Prod.mk.injEq _ _ _ _).mp h
        have he := (Except.ok.injEq _ _).mp hp.1
        rw [← he] at hy
        rcases List.mem_cons.mp hy with h1 | h1
        · subst h1
          exact drawFrom_fst_mem g (x :: xs) x k (by simp)
        · have := ih _ _ _ _ hgo y h1
          exact drawFrom_snd_subset g (x :: xs) x k this

theorem sampleK_mem {X : Type} (g : Nat → Nat) (l : List X) (t k : Nat) (ys : List X)
    (k2 : Nat) (h : sampleK g l t k = (Except.ok ys, k2)) : ∀ y ∈ ys, y ∈ l := by
  unfold sampleK at h
  split at h
  · simp at h
  · exact sampleK_go_mem g t l k ys k2 h

theorem minByFitGo_mem {α : Type} [LinearOrderedField α] (D : Point → Point → α)
    (g : Nat → Nat) (ga : GA) :
    ∀ (cs : List Chrom) (b : Chrom) (bf : WithTop α) (k : Nat),
      (minByFitGo D g ga cs b bf k).1 ∈ b :: cs := by
  intro cs
  induction cs with
  | nil =>
    intro b bf k
    simp [minByFitGo]
  | cons c cs ih =>
    intro b bf k
    simp only [minByFitGo]
    split
    · have := ih c (fitness D g ga c k).1 (fitness D g ga c k).2
      rcases List.mem_cons.mp this with h1 | h1
      · rw [h1]; simp
      · exact List.mem_cons_of_mem _ (List.mem_cons_of_mem _ h1)
    · have := ih b bf (fitness D g ga c k).2
      rcases List.mem_cons.mp this with h1 | h1
      · rw [h1]; simp
      · exact List.mem_cons_of_mem _ (List.mem_cons_of_mem _ h1)

theorem minByFitness_mem {α : Type} [LinearOrderedField α] (D : Point → Point → α)
    (g : Nat → Nat) (ga : GA) (l : List Chrom) (k : Nat) (w : Chrom) (k2 : Nat)
    (h : minByFitness D g ga l k = (Except.ok w, k2)) : w ∈ l := by
  unfold minByFitness at h
  split at h
  · simp at h
  · rename_i c cs
    simp only at h
    have hp := (Prod.mk.injEq _ _ _ _).mp h
    have he := (Except.ok.injEq _ _).mp hp.1
    rw [← he]
    exact minByFitGo_mem D g ga cs c _ _

theorem tournamentSelection_mem {α : Type} [LinearOrderedField α] (D : Point → Point → α)
    (g : Nat → Nat) (ga : GA) :
    ∀ (t : Nat) (pop : List Chrom) (k : Nat) (ws : List Chrom) (k2 : Nat),
      tournamentSelection D g ga t pop k = (Except.ok ws, k2) → ∀ w ∈ ws, w ∈ pop := by
  intro t
  induction t with
  | zero =>
    intro pop k ws k2 h w hw
    simp only [tournamentSelection] at h
    have hp := (Prod.mk.injEq _ _ _ _).mp h
    have he := (Except.ok.injEq _ _).mp hp.1
    rw [← he] at hw
    cases hw
  | succ t ih =>
    intro pop k ws k2 h w hw
    simp only [tournamentSelection] at h
    split at h
    · simp at h
    · rename_i cands k1 hsam
      split at h
      · simp at h
      · rename_i w1 kk2 hmin
        split at h
        · simp at h
        · rename_i ws1 k3 htour
          have hp := (Prod.mk.injEq _ _ _ _).mp h
          have he := (Except.ok.injEq _ _).mp hp.1
          rw [← he] at hw
          rcases List.mem_cons.mp hw with h1 | h1
          · subst h1
            exact sampleK_mem g pop ga.tournamentSize k cands k1 hsam w
              (minByFitness_mem D g ga cands k1 w kk2 hmin)
          · exact ih pop kk2 ws1 k3 htour w h1

theorem optimizeRoute_perm {α : Type} [LinearOrderedField α] (D : Point → Point → α)
    (whs : List Point) (route : Chrom) : (optimizeRoute D whs route).Perm route := by
  cases route with
  | nil => exact List.Perm.refl _
  | cons r0 rest =>
    cases hnw : minByKey (fun w => oD D r0 (some w)) whs with
    | none =>
      have he : optimizeRoute D whs (r0 :: rest) = r0 :: rest := by
        simp only [optimizeRoute, hnw]
      rw [he]
    | some nw =>
      have hc := optimizeRoute_closed D whs r0 rest nw hnw
      have hperm := (twoOptLoop_spec D whs
        (Nat.factorial (((r0 :: rest) ++ [some nw]).length)) ((r0 :: rest) ++ [some nw])).1
      rw [← hc] at hperm
      exact perm_append_singleton_cancel (some nw) _ _ hperm

theorem freshChroms_perm (g : Nat → Nat) (ga : GA) :
    ∀ (m k : Nat), ∀ c ∈ (freshChroms g ga m k).1, c.Perm (ga.servicePoints.map some) := by
  intro m
  induction m with
  | zero =>
    intro k c hc
    simp [freshChroms] at hc
  | succ m ih =>
    intro k c hc
    simp only [freshChroms] at hc
    rcases List.mem_cons.mp hc with h | h
    · rw [h]
      exact (randPermGo_perm g ga.servicePoints.length ga.servicePoints k rfl).map some
    · exact ih _ c h

/-! ### C4: `ordered_crossover` builds a permutation -/

/-- The elements of `p2[ptr:size]` that lie outside the copied segment, in
order: exactly the values the fill loop of `ordered_crossover` consumes. -/
def ocAvail (seg p2 : Chrom) (size ptr : Nat) : Chrom :=
  ((List.range' ptr (size - ptr)).map (fun t => p2.getD t none)).filter
    (fun o => !decide (o ∈ seg))

def noneCount (cl : Chrom) : Nat := (cl.filter (fun o => decide (o = none))).length

theorem ocAdvance_spec (seg p2 : Chrom) (size : Nat) :
    ∀ (fuel ptr : Nat), size ≤ ptr + fuel → ptr ≤ size →
      ptr ≤ ocAdvance seg p2 size fuel ptr ∧ ocAdvance seg p2 size fuel ptr ≤ size ∧
      (∀ t, ptr ≤ t → t < ocAdvance seg p2 size fuel ptr → p2.getD t none ∈ seg) ∧
      (ocAdvance seg p2 size fuel ptr < size →
        ¬(p2.getD (ocAdvance seg p2 size fuel ptr) none ∈ seg)) := by
  intro fuel
  induction fuel with
  | zero =>
    intro ptr hf hp
    simp only [ocAdvance]
    refine ⟨le_refl _, hp, ?_, ?_⟩
    · intro t h1 h2
      omega
    · intro hlt
      omega
  | succ n ih =>
    intro ptr hf hp
    simp only [ocAdvance]
    split
    · rename_i hcond
      have hrec := ih (ptr + 1) (by omega) (by omega)
      refine ⟨by omega, hrec.2.1, ?_, hrec.2.2.2⟩
      intro t h1 h2
      by_cases ht : t = ptr
      · subst ht
        exact hcond.2
      · exact hrec.2.2.1 t (by omega) h2
    · rename_i hcond
      refine ⟨le_refl _, hp, ?_, ?_⟩
      · intro t h1 h2
        omega
      · intro hlt hm
        exact hcond ⟨hlt, hm⟩

theorem ocAvail_stop (seg p2 : Chrom) (size ptr : Nat) (h : size ≤ ptr) :
    ocAvail seg p2 size ptr = [] := by
  unfold ocAvail
  rw [show size - ptr = 0 from by omega]
  rfl

theorem ocAvail_cons_mem (seg p2 : Chrom) (size ptr : Nat) (hlt : ptr < size)
    (hm : p2.getD ptr none ∈ seg) :
    ocAvail seg p2 size ptr = ocAvail seg p2 size (ptr + 1) := by
  unfold ocAvail
  rw [show size - ptr = (size - (ptr + 1)) + 1 from by omega, List.range'_succ,
    List.map_cons, List.filter_cons_of_neg (by simpa using hm)]

theorem ocAvail_cons_notmem (seg p2 : Chrom) (size ptr : Nat) (hlt : ptr < size)
    (hm : ¬(p2.getD ptr none ∈ seg)) :
    ocAvail seg p2 size ptr = p2.getD ptr none :: ocAvail seg p2 size (ptr + 1) := by
  unfold ocAvail
  rw [show size - ptr = (size - (ptr + 1)) + 1 from by omega, List.range'_succ,
    List.map_cons, List.filter_cons_of_pos (by simpa using hm)]

theorem ocAvail_skip (seg p2 : Chrom) (size : Nat) :
    ∀ (d ptr ptr1 : Nat), ptr1 = ptr + d → ptr1 ≤ size →
      (∀ t, ptr ≤ t → t < ptr1 → p2.getD t none ∈ seg) →
      ocAvail seg p2 size ptr = ocAvail seg p2 size ptr1 := by
  intro d
  induction d with
  | zero =>
    intro ptr ptr1 h1 _ _
    rw [h1, Nat.add_zero]
  | succ n ih =>
    intro ptr ptr1 h1 h2 h3
    have hptr : ptr < size := by omega
    rw [ocAvail_cons_mem seg p2 size ptr hptr (h3 ptr (le_refl _) (by omega))]
    exact ih (ptr + 1) ptr1 (by omega) h2 (fun t ht1 ht2 => h3 t (by omega) ht2)

theorem ocFill_perm (seg p2 : Chrom) (size : Nat) :
    ∀ (cl : Chrom) (ptr : Nat), ptr ≤ size →
      noneCount cl = (ocAvail seg p2 size ptr).length →
      (ocFill seg p2 size cl ptr).Perm
        (cl.filter (fun o => !decide (o = none)) ++ ocAvail seg p2 size ptr) := by
  intro cl
  induction cl with
  | nil =>
    intro ptr hp hcount
    simp only [ocFill]
    have h0 : ocAvail seg p2 size ptr = [] := by
      have h1 : (ocAvail seg p2 size ptr).length = 0 := by
        rw [← hcount]
        rfl
      exact List.length_eq_zero.mp h1
    rw [h0]
    exact List.Perm.refl _
  | cons c rest ih =>
    intro ptr hp hcount
    simp only [ocFill]
    split
    · rename_i hc
      subst hc
      have hadv := ocAdvance_spec seg p2 size size ptr (by omega) hp
      have hskip : ocAvail seg p2 size ptr = ocAvail seg p2 size (ocAdvance seg p2 size size ptr) :=
        ocAvail_skip seg p2 size (ocAdvance seg p2 size size ptr - ptr) ptr _
          (by omega) hadv.2.1 (fun t h1 h2 => hadv.2.2.1 t h1 h2)
      split
      · rename_i hlt
        have hcons := ocAvail_cons_notmem seg p2 size _ hlt (hadv.2.2.2 hlt)
        have hcount' : noneCount rest =
            (ocAvail seg p2 size (ocAdvance seg p2 size size ptr + 1)).length := by
          rw [hskip, hcons] at hcount
          have hnc : noneCount (none :: rest) = noneCount rest + 1 := by
            unfold noneCount
            rw [List.filter_cons_of_pos (by simp)]
            rfl
          rw [hnc] at hcount
          simp only [List.length_cons] at hcount
          omega
        have hih := ih _ (by omega) hcount'
        rw [hskip, hcons]
        have hfil : (none :: rest).filter (fun o => !decide (o = none)) =
            rest.filter (fun o => !decide (o = none)) :=
          List.filter_cons_of_neg (by simp)
        rw [hfil]
        refine (hih.cons _).trans ?_
        exact List.perm_middle.symm
      · rename_i hge
        exfalso
        have h0 : ocAvail seg p2 size (ocAdvance seg p2 size size ptr) = [] :=
          ocAvail_stop seg p2 size _ (by omega)
        rw [hskip, h0] at hcount
        have hnc : noneCount (none :: rest) = noneCount rest + 1 := by
          unfold noneCount
          rw [List.filter_cons_of_pos (by simp)]
          rfl
        rw [hnc] at hcount
        simp at hcount
    · rename_i hc
      have hcount' : noneCount rest = (ocAvail seg p2 size ptr).length := by
        have hnc : noneCount (c :: rest) = noneCount rest := by
          unfold noneCount
          rw [List.filter_cons_of_neg (by simp [hc])]
        rw [← hnc]
        exact hcount
      have hih := ih ptr hp hcount'
      have hfil : (c :: rest).filter (fun o => !decide (o = none)) =
          c :: rest.filter (fun o => !decide (o = none)) :=
        List.filter_cons_of_pos (by simp [hc])
      rw [hfil]
      exact hih.cons c

theorem map_getD_range' {X : Type} (l : List X) (d : X) :
    ∀ (n i : Nat), i + n ≤ l.length →
      (List.range' i n).map (fun t => l.getD t d) = (l.drop i).take n := by
  intro n
  induction n with
  | zero =>
    intro i _
    simp
  | succ m ih =>
    intro i hn
    have hi : i < l.length := by omega
    rw [List.range'_succ, List.map_cons, ih (i + 1) (by omega),
      List.drop_eq_get_cons hi, List.take_succ_cons, List.getD_eq_get l d hi]

theorem ocChild_filter (p1 : Chrom) (s e : Nat) (hns : ∀ o ∈ p1, o ≠ none) (hse : s ≤ e) :
    ∀ (n i : Nat), i + n ≤ p1.length →
      ((List.range' i n).map
          (fun idx => if s ≤ idx ∧ idx ≤ e then p1.getD idx none else none)).filter
        (fun o => !decide (o = none)) =
      (p1.drop (max i s)).take (min (i + n) (e + 1) - max i s) := by
  intro n
  induction n with
  | zero =>
    intro i _
    rw [show min (i + 0) (e + 1) - max i s = 0 from by omega, List.take_zero]
    rfl
  | succ m ih =>
    intro i hn
    have hi : i < p1.length := by omega
    rw [List.range'_succ, List.map_cons]
    by_cases h1 : s ≤ i ∧ i ≤ e
    · rw [if_pos h1]
      have hkeep : (!decide (p1.getD i none = none)) = true := by
        simp only [Bool.not_eq_true', decide_eq_false_iff_not]
        exact hns _ (by rw [List.getD_eq_get p1 none hi]; exact List.get_mem p1 i hi)
      rw [@List.filter_cons_of_pos _ (fun o => !decide (o = none)) _ _ hkeep, ih (i + 1) (by omega)]
      rw [show max i s = i from by omega, show max (i + 1) s = i + 1 from by omega]
      rw [show min (i + (m + 1)) (e + 1) - i = (min ((i + 1) + m) (e + 1) - (i + 1)) + 1
        from by omega]
      rw [List.drop_eq_get_cons hi, List.take_succ_cons, List.getD_eq_get p1 none hi]
    · rw [if_neg h1]
      rw [@List.filter_cons_of_neg _ (fun o => !decide (o = none)) _ _ (by simp)]
      rw [ih (i + 1) (by omega)]
      by_cases h2 : i < s
      · rw [show max (i + 1) s = max i s from by omega,
          show min ((i + 1) + m) (e + 1) = min (i + (m + 1)) (e + 1) from by omega]
      · have h3 : e < i := by
          rcases Nat.lt_or_ge e i with h | h
          · exact h
          · exact absurd ⟨by omega, by omega⟩ h1
        rw [show min ((i + 1) + m) (e + 1) - max (i + 1) s = 0 from by omega,
          show min (i + (m + 1)) (e + 1) - max i s = 0 from by omega,
          List.take_zero, List.take_zero]

theorem orderedCrossover_perm (L : Chrom) (hL : L.Nodup) (hns : ∀ o ∈ L, o ≠ none)
    (p1 p2 : Chrom) (hp1 : p1.Perm L) (hp2 : p2.Perm L) (s e : Nat)
    (hse : s ≤ e) (hel : e < p1.length) :
    (orderedCrossover p1 p2 s e).Perm L := by
  have hns1 : ∀ o ∈ p1, o ≠ none := fun o ho => hns o (hp1.subset ho)
  have hlen12 : p1.length = p2.length := by rw [hp1.length_eq, hp2.length_eq]
  have hp1n : p1.Nodup := hp1.nodup_iff.mpr hL
  have hp2n : p2.Nodup := hp2.nodup_iff.mpr hL
  set size := p1.length with hsize
  set seg := (p1.drop s).take (e + 1 - s) with hseg
  set child0 := (List.range size).map
    (fun idx => if s ≤ idx ∧ idx ≤ e then p1.getD idx none else none) with hchild
  have hsegsl := (List.take_sublist (e + 1 - s) (p1.drop s)).trans (List.drop_sublist s p1)
  have hsegsub : seg ⊆ p1 := hsegsl.subset
  have hsegnd : seg.Nodup := List.Nodup.sublist hsegsl hp1n
  have hseglen : seg.length ≤ size := hsegsl.length_le
  have hfil : child0.filter (fun o => !decide (o = none)) = seg := by
    rw [hchild, List.range_eq_range']
    rw [ocChild_filter p1 s e hns1 hse size 0 (by omega)]
    rw [show max 0 s = s from by omega, show min (0 + size) (e + 1) = e + 1 from by omega]
  have hin : (p2.filter (fun o => decide (o ∈ seg))).Perm seg := by
    rw [List.perm_ext_iff_of_nodup (hp2n.filter _) hsegnd]
    intro a
    simp only [List.mem_filter, decide_eq_true_eq]
    constructor
    · rintro ⟨_, h2⟩
      exact h2
    · intro ha
      exact ⟨hp2.mem_iff.mpr (hp1.mem_iff.mp (hsegsub ha)), ha⟩
  have havail : ocAvail seg p2 size 0 = p2.filter (fun o => !decide (o ∈ seg)) := by
    unfold ocAvail
    rw [Nat.sub_zero, map_getD_range' p2 none size 0 (by omega), List.drop_zero,
      show size = p2.length from hlen12, List.take_length]
  have hlenbal : noneCount child0 = (ocAvail seg p2 size 0).length := by
    have hc0len : child0.length = size := by
      rw [hchild]
      simp
    have hbal1 := (List.filter_append_perm (fun o => decide (o = none)) child0).length_eq
    rw [List.length_append, hc0len, hfil] at hbal1
    have hbal2 := (List.filter_append_perm (fun o => decide (o ∈ seg)) p2).length_eq
    rw [List.length_append, show p2.length = size from hlen12.symm] at hbal2
    have h3 : (p2.filter (fun o => decide (o ∈ seg))).length = seg.length := hin.length_eq
    rw [havail]
    unfold noneCount
    omega
  have hof := ocFill_perm seg p2 size child0 0 (by omega) hlenbal
  show (ocFill seg p2 size child0 0).Perm L
  refine hof.trans ?_
  rw [hfil, havail]
  refine (List.Perm.append_right _ hin.symm).trans ?_
  exact (List.filter_append_perm _ p2).trans hp2

/-! ### C4: `spatial_crossover` builds a permutation -/

theorem getD_mem {X : Type} (l : List X) (t : Nat) (d : X) (h : t < l.length) :
    l.getD t d ∈ l := by
  rw [List.getD_eq_get l d h]
  exact List.get_mem l t h

theorem nodup_append_single {X : Type} (l : List X) (x : X) (h : l.Nodup) (hx : x ∉ l) :
    (l ++ [x]).Nodup := by
  rw [List.nodup_append]
  refine ⟨h, List.nodup_singleton x, ?_⟩
  intro a ha hb
  rw [List.mem_singleton] at hb
  subst hb
  exact hx ha

theorem scAdv_spec (sorted child : Chrom) :
    ∀ (fuel i : Nat), sorted.length ≤ i + fuel → i ≤ sorted.length →
      i ≤ scAdv sorted child fuel i ∧ scAdv sorted child fuel i ≤ sorted.length ∧
      (∀ t, i ≤ t → t < scAdv sorted child fuel i → sorted.getD t none ∈ child) ∧
      (scAdv sorted child fuel i < sorted.length →
        ¬(sorted.getD (scAdv sorted child fuel i) none ∈ child)) := by
  intro fuel
  induction fuel with
  | zero =>
    intro i hf hp
    simp only [scAdv]
    refine ⟨le_refl _, hp, ?_, ?_⟩
    · intro t h1 h2
      omega
    · intro hlt
      omega
  | succ n ih =>
    intro i hf hp
    simp only [scAdv]
    split
    · rename_i hcond
      have hrec := ih (i + 1) (by omega) (by omega)
      refine ⟨by omega, hrec.2.1, ?_, hrec.2.2.2⟩
      intro t h1 h2
      by_cases ht : t = i
      · subst ht
        exact hcond.2
      · exact hrec.2.2.1 t (by omega) h2
    · rename_i hcond
      refine ⟨le_refl _, hp, ?_, ?_⟩
      · intro t h1 h2
        omega
      · intro hlt hm
        exact hcond ⟨hlt, hm⟩

/-- The loop invariant of `spatial_crossover`'s interleaving fill. -/
def ScInv (L p1s p2s : Chrom) (n : Nat) (child : Chrom) (i j : Nat) : Prop :=
  child.Nodup ∧ child ⊆ L ∧ child.length ≤ n ∧
    i ≤ p1s.length ∧ j ≤ p2s.length ∧
    (∀ t, t < i → p1s.getD t none ∈ child) ∧ (∀ t, t < j → p2s.getD t none ∈ child)

theorem sc_full (L child sorted : Chrom) (hnd : L.Nodup) (hs : sorted.Perm L)
    (hall : ∀ t, t < sorted.length → sorted.getD t none ∈ child) :
    L.length ≤ child.length := by
  have hLsub : L ⊆ child := by
    intro x hx
    have hxs : x ∈ sorted := hs.mem_iff.mpr hx
    obtain ⟨t, ht⟩ := List.get?_of_mem hxs
    have htl : t < sorted.length := by
      by_contra hge
      rw [List.get?_eq_none.mpr (by omega)] at ht
      cases ht
    have hm := hall t htl
    rw [List.get?_eq_get htl] at ht
    have hgd : sorted.getD t none = x := by
      rw [List.getD_eq_get sorted none htl]
      exact (Option.some.injEq _ _).mp ht
    rw [hgd] at hm
    exact hm
  exact (List.subperm_of_subset hnd hLsub).length_le

theorem scLoop_spec (L p1s p2s : Chrom) (n : Nat) (hL : L.Nodup)
    (h1 : p1s.Perm L) (h2 : p2s.Perm L) (hn : n = L.length) :
    ∀ (fuel : Nat) (child : Chrom) (i j : Nat),
      ScInv L p1s p2s n child i j → n ≤ child.length + fuel →
      (scLoop p1s p2s n fuel child i j).Perm L := by
  intro fuel
  induction fuel with
  | zero =>
    intro child i j hinv hfuel
    simp only [scLoop]
    exact (List.subperm_of_subset hinv.1 hinv.2.1).perm_of_length_le
      (by have := hinv.2.2.1; omega)
  | succ f ih =>
    intro child i j hinv hfuel
    obtain ⟨hchn, hsub, hlen, hi, hj, hpi, hpj⟩ := hinv
    simp only [scLoop]
    split
    · rename_i hlt
      have hadv1 := scAdv_spec p1s child p1s.length i (by omega) hi
      have hi1lt : scAdv p1s child p1s.length i < p1s.length := by
        by_contra hge
        have hall : ∀ t, t < p1s.length → p1s.getD t none ∈ child := by
          intro t ht
          by_cases hti : t < i
          · exact hpi t hti
          · exact hadv1.2.2.1 t (by omega) (by omega)
        have := sc_full L child p1s hL h1 hall
        omega
      have hnotmem : ¬(p1s.getD (scAdv p1s child p1s.length i) none ∈ child) :=
        hadv1.2.2.2 hi1lt
      rw [if_pos hi1lt]
      simp only
      have hx1L : p1s.getD (scAdv p1s child p1s.length i) none ∈ L :=
        h1.mem_iff.mp (getD_mem p1s _ none hi1lt)
      have hch1n : (child ++ [p1s.getD (scAdv p1s child p1s.length i) none]).Nodup :=
        nodup_append_single child _ hchn hnotmem
      have hch1sub : (child ++ [p1s.getD (scAdv p1s child p1s.length i) none]) ⊆ L := by
        intro a ha
        rcases List.mem_append.mp ha with h | h
        · exact hsub h
        · rw [List.mem_singleton] at h
          subst h
          exact hx1L
      have hch1len : (child ++ [p1s.getD (scAdv p1s child p1s.length i) none]).length =
          child.length + 1 := by simp
      have hpi1 : ∀ t, t < scAdv p1s child p1s.length i + 1 →
          p1s.getD t none ∈ child ++ [p1s.getD (scAdv p1s child p1s.length i) none] := by
        intro t ht
        by_cases hti : t < i
        · exact List.mem_append_left _ (hpi t hti)
        · by_cases ht1 : t < scAdv p1s child p1s.length i
          · exact List.mem_append_left _ (hadv1.2.2.1 t (by omega) ht1)
          · have hte : t = scAdv p1s child p1s.length i := by omega
            subst hte
            exact List.mem_append_right _ (by simp)
      have hadv2 := scAdv_spec p2s (child ++ [p1s.getD (scAdv p1s child p1s.length i) none])
        p2s.length j (by omega) hj
      by_cases hcj : scAdv p2s (child ++ [p1s.getD (scAdv p1s child p1s.length i) none])
          p2s.length j < p2s.length ∧
          (child ++ [p1s.getD (scAdv p1s child p1s.length i) none]).length < n
      · rw [if_pos hcj]
        apply ih
        · have hy := hadv2.2.2.2 hcj.1
          have hyL : p2s.getD (scAdv p2s
              (child ++ [p1s.getD (scAdv p1s child p1s.length i) none]) p2s.length j) none ∈ L :=
            h2.mem_iff.mp (getD_mem p2s _ none hcj.1)
          refine ⟨nodup_append_single _ _ hch1n hy, ?_, ?_, by omega, by omega, ?_, ?_⟩
          · intro a ha
            rcases List.mem_append.mp ha with h | h
            · exact hch1sub h
            · rw [List.mem_singleton] at h
              subst h
              exact hyL
          · simp only [List.length_append, List.length_singleton] at hcj ⊢
            omega
          · intro t ht
            exact List.mem_append_left _ (hpi1 t ht)
          · intro t ht
            by_cases htj : t < j
            · exact List.mem_append_left _ (List.mem_append_left _ (hpj t htj))
            · by_cases ht1 : t < scAdv p2s
                  (child ++ [p1s.getD (scAdv p1s child p1s.length i) none]) p2s.length j
              · exact List.mem_append_left _ (hadv2.2.2.1 t (by omega) ht1)
              · have hte : t = scAdv p2s
                    (child ++ [p1s.getD (scAdv p1s child p1s.length i) none]) p2s.length j := by
                  omega
                subst hte
                exact List.mem_append_right _ (by simp)
        · simp only [List.length_append, List.length_singleton]
          omega
      · rw [if_neg hcj]
        apply ih
        · refine ⟨hch1n, hch1sub, ?_, by omega, ?_, hpi1, ?_⟩
          · rw [hch1len]
            omega
          · exact hadv2.2.1
          · intro t ht
            by_cases htj : t < j
            · exact List.mem_append_left _ (hpj t htj)
            · exact hadv2.2.2.1 t (by omega) ht
        · rw [hch1len]
          omega
    · rename_i hge
      exact (List.subperm_of_subset hchn hsub).perm_of_length_le (by omega)

theorem spatialCrossover_perm {α : Type} [LinearOrderedField α] (D : Point → Point → α)
    (ref : Point) (L p1 p2 : Chrom) (hL : L.Nodup) (hp1 : p1.Perm L) (hp2 : p2.Perm L) :
    (spatialCrossover D ref p1 p2).Perm L := by
  have h1 : (sortByKey (fun o => oD D o (some ref)) p1).Perm L :=
    (sortByKey_perm _ p1).trans hp1
  have h2 : (sortByKey (fun o => oD D o (some ref)) p2).Perm L :=
    (sortByKey_perm _ p2).trans hp2
  have hn : p1.length = L.length := hp1.length_eq
  show (scLoop (sortByKey (fun o => oD D o (some ref)) p1)
    (sortByKey (fun o => oD D o (some ref)) p2) p1.length p1.length [] 0 0).Perm L
  apply scLoop_spec L _ _ p1.length hL h1 h2 hn
  · refine ⟨List.nodup_nil, List.nil_subset L, by simp, by omega, by omega, ?_, ?_⟩
    · intro t ht
      exact absurd ht (by omega)
    · intro t ht
      exact absurd ht (by omega)
  · simp

/-! ### C4: the child-production loop and the generation loop -/

section C4Engine

variable {α : Type} [LinearOrderedField α] (D : Point → Point → α) (g : Nat → Nat)

theorem reproduce_perm (ga : GA) (L : Chrom) (hL : L.Nodup) (hns : ∀ o ∈ L, o ≠ none)
    (selected : List Chrom) (hsel : ∀ c ∈ selected, c.Perm L) :
    ∀ (fuel : Nat) (next : List Chrom) (k : Nat) (out : List Chrom) (k2 : Nat),
      (∀ c ∈ next, c.Perm L) →
      reproduce D g ga selected fuel next k = (Except.ok out, k2) →
      ∀ c ∈ out, c.Perm L := by
  intro fuel
  induction fuel with
  | zero =>
    intro next k out k2 hnext hok
    simp only [reproduce] at hok
    have hp := (Prod.mk.injEq _ _ _ _).mp hok
    have he := (Except.ok.injEq _ _).mp hp.1
    rw [← he]
    exact hnext
  | succ f ih =>
    intro next k out k2 hnext hok
    simp only [reproduce] at hok
    split at hok
    · have hp := (Prod.mk.injEq _ _ _ _).mp hok
      have he := (Except.ok.injEq _ _).mp hp.1
      rw [← he]
      exact hnext
    · split at hok
      · simp at hok
      · rename_i p1 k1 hch1
        split at hok
        · simp at hok
        · rename_i p2 kk2 hch2
          have hp1L : p1.Perm L := hsel p1 (randChoice_mem g selected k p1 k1 hch1)
          have hp2L : p2.Perm L := hsel p2 (randChoice_mem g selected k1 p2 kk2 hch2)
          split at hok
          · simp at hok
          · rename_i c k4 hcross
            have hcL : c.Perm L := by
              split at hcross
              · split at hcross
                · simp at hcross
                · rename_i se k4' hsam
                  have hp := (Prod.mk.injEq _ _ _ _).mp hcross
                  have he := (Except.ok.injEq _ _).mp hp.1
                  rw [← he]
                  obtain ⟨hlt, hup⟩ := sample2_bounds g p1.length _ se k4' hsam
                  exact orderedCrossover_perm L hL hns p1 p2 hp1L hp2L se.1 se.2
                    (le_of_lt hlt) hup
              · split at hcross
                · simp at hcross
                · rename_i ref k4' href
                  have hp := (Prod.mk.injEq _ _ _ _).mp hcross
                  have he := (Except.ok.injEq _ _).mp hp.1
                  rw [← he]
                  exact spatialCrossover_perm D ref L p1 p2 hL hp1L hp2L
            split at hok
            · simp at hok
            · rename_i c1 k5 hmut
              have hc1L : c1.Perm L := by
                have hm1 : (mutate g ga.mutationRate c k4).1 = Except.ok c1 := by
                  rw [hmut]
                exact (mutate_perm g ga.mutationRate c c1 k4 hm1).trans hcL
              refine ih _ _ out k2 ?_ hok
              intro x hx
              rcases List.mem_append.mp hx with h1 | h1
              · exact hnext x h1
              · rw [List.mem_singleton] at h1
                subst h1
                split
                · exact (optimizeRoute_perm D ga.warehouses c1).trans hc1L
                · exact hc1L

theorem mapFitness_snd (ga : GA) :
    ∀ (pop : List Chrom) (k : Nat), (mapFitness D g ga pop k).1.map Prod.snd = pop := by
  intro pop
  induction pop with
  | nil =>
    intro k
    rfl
  | cons c cs ih =>
    intro k
    simp only [mapFitness, List.map_cons, ih]

theorem genStep_perm (ga : GA) (L : Chrom) (hL : L.Nodup) (hns : ∀ o ∈ L, o ≠ none)
    (pop : List Chrom) (hpop : ∀ c ∈ pop, c.Perm L) (k : Nat)
    (b : WithTop α) (pop2 : List Chrom) (k2 : Nat)
    (hok : genStep D g ga pop k = (Except.ok (b, pop2), k2)) :
    ∀ c ∈ pop2, c.Perm L := by
  simp only [genStep] at hok
  have hspop : ∀ c ∈ (sortByKey Prod.fst (mapFitness D g ga pop k).1).map Prod.snd,
      c.Perm L := by
    intro c hc
    have hperm : ((sortByKey Prod.fst (mapFitness D g ga pop k).1).map Prod.snd).Perm pop := by
      have h1 := (sortByKey_perm (Prod.fst (α := WithTop α) (β := Chrom))
        (mapFitness D g ga pop k).1).map Prod.snd
      rw [mapFitness_snd D g ga pop k] at h1
      exact h1
    exact hpop c (hperm.subset hc)
  split at hok
  · simp at hok
  · rename_i selected kk2 htour
    split at hok
    · simp at hok
    · rename_i next k3 hrep
      have hp := (Prod.mk.injEq _ _ _ _).mp hok
      have he := (Except.ok.injEq _ _).mp hp.1
      have hpop2 : pop2 = next.take ga.populationSize := (congrArg Prod.snd he).symm
      have hseld : ∀ c ∈ selected, c.Perm L := by
        intro c hc
        exact hspop c (tournamentSelection_mem D g ga ga.populationSize _ _ selected kk2
          htour c hc)
      have helites : ∀ c ∈ ((sortByKey Prod.fst (mapFitness D g ga pop k).1).map
          Prod.snd).take 2, c.Perm L := by
        intro c hc
        exact hspop c (List.mem_of_mem_take hc)
      intro c hc
      rw [hpop2] at hc
      exact reproduce_perm D g ga L hL hns selected hseld _ _ _ next k3 helites hrep c
        (List.mem_of_mem_take hc)

theorem diversityPhase_perm (ga : GA) :
    ∀ (n gen : Nat) (pop : List Chrom) (k : Nat),
      (∀ c ∈ pop, c.Perm (ga.servicePoints.map some)) →
      ∀ c ∈ (diversityPhase g ga n gen pop k).1, c.Perm (ga.servicePoints.map some) := by
  intro n
  induction n with
  | zero =>
    intro gen pop k h c hc
    exact h c hc
  | succ m ih =>
    intro gen pop k h c hc
    simp only [diversityPhase] at hc
    split at hc
    · refine ih _ _ _ ?_ c hc
      intro x hx
      rcases List.mem_append.mp hx with h1 | h1
      · exact h x (List.mem_of_mem_take h1)
      · exact freshChroms_perm g ga 10 k x h1
    · exact ih _ _ _ h c hc

end C4Engine

/-- **C4.**  Permutation validity: random initial individuals are
permutations of the service-point list, the diversity phase preserves the
property, and so does every scored generation of the main loop — so every
individual of every population reached by `run` is a permutation of the
service points (no duplicates, no omissions, no warehouse or `None`
entries), provided the service points are pairwise distinct objects. -/
theorem C4_permutation {α : Type} [LinearOrderedField α] (D : Point → Point → α)
    (g : Nat → Nat) (ga : GA) (hnd : ga.servicePoints.Nodup) :
    (∀ (m k : Nat), ∀ c ∈ (freshChroms g ga m k).1, c.Perm (ga.servicePoints.map some)) ∧
    (∀ (n gen : Nat) (pop : List Chrom) (k : Nat),
      (∀ c ∈ pop, c.Perm (ga.servicePoints.map some)) →
      ∀ c ∈ (diversityPhase g ga n gen pop k).1, c.Perm (ga.servicePoints.map some)) ∧
    (∀ (n : Nat) (pop : List Chrom) (k : Nat),
      (∀ c ∈ pop, c.Perm (ga.servicePoints.map some)) →
      ∀ P ∈ mainLoopTrace D g ga n pop k, ∀ c ∈ P, c.Perm (ga.servicePoints.map some)) := by
  have hLnd : (ga.servicePoints.map some).Nodup := hnd.map (Option.some_injective _)
  have hns : ∀ o ∈ ga.servicePoints.map some, o ≠ none := by
    intro o ho
    obtain ⟨p, _, rfl⟩ := List.mem_map.mp ho
    simp
  refine ⟨freshChroms_perm g ga, diversityPhase_perm g ga, ?_⟩
  intro n
  induction n with
  | zero =>
    intro pop k hpop P hP c hc
    simp only [mainLoopTrace] at hP
    rw [List.mem_singleton] at hP
    subst hP
    exact hpop c hc
  | succ m ih =>
    intro pop k hpop P hP c hc
    simp only [mainLoopTrace] at hP
    rcases List.mem_cons.mp hP with h | h
    · subst h
      exact hpop c hc
    · split at h
      · cases h
      · rename_i bp k1 hgen
        obtain ⟨bb, pp⟩ := bp
        exact ih pp k1
          (genStep_perm D g ga (ga.servicePoints.map some) hLnd hns pop hpop k bb pp k1 hgen)
          P h c hc

/-- Witness for C4 on the single-pickup-point configuration: the head
individual of the population after one scored generation is a permutation
of the service points. -/
theorem C4_permutation_witness :
    (((mainLoopTrace (α := ℚ) distX streamZero gaPick50 1 [[some pickP80]] 0).getD 1
        []).headD []).Perm (gaPick50.servicePoints.map some) :=
  (C4_permutation distX streamZero gaPick50 (by decide)).2.2 1 [[some pickP80]] 0
    (by decide)
    ((mainLoopTrace (α := ℚ) distX streamZero gaPick50 1 [[some pickP80]] 0).getD 1 [])
    (by decide)
    (((mainLoopTrace (α := ℚ) distX streamZero gaPick50 1 [[some pickP80]] 0).getD 1
      []).headD [])
    (by decide)

/-! ### C6: with a single warehouse the fitness value is stream-independent -/

/-- The fleet built by the creation loop when there is only one warehouse. -/
def fleetOf (w : Point) : List Int → Nat → List Vehicle
  | [], _ => []
  | c :: cs, i =>
    { vid := i + 1, capacity := c, loads := Goods.zero, route := [], assignedWh := w } ::
      fleetOf w cs (i + 1)

theorem randChoice_single {X : Type} (g : Nat → Nat) (w : X) (k : Nat) :
    randChoice g [w] k = (Except.ok w, k + 1) := by
  unfold randChoice
  rw [dif_neg (by simp)]
  simp [List.get_singleton]

theorem createVehicles_single (g : Nat → Nat) (w : Point) :
    ∀ (caps : List Int) (i k : Nat),
      createVehicles g [w] caps i k = (Except.ok (fleetOf w caps i), k + caps.length) := by
  intro caps
  induction caps with
  | nil =>
    intro i k
    rfl
  | cons c cs ih =>
    intro i k
    simp only [createVehicles, randChoice_single, ih, fleetOf]
    rw [show k + (c :: cs).length = k + 1 + cs.length from by simp [List.length_cons]; omega]

section C6Lemmas

variable {α : Type} [LinearOrderedField α] (D : Point → Point → α) (g : Nat → Nat)

theorem plan_single_wh (w : Point) (ga : GA) (hw : ga.warehouses = [w])
    (ind : Chrom) (k : Nat) :
    (calculateServicePlan D g ga ind k).1 = (calculateServicePlan D streamZero ga ind 0).1 := by
  unfold calculateServicePlan
  rw [hw, createVehicles_single g w ga.caps 0 k, createVehicles_single streamZero w ga.caps 0 0]
  simp only
  cases hp : processInd D [w] ind ((fleetOf w ga.caps 0).map (initVehicle (initRem ga)))
      (initRem ga) with
  | error e => rfl
  | ok vsrem =>
    obtain ⟨vs, rem⟩ := vsrem
    rfl

theorem fitness_single_wh (w : Point) (ga : GA) (hw : ga.warehouses = [w])
    (c : Chrom) (k : Nat) :
    (fitness D g ga c k).1 = (fitness D streamZero ga c 0).1 := by
  unfold fitness
  by_cases hcond : none ∈ c ∨ c.length ≠ ga.servicePoints.length
  · rw [if_pos hcond, if_pos hcond]
  · rw [if_neg hcond, if_neg hcond]
    have hpl := plan_single_wh D g w ga hw c k
    cases hq1 : calculateServicePlan D g ga c k with
    | mk r1 k1 =>
      cases hq2 : calculateServicePlan D streamZero ga c 0 with
      | mk r2 k2 =>
        have hr : r1 = r2 := by
          rw [hq1, hq2] at hpl
          exact hpl
        subst hr
        cases r1 with
        | error e => rfl
        | ok vsrem =>
          obtain ⟨vs, rem⟩ := vsrem
          cases hf : fleetDistance D ga.warehouses vs with
          | none => simp only [hf]
          | some t => simp only [hf]

theorem mapFitness_single (w : Point) (ga : GA) (hw : ga.warehouses = [w]) :
    ∀ (pop : List Chrom) (k : Nat),
      (mapFitness D g ga pop k).1 =
        pop.map (fun c => ((fitness D streamZero ga c 0).1, c)) := by
  intro pop
  induction pop with
  | nil =>
    intro k
    rfl
  | cons c cs ih =>
    intro k
    simp only [mapFitness, List.map_cons, ih]
    rw [fitness_single_wh D g w ga hw c k]

end C6Lemmas

/-! ### C6: the head of the fitness sort is minimal, elites survive -/

theorem sortByKey_head_min {X β : Type} [LinearOrder β] (key : X → β) :
    ∀ (l : List X) (b : X), (sortByKey key l).head? = some b → ∀ x ∈ l, key b ≤ key x := by
  intro l
  induction l with
  | nil =>
    intro b hb x hx
    cases hx
  | cons c cs ih =>
    intro b hb x hx
    simp only [sortByKey] at hb
    cases hs : sortByKey key cs with
    | nil =>
      rw [hs] at hb
      simp only [insertByKey, List.head?_cons] at hb
      have hcs : cs = [] := by
        have hl := (sortByKey_perm key cs).length_eq
        rw [hs] at hl
        exact List.length_eq_zero.mp hl.symm
      subst hcs
      have hb' : c = b := (Option.some.injEq _ _).mp hb
      subst hb'
      have hx' : x = c := List.mem_singleton.mp hx
      subst hx'
      exact le_refl _
    | cons y ys =>
      rw [hs] at hb
      simp only [insertByKey] at hb
      split at hb
      · rename_i hle
        simp only [List.head?_cons] at hb
        have hb' : c = b := (Option.some.injEq _ _).mp hb
        subst hb'
        rcases List.mem_cons.mp hx with h1 | h1
        · subst h1
          exact le_refl _
        · exact le_trans hle (ih y (by rw [hs]; rfl) x h1)
      · rename_i hgt
        simp only [List.head?_cons] at hb
        have hb' : y = b := (Option.some.injEq _ _).mp hb
        subst hb'
        rcases List.mem_cons.mp hx with h1 | h1
        · subst h1
          exact le_of_lt (not_le.mp hgt)
        · exact ih y (by rw [hs]; rfl) x h1

theorem reproduce_prefix {α : Type} [LinearOrderedField α] (D : Point → Point → α)
    (g : Nat → Nat) (ga : GA) (selected : List Chrom) :
    ∀ (fuel : Nat) (next : List Chrom) (k : Nat) (out : List Chrom) (k2 : Nat),
      reproduce D g ga selected fuel next k = (Except.ok out, k2) →
      ∃ tail, out = next ++ tail := by
  intro fuel
  induction fuel with
  | zero =>
    intro next k out k2 hok
    simp only [reproduce] at hok
    have hp := (Prod.mk.injEq _ _ _ _).mp hok
    have he := (Except.ok.injEq _ _).mp hp.1
    exact ⟨[], by rw [← he, List.append_nil]⟩
  | succ f ih =>
    intro next k out k2 hok
    simp only [reproduce] at hok
    split at hok
    · have hp := (Prod.mk.injEq _ _ _ _).mp hok
      have he := (Except.ok.injEq _ _).mp hp.1
      exact ⟨[], by rw [← he, List.append_nil]⟩
    · split at hok
      · simp at hok
      · split at hok
        · simp at hok
        · split at hok
          · simp at hok
          · split at hok
            · simp at hok
            · rename_i c1 k5 hmut
              obtain ⟨tail, htail⟩ := ih _ _ out k2 hok
              rw [htail, List.append_assoc]
              exact ⟨_, rfl⟩

section C6Main

variable {α : Type} [LinearOrderedField α] (D : Point → Point → α) (g : Nat → Nat)

/-- What one successful generation step guarantees when the warehouse list
is a singleton: the measured best is the (stream-independent) fitness of
some member of the population, it bounds every member's fitness from
below, and that best member survives into the next population (elitism). -/
theorem genStep_facts (ga : GA) (w : Point) (hw : ga.warehouses = [w])
    (pop : List Chrom) (hpop : pop ≠ []) (k : Nat) (b : WithTop α) (pop2 : List Chrom)
    (k2 : Nat) (hok : genStep D g ga pop k = (Except.ok (b, pop2), k2)) :
    (∃ bc ∈ pop, b = (fitness D streamZero ga bc 0).1 ∧
      (1 ≤ ga.populationSize → bc ∈ pop2)) ∧
    (∀ c ∈ pop, b ≤ (fitness D streamZero ga c 0).1) := by
  simp only [genStep] at hok
  rw [mapFitness_single D g w ga hw pop k] at hok
  have hm : pop.map (fun c => ((fitness D streamZero ga c 0).1, c)) ≠ [] := by
    simp only [ne_eq, List.map_eq_nil_iff]
    exact hpop
  have hs : sortByKey Prod.fst (pop.map (fun c => ((fitness D streamZero ga c 0).1, c))) ≠
      [] := by
    intro h0
    have hl := (sortByKey_perm (Prod.fst)
      (pop.map (fun c => ((fitness D streamZero ga c 0).1, c)))).length_eq
    rw [h0] at hl
    exact hm (List.length_eq_zero.mp hl.symm)
  obtain ⟨hd, tl, hsort⟩ : ∃ hd tl,
      sortByKey Prod.fst (pop.map (fun c => ((fitness D streamZero ga c 0).1, c))) =
        hd :: tl := by
    cases hq : sortByKey Prod.fst (pop.map (fun c => ((fitness D streamZero ga c 0).1, c)))
      with
    | nil => exact absurd hq hs
    | cons a as => exact ⟨a, as, rfl⟩
  rw [hsort] at hok
  simp only [List.head?_cons, Option.map_some', Option.getD_some] at hok
  have hdm : hd ∈ pop.map (fun c => ((fitness D streamZero ga c 0).1, c)) := by
    have hp := sortByKey_perm (Prod.fst)
      (pop.map (fun c => ((fitness D streamZero ga c 0).1, c)))
    rw [hsort] at hp
    exact hp.subset (by simp)
  obtain ⟨bc, hbc, hbceq⟩ := List.mem_map.mp hdm
  split at hok
  · simp at hok
  · rename_i selected kk2 htour
    split at hok
    · simp at hok
    · rename_i next k3 hrep
      have hp := (Prod.mk.injEq _ _ _ _).mp hok
      have he := (Except.ok.injEq _ _).mp hp.1
      have hb : b = hd.1 := (congrArg Prod.fst he).symm
      have hpop2 : pop2 = next.take ga.populationSize := (congrArg Prod.snd he).symm
      have hdfst : hd.1 = (fitness D streamZero ga bc 0).1 := by
        rw [← hbceq]
      have hhd2 : hd.2 = bc := by
        rw [← hbceq]
      constructor
      · refine ⟨bc, hbc, by rw [hb, hdfst], ?_⟩
        intro hps
        obtain ⟨tail, hout⟩ := reproduce_prefix D g ga selected _ _ _ next k3 hrep
        rw [hpop2, hout]
        have hel2 : (((hd :: tl).map Prod.snd).take 2) ++ tail =
            bc :: ((tl.map Prod.snd).take 1 ++ tail) := by
          simp only [List.map_cons]
          rw [show (hd.2 :: tl.map Prod.snd).take 2 =
            hd.2 :: (tl.map Prod.snd).take 1 from rfl, hhd2, List.cons_append]
        rw [hel2]
        obtain ⟨ps, hpse⟩ : ∃ ps, ga.populationSize = ps + 1 :=
          ⟨ga.populationSize - 1, by omega⟩
        rw [hpse, List.take_succ_cons]
        exact List.mem_cons_self _ _
      · intro c hc
        have hx : ((fitness D streamZero ga c 0).1, c) ∈
            pop.map (fun c => ((fitness D streamZero ga c 0).1, c)) :=
          List.mem_map_of_mem _ hc
        have hmin := sortByKey_head_min Prod.fst
          (pop.map (fun c => ((fitness D streamZero ga c 0).1, c))) hd
          (by rw [hsort]; rfl) _ hx
        rw [hb]
        exact hmin

end C6Main

/-- **C6 (amended).**  When the warehouse list is a singleton — so that the
per-fitness-call random vehicle-to-warehouse binding is deterministic and
the fitness value is stream-independent — the measured best fitness of
consecutive successful generation steps is non-increasing: the best
individual is carried over unmodified among the 2 elites, so the next
sort's head key can only be at most its fitness.  (With two or more
warehouses the re-randomised binding breaks this; see the
counterexample.) -/
theorem C6_monotonic_single_wh {α : Type} [LinearOrderedField α] (D : Point → Point → α)
    (g : Nat → Nat) (ga : GA) (w : Point) (hw : ga.warehouses = [w])
    (hps : 1 ≤ ga.populationSize) (pop pop1 pop2 : List Chrom) (hpop : pop ≠ [])
    (k1 k2 k1' k2' : Nat) (b1 b2 : WithTop α)
    (h1 : genStep D g ga pop k1 = (Except.ok (b1, pop1), k1'))
    (h2 : genStep D g ga pop1 k2 = (Except.ok (b2, pop2), k2')) :
    b2 ≤ b1 := by
  obtain ⟨⟨bc, hbc, hbeq, hbin⟩, _⟩ := genStep_facts D g ga w hw pop hpop k1 b1 pop1 k1' h1
  have hbc1 : bc ∈ pop1 := hbin hps
  have hpop1 : pop1 ≠ [] := by
    intro h0
    rw [h0] at hbc1
    cases hbc1
  obtain ⟨_, hle⟩ := genStep_facts D g ga w hw pop1 hpop1 k2 b2 pop2 k2' h2
  rw [hbeq]
  exact hle bc hbc1

/-- Witness for the amended C6 on the trivial single-warehouse
configuration: two consecutive generation steps from the one-individual
population keep the measured best fitness at `0`. -/
theorem C6_monotonic_witness :
    (genStep (α := ℚ) distX streamZero gaTrivial [[]] 0 =
      (Except.ok (((0 : ℚ) : WithTop ℚ), [([] : Chrom)]), 1)) ∧
    ((0 : ℚ) : WithTop ℚ) ≤ ((0 : ℚ) : WithTop ℚ) :=
  ⟨rfl,
    C6_monotonic_single_wh distX streamZero gaTrivial wh00 rfl (by decide)
      [[]] [[]] [[]] (by decide) 0 1 1 2 (((0 : ℚ) : WithTop ℚ)) (((0 : ℚ) : WithTop ℚ))
      rfl rfl⟩

/-! ### C6: two warehouses break the monotonicity

`fitness` re-randomises every vehicle's assigned warehouse on each call
(`random.choice(self.warehouses)` inside `calculate_service_plan`), so with
two warehouses the same population can be re-scored worse in the next
generation.  The instance: warehouses at `(0,0)` and `(10,0)`, one pickup
point at `(1,0)` needing one unit of oranges, one vehicle of capacity `4`
(so its initial load `(4 // 4) // 3` is zero and the `80%` unload threshold
is never reached), population and tournament size `1`. -/

/-- A second warehouse at `(10, 0)`. -/
def w2C6 : Point :=
  { pid := 40, x := 10, y := 0, demands := Goods.zero, ptype := PType.warehouse }

/-- A pickup point at `(1, 0)` needing one unit of oranges picked up. -/
def pMono : Point :=
  { pid := 41, x := 1, y := 0
    demands := { oranges := -1, uranium := 0, tuna := 0 }, ptype := PType.pickup }

/-- Two warehouses, one pickup point, one vehicle of capacity `4`,
population size `1`, tournament size `1`. -/
def gaC6 : GA :=
  { points := [wh00, w2C6, pMono], warehouses := [wh00, w2C6]
    servicePoints := [pMono], deliveryPoints := [], pickupPoints := [pMono]
    caps := [4], populationSize := 1, generations := 1, mutationRate := 0
    tournamentSize := 1 }

/-- A raw draw stream whose draw at position `3` is `1` and all others are
`0`: exactly the fitness evaluation inside the second generation step binds
the vehicle to the far warehouse. -/
def g6 : Nat → Nat := fun n => if n = 3 then 1 else 0

/-- The single vehicle of `gaC6` as created, assigned to warehouse `W`. -/
def vC6 (W : Point) : Vehicle :=
  { vid := 1, capacity := 4, loads := Goods.zero, route := [], assignedWh := W }

/-- The vehicle after `reset`, `partial_load` (which loads nothing: the
initial-load split is `(4 // 4) // 3 = 0`) and the `initial_load` stop. -/
def vInitC6 (W : Point) : Vehicle := initVehicle (initRem gaC6) (vC6 W)

/-- The vehicle after additionally picking up the one unit of oranges. -/
def vFinC6 (W : Point) : Vehicle :=
  addStop (initRem gaC6) (vInitC6 W) pMono (some [(Good.oranges, 1)]) false
    OpType.pickup

theorem createVehicles_C6_0 :
    createVehicles g6 [wh00, w2C6] [4] 0 0 = (Except.ok [vC6 wh00], 1) := rfl

theorem createVehicles_C6_2 :
    createVehicles g6 [wh00, w2C6] [4] 0 2 = (Except.ok [vC6 wh00], 3) := rfl

theorem createVehicles_C6_3 :
    createVehicles g6 [wh00, w2C6] [4] 0 3 = (Except.ok [vC6 w2C6], 4) := rfl

theorem createVehicles_C6_5 :
    createVehicles g6 [wh00, w2C6] [4] 0 5 = (Except.ok [vC6 wh00], 6) := rfl

theorem vFin_route (W : Point) : (vFinC6 W).route =
    [{ point := W
       amounts := [(Good.oranges, 0), (Good.uranium, 0), (Good.tuna, 0)]
       opType := OpType.initial_load, loadAfter := Goods.zero
       remAtPoint := none, isWarehouse := true },
     { point := pMono, amounts := [(Good.oranges, 1)], opType := OpType.pickup
       loadAfter := { oranges := 1, uranium := 0, tuna := 0 }
       remAtPoint := some { oranges := -1, uranium := 0, tuna := 0 }
       isWarehouse := false }] := rfl

theorem dist_self_C6 (p : Point) : Point.distance_to p p = 0 := by
  unfold Point.distance_to
  rw [sub_self, sub_self]
  rw [show (((0 : Int) : ℝ)) ^ 2 + (((0 : Int) : ℝ)) ^ 2 = 0 by norm_num]
  exact Real.sqrt_zero

theorem dW1P : Point.distance_to wh00 pMono = 1 := by
  rw [distance_to_x wh00 pMono rfl]
  norm_num [wh00, pMono]

theorem dW2P : Point.distance_to w2C6 pMono = 9 := by
  rw [distance_to_x w2C6 pMono rfl]
  norm_num [w2C6, pMono]

theorem dPW1 : Point.distance_to pMono wh00 = 1 := by
  rw [distance_to_x pMono wh00 rfl]
  norm_num [pMono, wh00]

theorem dPW2 : Point.distance_to pMono w2C6 = 9 := by
  rw [distance_to_x pMono w2C6 rfl]
  norm_num [pMono, w2C6]

/-- The pickup point is nearer to the origin warehouse than to the far
one. -/
theorem pMono_near :
    ¬ (Point.distance_to pMono w2C6 < Point.distance_to pMono wh00) := by
  rw [dPW2, dPW1]
  norm_num

theorem svpFirst_C6 (W : Point) :
    svpFirst (α := ℝ) Point.distance_to [vInitC6 W] pMono Good.oranges 1 =
      some 0 := by
  unfold svpFirst
  rw [show ([vInitC6 W] : List Vehicle).enum = [(0, vInitC6 W)] from rfl]
  rw [List.foldl_cons, List.foldl_nil]
  show (if canPickup (vInitC6 W) [(Good.oranges, 1)] = false
      then ((none : Option Nat), (⊤ : WithTop ℝ))
      else
        if ((Point.distance_to (vehPos (vInitC6 W)) pMono : ℝ) : WithTop ℝ) <
            (⊤ : WithTop ℝ)
        then (some 0,
          ((Point.distance_to (vehPos (vInitC6 W)) pMono : ℝ) : WithTop ℝ))
        else ((none : Option Nat), (⊤ : WithTop ℝ))).1 = some 0
  rw [show canPickup (vInitC6 W) [(Good.oranges, 1)] = true from rfl]
  rw [if_neg (by simp)]
  rw [if_pos (WithTop.coe_lt_top _)]

theorem selPickup_C6 (W : Point) :
    selectVehicleForPickup (α := ℝ) Point.distance_to [vInitC6 W] pMono
      Good.oranges 1 = some 0 := by
  unfold selectVehicleForPickup
  rw [svpFirst_C6 W]

theorem pickupLoop_C6 (W : Point) :
    pickupLoop (α := ℝ) Point.distance_to [wh00, w2C6] pMono Good.oranges
      (0 + 1) 1 [vInitC6 W] (initRem gaC6) =
    Except.ok ([vFinC6 W], [(41, Goods.zero)]) := by
  simp only [pickupLoop]
  rw [if_neg (by decide)]
  rw [selPickup_C6 W]
  rfl

theorem handlePickup_C6 (W : Point) :
    handlePickup (α := ℝ) Point.distance_to [wh00, w2C6] pMono goodList
      [vInitC6 W] (initRem gaC6) =
    Except.ok ([vFinC6 W], [(41, Goods.zero)]) := by
  rw [show goodList = [Good.oranges, Good.uranium, Good.tuna] from rfl]
  simp only [handlePickup]
  rw [if_neg (by decide)]
  rw [show (-((remGet (initRem gaC6) pMono).get Good.oranges)) = (1 : Int) from rfl]
  rw [show ((1 : Int)).toNat = 0 + 1 from rfl]
  rw [pickupLoop_C6 W]
  rfl

theorem processInd_C6 (W : Point) :
    processInd (α := ℝ) Point.distance_to [wh00, w2C6] [some pMono]
      [vInitC6 W] (initRem gaC6) =
    Except.ok ([vFinC6 W], [(41, Goods.zero)]) := by
  simp only [processInd]
  rw [if_neg (by decide), if_pos (by decide)]
  rw [handlePickup_C6 W]

theorem plan_C6 (W : Point) (k : Nat)
    (hcv : createVehicles g6 [wh00, w2C6] [4] 0 k = (Except.ok [vC6 W], k + 1)) :
    calculateServicePlan (α := ℝ) Point.distance_to g6 gaC6 [some pMono] k =
      (Except.ok ([vFinC6 W], [(41, Goods.zero)]), k + 1) := by
  unfold calculateServicePlan
  rw [show gaC6.warehouses = [wh00, w2C6] from rfl]
  rw [show gaC6.caps = [4] from rfl]
  rw [hcv]
  show (match processInd (α := ℝ) Point.distance_to [wh00, w2C6] [some pMono]
      ([vC6 W].map (initVehicle (initRem gaC6))) (initRem gaC6) with
    | Except.error e => (Except.error e, k + 1)
    | Except.ok (vs, rem) => (Except.ok (vs, rem), k + 1)) =
    (Except.ok ([vFinC6 W], [(41, Goods.zero)]), k + 1)
  rw [show ([vC6 W].map (initVehicle (initRem gaC6))) = [vInitC6 W] from rfl]
  rw [processInd_C6 W]

theorem fitness_C6 (W : Point) (k : Nat)
    (hcv : createVehicles g6 [wh00, w2C6] [4] 0 k = (Except.ok [vC6 W], k + 1)) :
    fitness (α := ℝ) Point.distance_to g6 gaC6 [some pMono] k =
      (((0 + (0 + Point.distance_to W W + Point.distance_to W pMono +
          Point.distance_to pMono wh00) : ℝ) : WithTop ℝ), k + 1) := by
  have hnear : findNearestWarehouse (α := ℝ) Point.distance_to [wh00, w2C6]
      (vFinC6 W) = some wh00 := by
    unfold findNearestWarehouse
    rw [show vehPos (vFinC6 W) = pMono from rfl]
    simp only [minByKey]
    rw [List.foldl_cons, List.foldl_nil]
    rw [if_neg pMono_near]
  have hvd : vehicleDistance (α := ℝ) Point.distance_to [wh00, w2C6] (vFinC6 W) =
      some (0 + Point.distance_to W W + Point.distance_to W pMono +
        Point.distance_to pMono wh00) := by
    simp only [vehicleDistance]
    rw [if_neg (show ¬ ((vFinC6 W).route = []) from by rw [vFin_route]; simp)]
    rw [hnear]
    rw [vFin_route]
    rw [List.foldl_cons, List.foldl_cons, List.foldl_nil]
    rfl
  have hfd : fleetDistance (α := ℝ) Point.distance_to [wh00, w2C6] [vFinC6 W] =
      some (0 + (0 + Point.distance_to W W + Point.distance_to W pMono +
        Point.distance_to pMono wh00)) := by
    unfold fleetDistance
    rw [List.foldl_cons, List.foldl_nil]
    rw [hvd]
  unfold fitness
  rw [if_neg (by decide)]
  rw [plan_C6 W k hcv]
  show (match fleetDistance (α := ℝ) Point.distance_to gaC6.warehouses
      [vFinC6 W] with
    | none => ((⊤ : WithTop ℝ), k + 1)
    | some t => ((t : WithTop ℝ), k + 1)) =
    (((0 + (0 + Point.distance_to W W + Point.distance_to W pMono +
        Point.distance_to pMono wh00) : ℝ) : WithTop ℝ), k + 1)
  rw [show gaC6.warehouses = [wh00, w2C6] from rfl]
  rw [hfd]

theorem fitC6_w1 (k : Nat)
    (hcv : createVehicles g6 [wh00, w2C6] [4] 0 k = (Except.ok [vC6 wh00], k + 1)) :
    fitness (α := ℝ) Point.distance_to g6 gaC6 [some pMono] k =
      (((2 : ℝ) : WithTop ℝ), k + 1) := by
  rw [fitness_C6 wh00 k hcv]
  rw [dist_self_C6 wh00, dW1P, dPW1]
  rw [show ((0 : ℝ) + (0 + 0 + 1 + 1)) = 2 by norm_num]

theorem fitC6_w2 (k : Nat)
    (hcv : createVehicles g6 [wh00, w2C6] [4] 0 k = (Except.ok [vC6 w2C6], k + 1)) :
    fitness (α := ℝ) Point.distance_to g6 gaC6 [some pMono] k =
      (((10 : ℝ) : WithTop ℝ), k + 1) := by
  rw [fitness_C6 w2C6 k hcv]
  rw [dist_self_C6 w2C6, dW2P, dPW1]
  rw [show ((0 : ℝ) + (0 + 0 + 9 + 1)) = 10 by norm_num]

theorem mapFitness_C6_0 :
    mapFitness (α := ℝ) Point.distance_to g6 gaC6 [[some pMono]] 0 =
      ([(((2 : ℝ) : WithTop ℝ), [some pMono])], 1) := by
  simp only [mapFitness]
  rw [fitC6_w1 0 createVehicles_C6_0]

theorem mapFitness_C6_3 :
    mapFitness (α := ℝ) Point.distance_to g6 gaC6 [[some pMono]] 3 =
      ([(((10 : ℝ) : WithTop ℝ), [some pMono])], 4) := by
  simp only [mapFitness]
  rw [fitC6_w2 3 createVehicles_C6_3]

theorem minByFit_C6_2 :
    minByFitness (α := ℝ) Point.distance_to g6 gaC6 [[some pMono]] 2 =
      (Except.ok [some pMono], 3) := by
  simp only [minByFitness]
  rw [fitC6_w1 2 createVehicles_C6_2]
  simp only [minByFitGo]

theorem minByFit_C6_5 :
    minByFitness (α := ℝ) Point.distance_to g6 gaC6 [[some pMono]] 5 =
      (Except.ok [some pMono], 6) := by
  simp only [minByFitness]
  rw [fitC6_w1 5 createVehicles_C6_5]
  simp only [minByFitGo]

theorem tourn_C6_1 :
    tournamentSelection (α := ℝ) Point.distance_to g6 gaC6 1 [[some pMono]] 1 =
      (Except.ok [[some pMono]], 3) := by
  show tournamentSelection (α := ℝ) Point.distance_to g6 gaC6 (0 + 1)
    [[some pMono]] 1 = (Except.ok [[some pMono]], 3)
  simp only [tournamentSelection]
  rw [show sampleK g6 [[some pMono]] gaC6.tournamentSize 1 =
    (Except.ok [[some pMono]], 2) from rfl]
  simp only
  rw [minByFit_C6_2]

theorem tourn_C6_4 :
    tournamentSelection (α := ℝ) Point.distance_to g6 gaC6 1 [[some pMono]] 4 =
      (Except.ok [[some pMono]], 6) := by
  show tournamentSelection (α := ℝ) Point.distance_to g6 gaC6 (0 + 1)
    [[some pMono]] 4 = (Except.ok [[some pMono]], 6)
  simp only [tournamentSelection]
  rw [show sampleK g6 [[some pMono]] gaC6.tournamentSize 4 =
    (Except.ok [[some pMono]], 5) from rfl]
  simp only
  rw [minByFit_C6_5]

theorem genStep_C6_0 :
    genStep (α := ℝ) Point.distance_to g6 gaC6 [[some pMono]] 0 =
      (Except.ok (((2 : ℝ) : WithTop ℝ), [[some pMono]]), 3) := by
  simp only [genStep]
  rw [mapFitness_C6_0]
  simp only
  rw [show ((sortByKey Prod.fst
      [(((2 : ℝ) : WithTop ℝ), ([some pMono] : Chrom))]).map Prod.snd) =
    [[some pMono]] from rfl]
  rw [show gaC6.populationSize = 1 from rfl]
  rw [tourn_C6_1]
  rfl

theorem genStep_C6_3 :
    genStep (α := ℝ) Point.distance_to g6 gaC6 [[some pMono]] 3 =
      (Except.ok (((10 : ℝ) : WithTop ℝ), [[some pMono]]), 6) := by
  simp only [genStep]
  rw [mapFitness_C6_3]
  simp only
  rw [show ((sortByKey Prod.fst
      [(((10 : ℝ) : WithTop ℝ), ([some pMono] : Chrom))]).map Prod.snd) =
    [[some pMono]] from rfl]
  rw [show gaC6.populationSize = 1 from rfl]
  rw [tourn_C6_4]
  rfl

/-- C6 counterexample: on the two-warehouse instance `gaC6` under the
stream `g6`, two consecutive generation steps from the same one-individual
population return it unchanged, yet the measured best fitness rises from
`2` to `10`: the per-call `random.choice` warehouse binding re-scores the
identical individual worse, so the best fitness per generation is not
non-increasing. -/
theorem C6_monotonic_counterexample :
    genStep (α := ℝ) Point.distance_to g6 gaC6 [[some pMono]] 0 =
        (Except.ok (((2 : ℝ) : WithTop ℝ), [[some pMono]]), 3) ∧
      genStep (α := ℝ) Point.distance_to g6 gaC6 [[some pMono]] 3 =
        (Except.ok (((10 : ℝ) : WithTop ℝ), [[some pMono]]), 6) ∧
      ¬ (((10 : ℝ) : WithTop ℝ) ≤ ((2 : ℝ) : WithTop ℝ)) :=
  ⟨genStep_C6_0, genStep_C6_3, by
    simp only [WithTop.coe_le_coe]
    norm_num⟩
